import Mathlib

/-!
# Incremental RAM snapshot saver (`android/snapshot/RamSaver.h`)

A shallow embedding of the `RamSaver` class of the Android emulator snapshot
subsystem.  The header `RamSaver.h` declares the data model (`FileIndex`,
`Page`, `WriteInfo`, `QueuedPageInfo`), the member initialisers and the inline
accessors (`hasError`, `compressed`, `diskSize`, `incremental`, `getDuration`,
`Page::zeroed`); these are embedded from the source.  The bodies of
`registerBlock`, `savePage`, `handlePageSave`, `writePage`, `writeIndex`,
`complete` and `join` live in `RamSaver.cpp`, and `RamBlock`, `IndexFlags`,
`GapTracker`, `RamLoader` and the compressor live in other headers; those are
modelled from the specification and every such definition says so.

Conventions: a byte is a natural number, host memory is a function from
addresses to bytes, a file is a size together with a function from offsets to
bytes.  A null pointer argument is `none`.  A fatal assertion is `none` as the
result of an operation.

After the saver come the embeddings of three other sources, each under a
header of its own: `QemuEvent` (`util/qemu-thread-posix.c`), the FFmpeg H.264
decoder (`android/emulation/MediaH264DecoderFfmpeg.cpp`) and the event loop of
Icebox `track` (`android/snapshot/Icebox.cpp`).
-/

namespace Snapshot

/-! ## Data model -/

/-- The `Hash` alias of `RamSaver.h`: `std::array<char, 16>`. -/
abbrev Hash := List Int

/-- Modelled from the spec: `RamBlock` (android/snapshot/common.h) is not in the
sources.  The spec gives it as `{ id, hostPointer, totalSize, pageSize }`;
`startOffset` is the guest offset by which `savePage(blockOffset, ..)` names
the block. -/
structure RamBlock where
  id : String
  startOffset : Nat
  hostPtr : Nat
  totalSize : Nat
  pageSize : Nat
deriving DecidableEq, Repr

/-- The `QueuedPageInfo` struct of `RamSaver.h`; `pageIndex == pageOffset / block.pageSize`. -/
structure QueuedPageInfo where
  blockIndex : Nat
  pageIndex : Nat
deriving DecidableEq, Repr

/-- The `FileIndex::Block::Page` struct of `RamSaver.h`. -/
structure Page where
  sizeOnDisk : Int := 0
  same : Bool := false
  hashFilled : Bool := false
  filePos : Int := 0
  hash : Hash := []
deriving DecidableEq, Repr

/-- The member `bool zeroed() const { return sizeOnDisk == 0; }`. -/
def Page.zeroed (p : Page) : Bool := p.sizeOnDisk == 0

/-- The `FileIndex::Block` struct of `RamSaver.h`. -/
structure Block where
  ramBlock : RamBlock
  pages : List Page
deriving DecidableEq, Repr

/-- Modelled from the spec: the value of `IndexFlags::Empty` (android/snapshot/common.h
is not in the sources); the empty bit set. -/
def IndexFlags.Empty : Int := 0

/-- Modelled from the spec: the value of `IndexFlags::CompressedPages`
(android/snapshot/common.h is not in the sources); the "pages compressed" bit
of the flags bit set. -/
def IndexFlags.CompressedPages : Int := 1

/-- The `FileIndex` struct of `RamSaver.h`, with its member initialisers. -/
structure FileIndex where
  startPosInFile : Int := 0
  version : Int := 2
  flags : Int := IndexFlags.Empty
  totalPages : Int := 0
  blocks : List Block := []
deriving DecidableEq, Repr

/-- The `WriteInfo` struct of `RamSaver.h`.  The `page` pointer is the position
of the entry in the index, `ptr` the bytes it points to. -/
structure WriteInfo where
  page : QueuedPageInfo
  ptr : List Nat
  allocated : Bool
deriving DecidableEq, Repr

/-- The enumerators of `enum class Flags : uint8_t`. -/
def Flags.None : Nat := 0

/-- `Flags::Async = 0x1`. -/
def Flags.Async : Nat := 1

/-- `Flags::Compress = 0x4`. -/
def Flags.Compress : Nat := 4

/-- Modelled from the spec: `IncrementalStats` is not in the sources; the spec
lists counters for pages same / changed / zero and bytes written. -/
structure IncrementalStats where
  samePages : Nat := 0
  changedPages : Nat := 0
  zeroPages : Nat := 0
  bytesWritten : Nat := 0
deriving DecidableEq, Repr

/-! ## Files -/

/-- Modelled from the spec: the host file system ("raw file handle") is not in
the sources; a file is its size and its bytes. -/
structure File where
  size : Nat
  data : Nat → Nat

/-- Modelled from the spec: "seek to `filePos` and read `sizeOnDisk` bytes": the
bytes `pos .. pos + n - 1` of a file. -/
def File.read (f : File) (pos n : Nat) : List Nat :=
  (List.range n).map (fun i => f.data (pos + i))

/-- Modelled from the spec: a write of `bs` at offset `pos` of the host file; it
extends the file when needed. -/
def File.write (f : File) (pos : Nat) (bs : List Nat) : File :=
  { size := max f.size (pos + bs.length)
    data := fun i => if pos ≤ i ∧ i < pos + bs.length then bs.getD (i - pos) 0 else f.data i }

/-- Modelled from the spec: a new file in which the constructor "reserves 8 bytes
at offset 0 for the eventual index offset". -/
def File.reserved : File := { size := 8, data := fun _ => 0 }

/-- Modelled from the spec: the 8-byte index-offset field ("int64", "host byte
order", taken little-endian): the image of a 64-bit value. -/
def encode64 (n : Nat) : List Nat :=
  (List.range 8).map (fun i => (n / 256 ^ i) % 256)

/-- Modelled from the spec: reading the 8-byte index-offset field: the value of a
little-endian byte string. -/
def decode64 (bs : List Nat) : Nat :=
  bs.foldr (fun b acc => b + 256 * acc) 0

/-- Modelled from the spec: `base::StdioStream` over the host file system is not
in the sources.  Writes can fail ("I/O failure (open/write/seek failing)"): the
`fails` oracle says which write calls fail (`some k`: the call fails after `k`
bytes have reached the file), `nOps` counts the calls made. -/
structure StdioStream where
  file : File
  nOps : Nat := 0
  fails : Nat → Option Nat

/-- Modelled from the spec: one write call on the stream (`base::StdioStream` is
not in the sources): the new stream and whether the call succeeded. -/
def StdioStream.pwrite (st : StdioStream) (pos : Nat) (bs : List Nat) : StdioStream × Bool :=
  match st.fails st.nOps with
  | some k => ({ st with file := st.file.write pos (bs.take k), nOps := st.nOps + 1 }, false)
  | none => ({ st with file := st.file.write pos bs, nOps := st.nOps + 1 }, true)

/-! ## External collaborators -/

/-- Modelled from the spec: the collaborators the saver consumes as black boxes
and which are not in the sources: the page digest (`calcHash`), the compressor
(`compress(bytes) → bytes`, `decompress(bytes) → bytes`) and the serialisation
of the `FileIndex`. -/
structure Env where
  calcHash : List Nat → Hash
  compress : List Nat → List Nat
  decompress : List Nat → List Nat
  encodeIndex : FileIndex → List Nat
  decodeIndex : List Nat → Option FileIndex

/-- Modelled from the spec: `GapTracker` (android/snapshot/GapTracker.h) is not
in the sources: the free byte ranges `(offset, size)` of the payload region. -/
structure GapTracker where
  gaps : List (Nat × Nat) := []
deriving DecidableEq, Repr

/-- Modelled from the spec: the search of `GapTracker::reserve` (not in the
sources), "first-fit": the first free range of at least `size` bytes. -/
def GapTracker.firstFit : List (Nat × Nat) → Nat → Option (Nat × List (Nat × Nat))
  | [], _ => none
  | (a, n) :: rest, size =>
    if size ≤ n then
      some (a, if n = size then rest else (a + size, n - size) :: rest)
    else
      match GapTracker.firstFit rest size with
      | none => none
      | some (p, r) => some (p, (a, n) :: r)

/-- Modelled from the spec: `reserve(size) → offset` (first-fit range); `none`
when no gap is large enough, and the caller allocates at end-of-file. -/
def GapTracker.reserve (g : GapTracker) (size : Nat) : Option (Nat × GapTracker) :=
  match GapTracker.firstFit g.gaps size with
  | none => none
  | some (p, r) => some (p, { gaps := r })

/-- Modelled from the spec: `release(offset, size)` marks a range free again. -/
def GapTracker.release (g : GapTracker) (offset size : Nat) : GapTracker :=
  { gaps := g.gaps ++ [(offset, size)] }

/-- Modelled from the spec: `RamLoader` (android/snapshot/RamLoader.h) is not in
the sources: it holds the index of the prior snapshot, parsed once. -/
structure RamLoader where
  index : FileIndex
deriving DecidableEq, Repr

/-- The entry of page `(blockIndex, pageIndex)` in an index. -/
def FileIndex.page? (idx : FileIndex) (blockIndex pageIndex : Nat) : Option Page :=
  match idx.blocks[blockIndex]? with
  | none => none
  | some b => b.pages[pageIndex]?

/-- Replace the entry of page `(blockIndex, pageIndex)` in an index. -/
def FileIndex.setPage (idx : FileIndex) (blockIndex pageIndex : Nat) (p : Page) : FileIndex :=
  match idx.blocks[blockIndex]? with
  | none => idx
  | some b =>
    { idx with blocks := idx.blocks.set blockIndex { b with pages := b.pages.set pageIndex p } }

/-- Modelled from the spec: `hashForPage(blockIndex, pageIndex) → (hash, valid)`. -/
def RamLoader.hashForPage (l : RamLoader) (blockIndex pageIndex : Nat) : Hash × Bool :=
  match l.index.page? blockIndex pageIndex with
  | none => ([], false)
  | some p => (p.hash, p.hashFilled)

/-- Modelled from the spec: `filePosForPage(blockIndex, pageIndex) → (offset, size)`. -/
def RamLoader.filePosForPage (l : RamLoader) (blockIndex pageIndex : Nat) : Int × Int :=
  match l.index.page? blockIndex pageIndex with
  | none => (0, 0)
  | some p => (p.filePos, p.sizeOnDisk)

/-- Modelled from the spec: loader construction, "read the 8-byte pointer at
offset 0, seek to it, deserialize the FileIndex"; fails on a corrupt file. -/
def RamLoader.create (env : Env) (f : File) : Option RamLoader :=
  let off := decode64 (f.read 0 8)
  match env.decodeIndex (f.read off (f.size - off)) with
  | none => none
  | some idx => some { index := { idx with startPosInFile := (off : Int) } }

/-! ## The saver -/

/-- The data members of `RamSaver` (`RamSaver.h`) with their initialisers.
`mWriter` holds the `WriteInfo` items waiting in the writer's channel;
`mCompleted` records that `complete()` has run.  The members that only serve
the thread pool and the buffer pool (`mStreamFd`, `mLoaderOnDemand`, `mWorkers`,
`mCompressBufferMemory`, `mCompressBuffers`, `mSystem`) are left out. -/
structure RamSaver where
  mLoader : Option RamLoader := none
  mStream : StdioStream
  mFlags : Nat
  mJoined : Bool := false
  mHasError : Bool := false
  mLastBlockIndex : Int := -1
  mCurrentStreamPos : Nat := 8
  mWriter : List WriteInfo := []
  mGaps : GapTracker := {}
  mIndex : FileIndex := {}
  mDiskSize : Nat := 0
  mStartTime : Int
  mEndTime : Int := 0
  mIncStats : IncrementalStats := {}
  mCompleted : Bool := false

/-- A saver as the member initialisers of `RamSaver.h` leave it (`mEndTime = 0`,
`mHasError = false`, an empty index, ...), with start timestamp `now`, the clock
reading `getHighResTimeUs()` taken at construction. -/
def RamSaver.initial (now : Int) : RamSaver :=
  { mStream := { file := File.reserved, fails := fun _ => none }
    mFlags := Flags.None
    mStartTime := now }

/-- `bool hasError() const { return mHasError; }` -/
def RamSaver.hasError (s : RamSaver) : Bool := s.mHasError

/-- `bool compressed() const { return mIndex.flags & int32_t(IndexFlags::CompressedPages); }`
The enumerator's value is declared outside the sources, so it is a parameter;
the conversion of the `int32_t` result to `bool` is the test against zero. -/
def RamSaver.compressed (CompressedPages : Int) (s : RamSaver) : Bool :=
  Int.land s.mIndex.flags CompressedPages != 0

/-- `uint64_t diskSize() const { return mDiskSize; }` -/
def RamSaver.diskSize (s : RamSaver) : Nat := s.mDiskSize

/-- `bool incremental() const { return mLoader != nullptr; }` -/
def RamSaver.incremental (s : RamSaver) : Bool := s.mLoader.isSome

/-- Modelled from the spec: `base::System::Duration` (android/base/system/System.h)
is not in the sources; timestamps are signed 64-bit microsecond counts, and this
is the two's complement result of 64-bit arithmetic. -/
def wrapDuration (x : Int) : Int := (x + 2 ^ 63) % 2 ^ 64 - 2 ^ 63

/-- The member `bool getDuration(base::System::Duration* duration)`.  The
argument is the pointee (`none` for a null pointer); the result is the return
value, the pointee afterwards and the saver afterwards. -/
def RamSaver.getDuration (s : RamSaver) (duration : Option Int) :
    Bool × Option Int × RamSaver :=
  if s.mEndTime < s.mStartTime then
    (false, duration, s)
  else
    match duration with
    | some _ => (true, some (wrapDuration (s.mEndTime - s.mStartTime)), s)
    | none => (true, none, s)

/-! ## Operations of the saver (bodies in `RamSaver.cpp`) -/

/-- Modelled from the spec: the number of pages of a block (`RamBlock` is not in
the sources), "one Page per page-index within the block (dense, index =
byteOffset / pageSize)". -/
def RamBlock.numPages (b : RamBlock) : Nat := b.totalSize / b.pageSize

/-- Modelled from the spec: the bytes of page `pageIndex` of a block, read from
host memory behind the block's host pointer. -/
def pageBytes (mem : Nat → Nat) (b : RamBlock) (pageIndex : Nat) : List Nat :=
  (List.range b.pageSize).map (fun k => mem (b.hostPtr + pageIndex * b.pageSize + k))

/-- Modelled from the spec: the check "whether the page is entirely zero (a
dedicated fast scan)", which is not in the sources. -/
def isZeroPage (bytes : List Nat) : Bool := bytes.all (fun b => b == 0)

/-- Whether `Flags::Compress` is set in a flags value. -/
def Flags.hasCompress (flags : Nat) : Bool := (flags &&& Flags.Compress) != 0

/-- Modelled from the spec: the constructor (body in `RamSaver.cpp`).  `existing`
is the content of the destination file.  A full save (no loader) starts a new
file with the 8 reserved bytes; an incremental save keeps the file, appends at
its end and starts from the gap tracker handed over by the prior snapshot.  The
start timestamp is the clock reading `now`. -/
def RamSaver.create (existing : File) (preferredFlags : Nat) (loader : Option RamLoader)
    (gaps : GapTracker) (fails : Nat → Option Nat) (now : Int) : RamSaver :=
  { mLoader := loader
    mStream := { file := if loader.isSome then existing else File.reserved, fails := fails }
    mFlags := preferredFlags
    mCurrentStreamPos := if loader.isSome then max 8 existing.size else 8
    mGaps := if loader.isSome then gaps else {}
    mIndex :=
      { flags := if Flags.hasCompress preferredFlags then IndexFlags.CompressedPages
                 else IndexFlags.Empty }
    mStartTime := now }

/-- Modelled from the spec: `registerBlock(block)` (body in `RamSaver.cpp`)
"appends a RamBlock descriptor to the index in registration order"; every page
of the block gets its entry.  Registering after saving has begun or registering
the same block twice is a fatal assertion. -/
def RamSaver.registerBlock (s : RamSaver) (block : RamBlock) : Option RamSaver :=
  if 0 ≤ s.mLastBlockIndex ∨ s.mCompleted = true then none
  else if s.mIndex.blocks.any (fun b => b.ramBlock.startOffset == block.startOffset) then none
  else
    some { s with
      mIndex := { s.mIndex with
        totalPages := s.mIndex.totalPages + (block.numPages : Int)
        blocks := s.mIndex.blocks ++ [{ ramBlock := block, pages := List.replicate block.numPages {} }] } }

/-- Modelled from the spec: the search of step 1 of `savePage` (body in
`RamSaver.cpp`): index of the first block registered at guest offset
`blockOffset`. -/
def findBlock : List Block → Int → Option Nat
  | [], _ => none
  | b :: rest, blockOffset =>
    if (b.ramBlock.startOffset : Int) = blockOffset then some 0
    else
      match findBlock rest blockOffset with
      | none => none
      | some i => some (i + 1)

/-- Modelled from the spec: step 1 of `savePage`, "resolve (blockIndex, pageIndex)
from the byte offsets", with `pageIndex == pageOffset / block.pageSize`. -/
def RamSaver.resolve (s : RamSaver) (blockOffset pageOffset : Int) : Option QueuedPageInfo :=
  match findBlock s.mIndex.blocks blockOffset with
  | none => none
  | some bi =>
    match s.mIndex.blocks[bi]? with
    | none => none
    | some b =>
      if 0 ≤ pageOffset ∧ (pageOffset / (b.ramBlock.pageSize : Int)).toNat < b.pages.length then
        some { blockIndex := bi, pageIndex := (pageOffset / (b.ramBlock.pageSize : Int)).toNat }
      else none

/-- Modelled from the spec: step 2 of `savePage`, "ask the loader for the prior
page's hash and on-disk position"; the prior `(filePos, sizeOnDisk)` when the
save is incremental and the valid prior digest equals `hash`. -/
def RamSaver.priorMatch (s : RamSaver) (pi : QueuedPageInfo) (hash : Hash) : Option (Int × Int) :=
  match s.mLoader with
  | none => none
  | some l =>
    if (l.hashForPage pi.blockIndex pi.pageIndex).2 = true
        ∧ (l.hashForPage pi.blockIndex pi.pageIndex).1 = hash then
      some (l.filePosForPage pi.blockIndex pi.pageIndex)
    else none

/-- Modelled from the spec: step 4 of `savePage`, the `WriteInfo` for a changed
page: the bytes, compressed when compression is enabled (then they live in a
pool buffer). -/
def RamSaver.makeWriteInfo (env : Env) (s : RamSaver) (pi : QueuedPageInfo) (bytes : List Nat) :
    WriteInfo :=
  { page := pi
    ptr := if Flags.hasCompress s.mFlags then env.compress bytes else bytes
    allocated := Flags.hasCompress s.mFlags }

/-- Modelled from the spec: steps 2 to 4 of `savePage` for one page (body of
`handlePageSave` in `RamSaver.cpp`): the digest of the raw bytes is computed;
with a loader and a matching valid prior digest the entry is marked `same` and
copies the prior `filePos`/`sizeOnDisk`; otherwise an all-zero page gets
`sizeOnDisk = 0`; otherwise the (optionally compressed) bytes are queued for the
writer as a `WriteInfo`.  Every page is hashed, in full saves too ("each page
flows: classify, hash, (compress), write-slot assignment, disk write, index
update"); classification and hashing run on the caller's thread, which the
spec allows when `Flags::Async` is not set. -/
def RamSaver.handlePageSave (env : Env) (mem : Nat → Nat) (s : RamSaver)
    (pi : QueuedPageInfo) : RamSaver :=
  match s.mIndex.blocks[pi.blockIndex]? with
  | none => s
  | some block =>
    match s.priorMatch pi (env.calcHash (pageBytes mem block.ramBlock pi.pageIndex)) with
    | some prior =>
      { s with
        mIndex := s.mIndex.setPage pi.blockIndex pi.pageIndex
          { sizeOnDisk := prior.2, same := true, hashFilled := true, filePos := prior.1,
            hash := env.calcHash (pageBytes mem block.ramBlock pi.pageIndex) }
        mDiskSize := s.mDiskSize + prior.2.toNat
        mIncStats := { s.mIncStats with samePages := s.mIncStats.samePages + 1 } }
    | none =>
      if isZeroPage (pageBytes mem block.ramBlock pi.pageIndex) = true then
        { s with
          mIndex := s.mIndex.setPage pi.blockIndex pi.pageIndex
            { sizeOnDisk := 0, same := false, hashFilled := true, filePos := 0,
              hash := env.calcHash (pageBytes mem block.ramBlock pi.pageIndex) }
          mIncStats := { s.mIncStats with zeroPages := s.mIncStats.zeroPages + 1 } }
      else
        { s with
          mIndex := s.mIndex.setPage pi.blockIndex pi.pageIndex
            { sizeOnDisk := 0, same := false, hashFilled := true, filePos := 0,
              hash := env.calcHash (pageBytes mem block.ramBlock pi.pageIndex) }
          mWriter := s.mWriter ++ [s.makeWriteInfo env pi (pageBytes mem block.ramBlock pi.pageIndex)]
          mIncStats := { s.mIncStats with changedPages := s.mIncStats.changedPages + 1 } }

/-- Modelled from the spec: `savePage(blockOffset, pageOffset, pageSize)` (body in
`RamSaver.cpp`).  Saving a page of an unregistered block or after `complete()`
is a fatal assertion. -/
def RamSaver.savePage (env : Env) (mem : Nat → Nat) (s : RamSaver)
    (blockOffset pageOffset : Int) (_pageSize : Int) : Option RamSaver :=
  if s.mCompleted = true then none
  else
    match s.resolve blockOffset pageOffset with
    | none => none
    | some pi => some (({ s with mLastBlockIndex := (pi.blockIndex : Int) }).handlePageSave env mem pi)

/-- Modelled from the spec: slot assignment by the writer: the offset reserved
from the gap tracker, or else the running end-of-file position, which then
advances.  The result is the offset, the gap tracker and the end-of-file
position afterwards. -/
def RamSaver.assignSlot (s : RamSaver) (size : Nat) : Nat × GapTracker × Nat :=
  match s.mGaps.reserve size with
  | some res => (res.1, res.2, s.mCurrentStreamPos)
  | none => (s.mCurrentStreamPos, s.mGaps, s.mCurrentStreamPos + size)

/-- Modelled from the spec: the single writer stage for one `WriteInfo` (body of
`writePage` in `RamSaver.cpp`): the slot is reserved from the gap tracker or
allocated at the running end-of-file position, the bytes are written there and
the entry gets its `filePos`/`sizeOnDisk`.  A failed write only sets the error
flag. -/
def RamSaver.writePage (s : RamSaver) (wi : WriteInfo) : RamSaver :=
  if (s.mStream.pwrite (s.assignSlot wi.ptr.length).1 wi.ptr).2 = true then
    match s.mIndex.page? wi.page.blockIndex wi.page.pageIndex with
    | none =>
      { s with
        mStream := (s.mStream.pwrite (s.assignSlot wi.ptr.length).1 wi.ptr).1
        mGaps := (s.assignSlot wi.ptr.length).2.1
        mCurrentStreamPos := (s.assignSlot wi.ptr.length).2.2 }
    | some p =>
      { s with
        mStream := (s.mStream.pwrite (s.assignSlot wi.ptr.length).1 wi.ptr).1
        mGaps := (s.assignSlot wi.ptr.length).2.1
        mCurrentStreamPos := (s.assignSlot wi.ptr.length).2.2
        mIndex := s.mIndex.setPage wi.page.blockIndex wi.page.pageIndex
          { p with filePos := ((s.assignSlot wi.ptr.length).1 : Int),
                   sizeOnDisk := (wi.ptr.length : Int) }
        mDiskSize := s.mDiskSize + wi.ptr.length
        mIncStats := { s.mIncStats with bytesWritten := s.mIncStats.bytesWritten + wi.ptr.length } }
  else
    { s with
      mStream := (s.mStream.pwrite (s.assignSlot wi.ptr.length).1 wi.ptr).1
      mGaps := (s.assignSlot wi.ptr.length).2.1
      mCurrentStreamPos := (s.assignSlot wi.ptr.length).2.2
      mHasError := true }

/-- Modelled from the spec: one step of the writer stage (`mWriter`, whose loop is
in `RamSaver.cpp`): it takes the next `WriteInfo` from its channel and writes
it. -/
def RamSaver.writerStep (s : RamSaver) : RamSaver :=
  match s.mWriter with
  | [] => s
  | wi :: rest => ({ s with mWriter := rest }).writePage wi

/-- Modelled from the spec: the writer stage runs `n` steps. -/
def RamSaver.drainN : Nat → RamSaver → RamSaver
  | 0, s => s
  | n + 1, s => RamSaver.drainN n s.writerStep

/-- Modelled from the spec: the barrier of `complete()`, "draining both queues to
empty": the writer's channel is drained. -/
def RamSaver.drain (s : RamSaver) : RamSaver := RamSaver.drainN s.mWriter.length s

/-- Modelled from the spec: `writeIndex()` (body in `RamSaver.cpp`) "writes the
final FileIndex to the file (at the current end-of-file position)". -/
def RamSaver.writeIndex (env : Env) (s : RamSaver) : RamSaver :=
  let idx : FileIndex := { s.mIndex with startPosInFile := (s.mCurrentStreamPos : Int) }
  let res := s.mStream.pwrite s.mCurrentStreamPos (env.encodeIndex idx)
  { s with
    mStream := res.1
    mIndex := idx
    mCurrentStreamPos := s.mCurrentStreamPos + (env.encodeIndex idx).length
    mHasError := s.mHasError || !res.2 }

/-- Modelled from the spec: the last write of `complete()`, which "backpatches the
8-byte index-offset field at offset 0 with that position". -/
def RamSaver.publishIndexOffset (s : RamSaver) : RamSaver :=
  let res := s.mStream.pwrite 0 (encode64 s.mIndex.startPosInFile.toNat)
  { s with mStream := res.1, mHasError := s.mHasError || !res.2 }

/-- Modelled from the spec: `complete()` (body in `RamSaver.cpp`): drain the
writer, write the index, publish its offset, record the end timestamp. -/
def RamSaver.complete (env : Env) (s : RamSaver) (now : Int) : RamSaver :=
  { ((s.drain).writeIndex env).publishIndexOffset with mEndTime := now, mCompleted := true }

/-- Modelled from the spec: `join()` (body in `RamSaver.cpp`); idempotent. -/
def RamSaver.join (s : RamSaver) : RamSaver := { s with mJoined := true }

/-- Modelled from the spec: the calls the driver and the writer thread make on a
saver (the callers are not in the sources). -/
inductive Op where
  | registerBlock (block : RamBlock)
  | savePage (mem : Nat → Nat) (blockOffset pageOffset pageSize : Int)
  | writePage
  | writeIndex
  | publishIndexOffset
  | complete (now : Int)
  | join

/-- Modelled from the spec: one call on the saver; `none` is a fatal assertion. -/
def step (env : Env) (op : Op) (s : RamSaver) : Option RamSaver :=
  match op with
  | .registerBlock block => s.registerBlock block
  | .savePage mem blockOffset pageOffset pageSize => s.savePage env mem blockOffset pageOffset pageSize
  | .writePage => some s.writerStep
  | .writeIndex => some (s.writeIndex env)
  | .publishIndexOffset => some s.publishIndexOffset
  | .complete now => some (s.complete env now)
  | .join => some s.join

/-- Modelled from the spec: a sequence of calls on the saver, run in order. -/
def run (env : Env) : List Op → RamSaver → Option RamSaver
  | [], s => some s
  | op :: ops, s =>
    match step env op s with
    | none => none
    | some s1 => run env ops s1

/-- Modelled from the spec: the `savePage` calls of the driver for the pages
`0 .. n - 1` of a block. -/
def pageOps (mem : Nat → Nat) (b : RamBlock) (n : Nat) : List Op :=
  (List.range n).map
    (fun j => Op.savePage mem (b.startOffset : Int) ((j * b.pageSize : Nat) : Int) (b.pageSize : Int))

/-- Modelled from the spec: the `savePage` calls of the driver, "for every page
the VM wants captured": every page of every block, in registration order. -/
def savePageOps (mem : Nat → Nat) : List RamBlock → List Op
  | [] => []
  | b :: rest => pageOps mem b b.numPages ++ savePageOps mem rest

/-- Modelled from the spec: the calls of one save, "caller registers all
RamBlocks, then calls `savePage` for every page, then `complete()`, then
`join()`". -/
def saveOps (mem : Nat → Nat) (blocks : List RamBlock) (now : Int) : List Op :=
  blocks.map Op.registerBlock ++ savePageOps mem blocks ++ [Op.complete now, Op.join]

/-! ## Reading a snapshot -/

/-- Modelled from the spec: materialising one page on load, "zero-fill if
`sizeOnDisk==0`, else seek to `filePos` and read `sizeOnDisk` bytes,
decompressing if the `CompressedPages` flag is set". -/
def loadPage (env : Env) (f : File) (compressedPages : Bool) (pageSize : Nat) (p : Page) :
    List Nat :=
  if p.zeroed then List.replicate pageSize 0
  else if compressedPages then env.decompress (f.read p.filePos.toNat p.sizeOnDisk.toNat)
  else f.read p.filePos.toNat p.sizeOnDisk.toNat

/-- Modelled from the spec: whether the `CompressedPages` flag is set in the index
of a snapshot that is read. -/
def FileIndex.compressedPages (idx : FileIndex) : Bool :=
  Int.land idx.flags IndexFlags.CompressedPages != 0

/-- Modelled from the spec: reading a snapshot; the content of every page of
every block of the index, in index order. -/
def loadRam (env : Env) (f : File) : Option (List (List (List Nat))) :=
  match RamLoader.create env f with
  | none => none
  | some l =>
    some (l.index.blocks.map (fun b =>
      b.pages.map (loadPage env f l.index.compressedPages b.ramBlock.pageSize)))

/-- The laws the black-box collaborators are assumed to satisfy: the index
deserialiser reads back what the serialiser wrote (the start position is not
part of the serialised form), whatever follows it in the file; decompression
inverts compression; compressing a non-empty page gives a non-empty result. -/
structure Env.Lawful (env : Env) : Prop where
  decode_encode : ∀ idx rest,
    env.decodeIndex (env.encodeIndex idx ++ rest) = some { idx with startPosInFile := 0 }
  decompress_compress : ∀ bs, env.decompress (env.compress bs) = bs
  compress_ne_nil : ∀ bs, bs ≠ [] → env.compress bs ≠ []

/-! ## Predicates used by the statements -/

/-- The descriptors and page counts of an index, in order. -/
def FileIndex.layout (idx : FileIndex) : List (RamBlock × Nat) :=
  idx.blocks.map (fun b => (b.ramBlock, b.pages.length))

/-- What no call other than `registerBlock` changes: the configuration of the
saver and the layout of its index. -/
structure SameConfig (s t : RamSaver) : Prop where
  flags : t.mFlags = s.mFlags
  loader : t.mLoader = s.mLoader
  fails : t.mStream.fails = s.mStream.fails
  layout : t.mIndex.layout = s.mIndex.layout
  indexFlags : t.mIndex.flags = s.mIndex.flags
  totalPages : t.mIndex.totalPages = s.mIndex.totalPages
  startTime : t.mStartTime = s.mStartTime

/-- The block registered by a call, if it is a `registerBlock`. -/
def Op.registered : Op → Option RamBlock
  | .registerBlock block => some block
  | _ => none

/-- The bytes a changed page is queued with. -/
def payloadOf (env : Env) (flags : Nat) (bytes : List Nat) : List Nat :=
  if Flags.hasCompress flags then env.compress bytes else bytes

/-- An entry from which loading gives back the page of host memory, and whose
payload, if it has one, lies in the part of the payload region written so far. -/
def PageOk (env : Env) (mem : Nat → Nat) (s : RamSaver) (rb : RamBlock) (pageIndex : Nat)
    (p : Page) : Prop :=
  loadPage env s.mStream.file (Flags.hasCompress s.mFlags) rb.pageSize p = pageBytes mem rb pageIndex
  ∧ (p.zeroed = false →
      8 ≤ p.filePos.toNat ∧ p.filePos.toNat + p.sizeOnDisk.toNat ≤ s.mCurrentStreamPos)

/-- The invariant of a full save without I/O failure, for the registered `blocks`
and the set `D` of pages handed to `savePage` so far: every queued `WriteInfo`
carries the payload of a non-zero page, and every page of `D` that is not
waiting for the writer has an entry that loads back to its content. -/
structure FullSaveInv (env : Env) (mem : Nat → Nat) (blocks : List RamBlock)
    (D : QueuedPageInfo → Prop) (s : RamSaver) : Prop where
  layout : s.mIndex.layout = blocks.map (fun rb => (rb, rb.numPages))
  noFail : ∀ n, s.mStream.fails n = none
  noGaps : s.mGaps.gaps = []
  noLoader : s.mLoader = none
  pos : 8 ≤ s.mCurrentStreamPos
  queued : ∀ wi ∈ s.mWriter, ∃ rb, blocks[wi.page.blockIndex]? = some rb ∧
    wi.page.pageIndex < rb.numPages ∧
    wi.ptr = payloadOf env s.mFlags (pageBytes mem rb wi.page.pageIndex) ∧
    isZeroPage (pageBytes mem rb wi.page.pageIndex) = false
  done : ∀ x rb, D x → blocks[x.blockIndex]? = some rb → x.pageIndex < rb.numPages →
    (∀ wi ∈ s.mWriter, wi.page ≠ x) →
    ∃ p, s.mIndex.page? x.blockIndex x.pageIndex = some p ∧ PageOk env mem s rb x.pageIndex p

/-- The call `op` is the `savePage` call a driver makes for page `x` of the
registered `blocks`. -/
def OpFor (mem : Nat → Nat) (blocks : List RamBlock) (op : Op) (x : QueuedPageInfo) : Prop :=
  ∃ rb, blocks[x.blockIndex]? = some rb ∧ x.pageIndex < rb.numPages ∧
    op = Op.savePage mem (rb.startOffset : Int) ((x.pageIndex * rb.pageSize : Nat) : Int)
      (rb.pageSize : Int)

/-- The content of every page of every block, in registration order. -/
def ramContent (mem : Nat → Nat) (blocks : List RamBlock) : List (List (List Nat)) :=
  blocks.map (fun rb => (List.range rb.numPages).map (pageBytes mem rb))

/-- The pages of the blocks `blocks`, the first of which has index `start`, in
the order a driver saves them. -/
def pageInfos : List RamBlock → Nat → List QueuedPageInfo
  | [], _ => []
  | rb :: rest, start =>
    (List.range rb.numPages).map (fun j => { blockIndex := start, pageIndex := j })
      ++ pageInfos rest (start + 1)

/-- What `savePage` does once the page is resolved. -/
def RamSaver.savePageAt (env : Env) (mem : Nat → Nat) (s : RamSaver) (x : QueuedPageInfo) :
    RamSaver :=
  ({ s with mLastBlockIndex := (x.blockIndex : Int) }).handlePageSave env mem x

/-- The resolved pages `xs` saved one after the other. -/
def RamSaver.savePagesAt (env : Env) (mem : Nat → Nat) : RamSaver → List QueuedPageInfo → RamSaver
  | s, [] => s
  | s, x :: xs => RamSaver.savePagesAt env mem (s.savePageAt env mem x) xs

/-- An index that describes the content `mem` of the registered `blocks`: it has
their layout and every entry holds the valid digest of its page. -/
def Describes (env : Env) (mem : Nat → Nat) (blocks : List RamBlock) (idx : FileIndex) : Prop :=
  idx.layout = blocks.map (fun rb => (rb, rb.numPages)) ∧
  ∀ (x : QueuedPageInfo) rb, blocks[x.blockIndex]? = some rb → x.pageIndex < rb.numPages →
    ∃ q, idx.page? x.blockIndex x.pageIndex = some q ∧ q.hashFilled = true ∧
      q.hash = env.calcHash (pageBytes mem rb x.pageIndex)

/-- The entry of page `x` in `idx` holds the valid digest of the page's content. -/
def HashOk (env : Env) (mem : Nat → Nat) (blocks : List RamBlock) (idx : FileIndex)
    (x : QueuedPageInfo) : Prop :=
  ∀ rb, blocks[x.blockIndex]? = some rb → x.pageIndex < rb.numPages →
    ∃ q, idx.page? x.blockIndex x.pageIndex = some q ∧ q.hashFilled = true ∧
      q.hash = env.calcHash (pageBytes mem rb x.pageIndex)

/-- The entry of page `x` in `idx` is marked `same` and carries the `filePos` and
`sizeOnDisk` of the entry of the prior snapshot. -/
def SameAs (l : RamLoader) (idx : FileIndex) (x : QueuedPageInfo) : Prop :=
  ∃ p q, idx.page? x.blockIndex x.pageIndex = some p ∧
    l.index.page? x.blockIndex x.pageIndex = some q ∧
    p.same = true ∧ p.filePos = q.filePos ∧ p.sizeOnDisk = q.sizeOnDisk

/-- Page `x` of the registered blocks has, in the prior snapshot, a valid digest
equal to the digest of its content in `mem`. -/
def Matches (env : Env) (mem : Nat → Nat) (blocks : List RamBlock) (l : RamLoader)
    (x : QueuedPageInfo) : Prop :=
  ∃ rb q, blocks[x.blockIndex]? = some rb ∧ x.pageIndex < rb.numPages ∧
    l.index.page? x.blockIndex x.pageIndex = some q ∧ q.hashFilled = true ∧
    q.hash = env.calcHash (pageBytes mem rb x.pageIndex)

/-- The byte ranges `(offset, size)` of the stored payloads an index refers to. -/
def FileIndex.payloadRanges (idx : FileIndex) : List (Nat × Nat) :=
  idx.blocks.flatMap (fun b =>
    b.pages.filterMap (fun p =>
      if p.zeroed = true then none else some (p.filePos.toNat, p.sizeOnDisk.toNat)))

/-- Cells of an integer: sign and magnitude. -/
def encInt (z : Int) : List Nat := if z < 0 then [1, (-z).toNat] else [0, z.toNat]

/-- Reads an integer. -/
def decInt : List Nat → Option (Int × List Nat)
  | s :: m :: rest => some (if s = 0 then (m : Int) else -(m : Int), rest)
  | _ => none

/-- Cell of a boolean. -/
def encBool (b : Bool) : List Nat := [if b then 1 else 0]

/-- Reads a boolean. -/
def decBool : List Nat → Option (Bool × List Nat)
  | c :: rest => some (decide (c ≠ 0), rest)
  | [] => none

/-- Cells of the elements of a list, one after the other. -/
def encMany {α : Type} (enc : α → List Nat) : List α → List Nat
  | [] => []
  | a :: rest => enc a ++ encMany enc rest

/-- Reads `n` elements. -/
def decMany {α : Type} (dec : List Nat → Option (α × List Nat)) :
    Nat → List Nat → Option (List α × List Nat)
  | 0, cells => some ([], cells)
  | n + 1, cells =>
    match dec cells with
    | none => none
    | some (a, rest) =>
      match decMany dec n rest with
      | none => none
      | some (as, rest2) => some (a :: as, rest2)

/-- Cells of a list: its length, then its elements. -/
def encList {α : Type} (enc : α → List Nat) (l : List α) : List Nat :=
  l.length :: encMany enc l

/-- Reads a list. -/
def decList {α : Type} (dec : List Nat → Option (α × List Nat)) :
    List Nat → Option (List α × List Nat)
  | n :: cells => decMany dec n cells
  | [] => none

/-- Cells of a page entry. -/
def encPage (p : Page) : List Nat :=
  encInt p.sizeOnDisk ++ (encBool p.same ++ (encBool p.hashFilled ++
    (encInt p.filePos ++ encList encInt p.hash)))

/-- Reads a page entry. -/
def decPage (cells : List Nat) : Option (Page × List Nat) :=
  match decInt cells with
  | none => none
  | some (sizeOnDisk, c1) =>
    match decBool c1 with
    | none => none
    | some (same, c2) =>
      match decBool c2 with
      | none => none
      | some (hashFilled, c3) =>
        match decInt c3 with
        | none => none
        | some (filePos, c4) =>
          match decList decInt c4 with
          | none => none
          | some (hash, c5) =>
            some ({ sizeOnDisk := sizeOnDisk, same := same, hashFilled := hashFilled,
                    filePos := filePos, hash := hash }, c5)

/-- Cells of a block descriptor. -/
def encRamBlock (b : RamBlock) : List Nat :=
  encList (fun c : Char => [c.toNat]) b.id.data ++
    [b.startOffset, b.hostPtr, b.totalSize, b.pageSize]

/-- Reads a character. -/
def decChar : List Nat → Option (Char × List Nat)
  | c :: rest => some (Char.ofNat c, rest)
  | [] => none

/-- Reads a block descriptor. -/
def decRamBlock (cells : List Nat) : Option (RamBlock × List Nat) :=
  match decList decChar cells with
  | none => none
  | some (id, c1) =>
    match c1 with
    | startOffset :: hostPtr :: totalSize :: pageSize :: rest =>
      some ({ id := String.mk id, startOffset := startOffset, hostPtr := hostPtr,
              totalSize := totalSize, pageSize := pageSize }, rest)
    | _ => none

/-- Cells of a block: descriptor, then page entries. -/
def encBlock (b : Block) : List Nat := encRamBlock b.ramBlock ++ encList encPage b.pages

/-- Reads a block. -/
def decBlock (cells : List Nat) : Option (Block × List Nat) :=
  match decRamBlock cells with
  | none => none
  | some (rb, c1) =>
    match decList decPage c1 with
    | none => none
    | some (pages, c2) => some ({ ramBlock := rb, pages := pages }, c2)

/-- Cells of an index: version, flags, totalPages, blocks. -/
def encIndex (idx : FileIndex) : List Nat :=
  encInt idx.version ++ (encInt idx.flags ++ (encInt idx.totalPages ++ encList encBlock idx.blocks))

/-- Reads an index. -/
def decIndex (cells : List Nat) : Option FileIndex :=
  match decInt cells with
  | none => none
  | some (version, c1) =>
    match decInt c1 with
    | none => none
    | some (flags, c2) =>
      match decInt c2 with
      | none => none
      | some (totalPages, c3) =>
        match decList decBlock c3 with
        | none => none
        | some (blocks, _) =>
          some { startPosInFile := 0, version := version, flags := flags,
                 totalPages := totalPages, blocks := blocks }

/-- The reference collaborators. -/
def refEnv : Env :=
  { calcHash := fun bs => (bs.take 16).map Int.ofNat
    compress := fun bs => bs
    decompress := fun bs => bs
    encodeIndex := encIndex
    decodeIndex := decIndex }

/-! ## Concrete scenarios -/

/-- A small block of four 2-byte pages. -/
def demoA : RamBlock :=
  { id := "A", startOffset := 0, hostPtr := 100, totalSize := 8, pageSize := 2 }

/-- A small block of two 2-byte pages. -/
def demoB : RamBlock :=
  { id := "B", startOffset := 8, hostPtr := 200, totalSize := 4, pageSize := 2 }

/-- The two small blocks, in registration order. -/
def demoBlocks : List RamBlock := [demoA, demoB]

/-- Memory with A = {zero, data, data, zero} and B = {data, zero}. -/
def demoMem1 : Nat → Nat :=
  fun a => if a = 102 then 7 else if a = 105 then 9 else if a = 200 then 3 else 0

/-- The memory `demoMem1` with page 1 of block A overwritten with zeroes. -/
def demoMemZero : Nat → Nat :=
  fun a => if a = 105 then 9 else if a = 200 then 3 else 0

/-- A new saver for a full save, constructed at clock reading 10. -/
def demoStart : RamSaver :=
  RamSaver.create File.reserved Flags.None none {} (fun _ => none) 10

/-- The saver after a full save of `demoMem1`. -/
def demoSave1 : RamSaver :=
  (run refEnv (saveOps demoMem1 demoBlocks 50) demoStart).getD demoStart

/-- The loader over the snapshot file of `demoSave1`. -/
def demoLoader : RamLoader :=
  (RamLoader.create refEnv demoSave1.mStream.file).getD { index := {} }

/-- A new saver for an incremental save over the snapshot of `demoSave1`; its
second write call stops after one byte. -/
def demoStart2 : RamSaver :=
  RamSaver.create demoSave1.mStream.file Flags.None (some demoLoader) {}
    (fun n => if n = 1 then some 1 else none) 60

/-- The incremental saver with the blocks registered. -/
def demoRegistered2 : RamSaver :=
  (run refEnv (demoBlocks.map Op.registerBlock) demoStart2).getD demoStart2

/-- A saver whose only write call has failed. -/
def demoFailed : RamSaver :=
  (RamSaver.create File.reserved Flags.None none {} (fun _ => some 0) 10).writePage
    { page := { blockIndex := 0, pageIndex := 0 }, ptr := [1, 2], allocated := false }

/-- Block A of the spec's scenario: 4 pages of 4096 bytes. -/
def scenarioA : RamBlock :=
  { id := "A", startOffset := 0, hostPtr := 0, totalSize := 16384, pageSize := 4096 }

/-- Block B of the spec's scenario: 2 pages of 4096 bytes. -/
def scenarioB : RamBlock :=
  { id := "B", startOffset := 16384, hostPtr := 16384, totalSize := 8192, pageSize := 4096 }

/-- The blocks of the spec's scenario. -/
def scenarioBlocks : List RamBlock := [scenarioA, scenarioB]

/-- Save 1 of the spec's scenario: A = {zero, data1, data2, zero}, B = {data3, zero}. -/
def scenarioMem1 : Nat → Nat :=
  fun a => if a / 4096 = 1 then 1 else if a / 4096 = 2 then 2 else if a / 4096 = 4 then 3 else 0

/-- Save 2 of the spec's scenario: only A.page[1] changed, to data4. -/
def scenarioMem2 : Nat → Nat :=
  fun a => if a / 4096 = 1 then 4 else if a / 4096 = 2 then 2 else if a / 4096 = 4 then 3 else 0

/-- The saver after save 1 of the spec's scenario (a full save). -/
def scenarioSave1 : RamSaver :=
  (run refEnv (saveOps scenarioMem1 scenarioBlocks 50) demoStart).getD demoStart

/-- The loader holding the index save 1 of the spec's scenario has written. -/
def scenarioLoader : RamLoader := { index := scenarioSave1.mIndex }

/-- The saver after an incremental save of the unchanged `demoMem1`. -/
def demoSave2 : RamSaver :=
  (run refEnv (saveOps demoMem1 demoBlocks 70) demoStart2).getD demoStart2

/-- A new saver for save 2 of the spec's scenario, over the file of save 1. -/
def scenarioStart2 : RamSaver :=
  RamSaver.create scenarioSave1.mStream.file Flags.None (some scenarioLoader) {}
    (fun _ => none) 60

/-- The saver of save 2 of the spec's scenario after its `savePage` calls. -/
def scenarioSave2 : RamSaver :=
  (run refEnv (scenarioBlocks.map Op.registerBlock ++ savePageOps scenarioMem2 scenarioBlocks)
    scenarioStart2).getD scenarioStart2

end Snapshot

namespace Snapshot

/-! ## Compression buffers and their pool -/

/-- `kCompressBufferCount` (RamSaver.h): the number of buffers of the pool
`mCompressBuffers`, a compile-time constant. -/
def kCompressBufferCount : Nat := 128

/-- `CompressBuffer` (RamSaver.h) is
`std::array<uint8_t, compress::maxCompressedSize(kDefaultPageSize)>`: its
capacity in bytes.  The bound `compress::maxCompressedSize` (Compressor.h) and
the constant `kDefaultPageSize` (common.h) are not in the sources and are
parameters. -/
def CompressBuffer.capacity (maxCompressedSize : Nat → Nat) (kDefaultPageSize : Nat) : Nat :=
  maxCompressedSize kDefaultPageSize

/-- `FastReleasePool<CompressBuffer, kCompressBufferCount>` (RamSaver.h): the
number of buffers the pool `mCompressBuffers` holds. -/
def FastReleasePool.size : Nat := kCompressBufferCount

/-- Modelled from the spec: the number of threads of the worker pool `mWorkers`
is chosen in `RamSaver.cpp`, which is not in the sources: "a fixed worker pool
sized to available hardware concurrency". -/
def workerCount (hardwareConcurrency : Nat) : Nat := hardwareConcurrency

/-- Modelled from the spec: the buffer accounting of the two-stage pipeline
(`RamSaver.cpp` and `FastReleasePool.h` are not in the sources).  `workers` is
the size of the worker pool, `compressing` the workers that hold a leased
buffer and have not yet passed their page on, `queued` the compressed pages
waiting in the writer queue, each in its leased buffer, and `leased` the
buffers out of the pool. -/
structure BufferPipeline where
  workers : Nat
  compressing : Nat
  queued : Nat
  leased : Nat
deriving DecidableEq, Repr

/-- Modelled from the spec: the events of the pipeline that touch the pool. -/
inductive PoolOp where
  /-- An idle worker takes a changed page and leases a buffer (`acquire()`). -/
  | acquire
  /-- A worker passes its compressed page to the writer as a `WriteInfo`;
  "ownership transfers with the WriteInfo". -/
  | enqueue
  /-- The writer flushes the next queued page and returns its buffer
  (`release(buffer)`): "on the writer thread after the bytes are flushed, not on
  the worker thread that compressed them". -/
  | write
deriving DecidableEq, Repr

/-- Modelled from the spec: the pipeline before the first page. -/
def BufferPipeline.start (hardwareConcurrency : Nat) : BufferPipeline :=
  { workers := workerCount hardwareConcurrency, compressing := 0, queued := 0, leased := 0 }

/-- Modelled from the spec: one pool event.  The result `none` is an
acquisition that finds the pool exhausted (every buffer is leased); an event
that is not enabled (no idle worker, no worker with a page, empty writer queue)
leaves the pipeline as it is. -/
def BufferPipeline.step (p : BufferPipeline) : PoolOp → Option BufferPipeline
  | .acquire =>
    if p.compressing < p.workers then
      if p.leased < FastReleasePool.size then
        some { p with compressing := p.compressing + 1, leased := p.leased + 1 }
      else none
    else some p
  | .enqueue =>
    if 0 < p.compressing then
      some { p with compressing := p.compressing - 1, queued := p.queued + 1 }
    else some p
  | .write =>
    if 0 < p.queued then
      some { p with queued := p.queued - 1, leased := p.leased - 1 }
    else some p

/-- Modelled from the spec: a sequence of pool events. -/
def BufferPipeline.run : List PoolOp → BufferPipeline → Option BufferPipeline
  | [], p => some p
  | op :: ops, p =>
    match p.step op with
    | none => none
    | some q => BufferPipeline.run ops q

/-- A worker compresses `n` pages one after the other while the writer has not
written any of them. -/
def compressPages : Nat → List PoolOp
  | 0 => []
  | n + 1 => PoolOp.acquire :: PoolOp.enqueue :: compressPages n

/-- An instance of the compressor's worst-case bound for the concrete
statements: the bound of the LZ4 block format, `n + n / 255 + 16` bytes for `n`
bytes of input. -/
def demoMaxCompressedSize (n : Nat) : Nat := n + n / 255 + 16

/-- The page size of the spec's scenario, as the instance of `kDefaultPageSize`
for the concrete statements. -/
def demoDefaultPageSize : Nat := 4096

end Snapshot

namespace Snapshot

/-! ## A scenario with equal digests

The reference digest reads the first 16 bytes of a page, so two pages of 17
bytes that differ in the last byte only have the same digest. -/

/-- A block of one page of 17 bytes. -/
def collBlock : RamBlock :=
  { id := "C", startOffset := 0, hostPtr := 300, totalSize := 17, pageSize := 17 }

/-- The page holds 16 zero bytes and then the byte 5. -/
def collMem0 : Nat → Nat := fun a => if a = 316 then 5 else 0

/-- The page holds 16 zero bytes and then the byte 6. -/
def collMem1 : Nat → Nat := fun a => if a = 316 then 6 else 0

/-- The page is all zero. -/
def collMemZero : Nat → Nat := fun _ => 0

/-- The saver after a full save of `collMem0`. -/
def collSave1 : RamSaver :=
  (run refEnv (saveOps collMem0 [collBlock] 50) demoStart).getD demoStart

/-- The loader over the snapshot file of `collSave1`. -/
def collLoader : RamLoader :=
  (RamLoader.create refEnv collSave1.mStream.file).getD { index := {} }

/-- A saver for an incremental save over the snapshot of `collSave1`, with the
block registered. -/
def collRegistered : RamSaver :=
  (run refEnv [Op.registerBlock collBlock]
    (RamSaver.create collSave1.mStream.file Flags.None (some collLoader) {} (fun _ => none) 60)).getD
    demoStart

/-- The incremental saver after `savePage` of the page, now all zero. -/
def collSavedZero : RamSaver :=
  (collRegistered.savePage refEnv collMemZero 0 0 17).getD demoStart

/-- The incremental saver after `savePage` of the page, now ending in 6. -/
def collSaved1 : RamSaver :=
  (collRegistered.savePage refEnv collMem1 0 0 17).getD demoStart

end Snapshot

namespace Snapshot

/-! ## The gaps of a snapshot and a third save -/

/-- Whether no stored payload of the index covers the file offset `i`. -/
def FileIndex.unreferenced (idx : FileIndex) (i : Nat) : Bool :=
  idx.payloadRanges.all (fun r => !(decide (r.1 ≤ i) && decide (i < r.1 + r.2)))

/-- The maximal runs `(offset, size)` of offsets satisfying `free` among the `n`
offsets from `i` on; `cur` is the run that ends right before `i`. -/
def freeRuns (free : Nat → Bool) : Nat → Nat → Option (Nat × Nat) → List (Nat × Nat)
  | _, 0, none => []
  | _, 0, some r => [r]
  | i, n + 1, none =>
    if free i = true then freeRuns free (i + 1) n (some (i, 1))
    else freeRuns free (i + 1) n none
  | i, n + 1, some r =>
    if free i = true then freeRuns free (i + 1) n (some (r.1, r.2 + 1))
    else r :: freeRuns free (i + 1) n none

/-- Modelled from the spec: the gap tracker that comes with a snapshot (the
loader and `GapTracker.h` are not in the sources), "byte ranges in the payload
region that became free": every maximal run of offsets of the payload region,
from offset 8 up to the index, that no entry of the index refers to, each
handed to `release`. -/
def FileIndex.gaps (idx : FileIndex) : GapTracker :=
  (freeRuns idx.unreferenced 8 (idx.startPosInFile.toNat - 8) none).foldl
    (fun g r => g.release r.1 r.2) {}

end Snapshot

/-! # `QemuEvent` (`util/qemu-thread-posix.c`)

The event is one 32-bit word, read and written with atomic operations only.
Every atomic access is one step of the calling thread; the steps of different
threads interleave in any order.  The struct `QemuEvent` and the atomic
primitives are declared in headers that are not in the sources: `value` is an
`unsigned` word, as the locals `unsigned value` of `qemu_event_reset` and
`qemu_event_wait` and the parameter `unsigned val` of `qemu_futex_wait` have it,
and `atomic_read`, `atomic_xchg`, `atomic_or` and `atomic_cmpxchg` have their
usual meaning.  `qemu_futex_wake` and `qemu_futex_wait` are those the file
defines for the non-Linux build; the Linux ones come from `qemu/futex.h`.  A
failed `assert` is the result `none`. -/

namespace QemuThread

/-- `#define EV_SET 0` -/
def EV_SET : Int := 0

/-- `#define EV_FREE 1` -/
def EV_FREE : Int := 1

/-- `#define EV_BUSY -1` -/
def EV_BUSY : Int := -1

/-- `INT_MAX`, the number of waiters `qemu_event_set` asks to wake. -/
def INT_MAX : Int := 2 ^ 31 - 1

/-- The conversion of an `int` to `unsigned` (32 bits), which C applies where
`ev->value` is compared with, or assigned from, one of the `EV_` constants. -/
def toUnsigned (x : Int) : Nat := (x % 2 ^ 32).toNat

/-- The fields of `QemuEvent` the functions use (the mutex and the condition
variable of the non-Linux build are represented by the sleeping threads). -/
structure QemuEvent where
  value : Nat
  initialized : Bool
deriving DecidableEq, Repr

/-- `qemu_event_init`: `ev->value = (init ? EV_SET : EV_FREE); ev->initialized = true;` -/
def qemu_event_init (init : Bool) : QemuEvent :=
  { value := toUnsigned (if init then EV_SET else EV_FREE), initialized := true }

/-- The three functions a thread can call on an event. -/
inductive Fn where
  | set
  | reset
  | wait
deriving DecidableEq, Repr

/-- Where a thread stands inside its call: before which atomic access. -/
inductive Pc where
  /-- `qemu_event_set`, before `atomic_read(&ev->value)`. -/
  | setRead
  /-- `qemu_event_set`, the value read was not `EV_SET`: before `atomic_xchg`. -/
  | setXchg
  /-- `qemu_event_set`, the exchange returned `EV_BUSY`: before `qemu_futex_wake`. -/
  | setWake
  /-- `qemu_event_reset`, before `atomic_read(&ev->value)`. -/
  | resetRead
  /-- `qemu_event_reset`, the value read was `EV_SET`: before `atomic_or`. -/
  | resetOr
  /-- `qemu_event_wait`, before `atomic_read(&ev->value)`. -/
  | waitRead
  /-- `qemu_event_wait`, the value read was `EV_FREE`: before `atomic_cmpxchg`. -/
  | waitCas
  /-- `qemu_event_wait`, before `qemu_futex_wait(ev, EV_BUSY)`. -/
  | waitFutex
  /-- Asleep inside `qemu_futex_wait` (in `pthread_cond_wait`). -/
  | sleeping
  /-- The call has returned. -/
  | returned
deriving DecidableEq, Repr

/-- The first position of a call. -/
def Fn.entry : Fn → Pc
  | .set => .setRead
  | .reset => .resetRead
  | .wait => .waitRead

/-- What a step does, as seen from outside: the atomic access with the values
involved, or the futex call. -/
inductive Effect where
  /-- `atomic_read` returned `v`. -/
  | read (tid : Nat) (v : Nat)
  /-- `atomic_xchg(&ev->value, new)` returned `old`. -/
  | xchg (tid : Nat) (old new : Nat)
  /-- `atomic_or(&ev->value, arg)` found `old`. -/
  | or (tid : Nat) (old arg : Nat)
  /-- `atomic_cmpxchg(&ev->value, expected, desired)` returned `old`. -/
  | cmpxchg (tid : Nat) (old expected desired : Nat)
  /-- `qemu_futex_wait(ev, val)`: `sleeps` tells whether the value was `val`, so
  that the thread went to sleep. -/
  | futexWait (tid : Nat) (val : Nat) (sleeps : Bool)
  /-- `qemu_futex_wake(ev, n)`. -/
  | futexWake (tid : Nat) (n : Int)
deriving DecidableEq, Repr

/-- An event together with the threads that have called one of its functions
(thread `tid` is entry `tid` of `threads`) and the effects so far, oldest
first. -/
structure System where
  ev : QemuEvent
  threads : List Pc
  log : List Effect
deriving DecidableEq, Repr

/-- The system right after `qemu_event_init(ev, init)`. -/
def System.start (init : Bool) : System :=
  { ev := qemu_event_init init, threads := [], log := [] }

/-- `qemu_futex_wake(ev, n)` of the non-Linux build: `pthread_cond_signal` for
`n == 1` (the first sleeper wakes), `pthread_cond_broadcast` otherwise (every
sleeper wakes).  A woken thread leaves `qemu_futex_wait`, and `qemu_event_wait`
returns. -/
def qemu_futex_wake (n : Int) : List Pc → List Pc
  | [] => []
  | pc :: rest =>
    if pc = Pc.sleeping then
      Pc.returned :: (if n = 1 then rest else qemu_futex_wake n rest)
    else pc :: qemu_futex_wake n rest

/-- `qemu_futex_wait(ev, val)`: under the lock, `if (ev->value == val)` the
thread sleeps in `pthread_cond_wait`; otherwise the call returns at once. -/
def qemu_futex_wait (ev : QemuEvent) (val : Nat) : Pc :=
  if ev.value = val then Pc.sleeping else Pc.returned

/-- `qemu_event_set(ev)`, one atomic access per step:
`if (atomic_read(&ev->value) != EV_SET)`, then
`if (atomic_xchg(&ev->value, EV_SET) == EV_BUSY)`, then
`qemu_futex_wake(ev, INT_MAX)`.  The result is the event, the thread's next
position and the effect. -/
def qemu_event_set (tid : Nat) (ev : QemuEvent) : Pc → QemuEvent × Pc × Option Effect
  | .setRead =>
    (ev, if ev.value ≠ toUnsigned EV_SET then Pc.setXchg else Pc.returned,
      some (Effect.read tid ev.value))
  | .setXchg =>
    ({ ev with value := toUnsigned EV_SET },
      if ev.value = toUnsigned EV_BUSY then Pc.setWake else Pc.returned,
      some (Effect.xchg tid ev.value (toUnsigned EV_SET)))
  | .setWake => (ev, Pc.returned, some (Effect.futexWake tid INT_MAX))
  | pc => (ev, pc, none)

/-- `qemu_event_reset(ev)`, one atomic access per step:
`value = atomic_read(&ev->value); if (value == EV_SET)`, then
`atomic_or(&ev->value, EV_FREE)`. -/
def qemu_event_reset (tid : Nat) (ev : QemuEvent) : Pc → QemuEvent × Pc × Option Effect
  | .resetRead =>
    (ev, if ev.value = toUnsigned EV_SET then Pc.resetOr else Pc.returned,
      some (Effect.read tid ev.value))
  | .resetOr =>
    ({ ev with value := ev.value ||| toUnsigned EV_FREE }, Pc.returned,
      some (Effect.or tid ev.value (toUnsigned EV_FREE)))
  | pc => (ev, pc, none)

/-- `qemu_event_wait(ev)`, one atomic access per step:
`value = atomic_read(&ev->value); if (value != EV_SET)`, then for
`value == EV_FREE` the test
`if (atomic_cmpxchg(&ev->value, EV_FREE, EV_BUSY) == EV_SET) return;`, then
`qemu_futex_wait(ev, EV_BUSY)`. -/
def qemu_event_wait (tid : Nat) (ev : QemuEvent) : Pc → QemuEvent × Pc × Option Effect
  | .waitRead =>
    (ev,
      if ev.value ≠ toUnsigned EV_SET then
        if ev.value = toUnsigned EV_FREE then Pc.waitCas else Pc.waitFutex
      else Pc.returned,
      some (Effect.read tid ev.value))
  | .waitCas =>
    ({ ev with value := if ev.value = toUnsigned EV_FREE then toUnsigned EV_BUSY else ev.value },
      if ev.value = toUnsigned EV_SET then Pc.returned else Pc.waitFutex,
      some (Effect.cmpxchg tid ev.value (toUnsigned EV_FREE) (toUnsigned EV_BUSY)))
  | .waitFutex =>
    (ev, qemu_futex_wait ev (toUnsigned EV_BUSY),
      some (Effect.futexWait tid (toUnsigned EV_BUSY)
        (decide (ev.value = toUnsigned EV_BUSY))))
  | pc => (ev, pc, none)

/-- One step of thread `tid`, standing at `pc`: the next atomic access of its
function.  A thread that sleeps or has returned does not move. -/
def Pc.step (tid : Nat) (ev : QemuEvent) (pc : Pc) : QemuEvent × Pc × Option Effect :=
  match pc with
  | .setRead | .setXchg | .setWake => qemu_event_set tid ev pc
  | .resetRead | .resetOr => qemu_event_reset tid ev pc
  | .waitRead | .waitCas | .waitFutex => qemu_event_wait tid ev pc
  | .sleeping => (ev, Pc.sleeping, none)
  | .returned => (ev, Pc.returned, none)

/-- What the scheduler can do next: let a thread enter one of the functions,
or let thread `tid` take its next step. -/
inductive Action where
  | call (f : Fn)
  | step (tid : Nat)
deriving DecidableEq, Repr

/-- One action on the system.  Every function starts with
`assert(ev->initialized)`, and so do `qemu_futex_wake` and `qemu_futex_wait`: on
an event that is not initialised the result is `none`.  A step of a thread that
does not exist, sleeps or has returned changes nothing. -/
def System.exec (s : System) : Action → Option System
  | .call f =>
    if s.ev.initialized = true then some { s with threads := s.threads ++ [f.entry] }
    else none
  | .step tid =>
    if s.ev.initialized = true then
      match s.threads[tid]? with
      | none => some s
      | some pc =>
        let r := pc.step tid s.ev
        let woken := if pc = Pc.setWake then qemu_futex_wake INT_MAX s.threads else s.threads
        some { ev := r.1, threads := woken.set tid r.2.1, log := s.log ++ r.2.2.toList }
    else none

/-- A schedule: actions one after the other. -/
def System.run : List Action → System → Option System
  | [], s => some s
  | a :: rest, s =>
    match s.exec a with
    | none => none
    | some t => System.run rest t

/-- The word is one of the three values of an event. -/
def Valid (v : Nat) : Prop :=
  v = toUnsigned EV_SET ∨ v = toUnsigned EV_FREE ∨ v = toUnsigned EV_BUSY

/-- The transitions the source lists as valid: free->set, busy->set, set->free,
free->busy. -/
def Transition (v w : Nat) : Prop :=
  (v = toUnsigned EV_FREE ∧ w = toUnsigned EV_SET) ∨
  (v = toUnsigned EV_BUSY ∧ w = toUnsigned EV_SET) ∨
  (v = toUnsigned EV_SET ∧ w = toUnsigned EV_FREE) ∨
  (v = toUnsigned EV_FREE ∧ w = toUnsigned EV_BUSY)

/-- A call of `f` by a new thread that runs to its end with no step of another
thread in between (three steps are the longest path of a call). -/
def System.callAlone (s : System) (f : Fn) : Option System :=
  System.run [Action.call f, Action.step s.threads.length, Action.step s.threads.length,
    Action.step s.threads.length] s

end QemuThread

/-! # The FFmpeg H.264 decoder (`android/emulation/MediaH264DecoderFfmpeg.cpp`)

`decodeFrame` and `checkWhetherConfigChanged` are embedded from the source.
The class declaration (`MediaH264DecoderFfmpeg.h`), the error codes
(`MediaH264Decoder.h`), `H264NaluParser` and the FFmpeg library are not in the
sources: the decoder's members are the ones the functions use, and the parser,
the library and the numeric error codes are parameters.  A pointer into a
buffer is the list of the bytes from that address on. -/

namespace MediaH264

/-- `H264NaluParser::H264NaluType`: the `nal_unit_type` of a NAL unit. -/
abbrev H264NaluType := Nat

/-- `H264NaluParser::H264NaluType::SPS`, `nal_unit_type` 7 of the H.264
standard (sequence parameter set). -/
def H264NaluType.SPS : H264NaluType := 7

/-- The two functions of `H264NaluParser` the decoder calls, as parameters.
`getNextStartCodeHeader data nBytes` is the offset from `data` of the start
code found, `none` for `nullptr`; `getFrameNaluType data nBytes` is the type of
the NAL unit at `data`. -/
structure NaluParser where
  getNextStartCodeHeader : List Nat → Nat → Option Nat
  getFrameNaluType : List Nat → Nat → H264NaluType

/-- The fields of `AVFrame` the decoder reads; `data` and `linesize` are the
planes. -/
structure AVFrame where
  width : Int
  height : Int
  pts : Int
  format : Int
  color_primaries : Nat
  color_range : Nat
  color_trc : Nat
  colorspace : Nat
  data : List (List Nat)
  linesize : List Int
deriving DecidableEq, Repr

/-- What `decodeFrame` puts in `mPacket`. -/
structure AVPacket where
  data : List Nat
  size : Int
  pts : Nat
deriving DecidableEq, Repr

/-- The FFmpeg library as a black box over a codec context of type `σ`:
`avcodec_alloc_context3` with `avcodec_open2`, `avcodec_send_packet`,
`avcodec_receive_frame` (the context, the return value and the frame it leaves
in `mFrame`), and the two return values the decoder tests for. -/
structure Ffmpeg (σ : Type) where
  AVERROR_EOF : Int
  AVERROR_EAGAIN : Int
  open_context : σ
  send_packet : σ → AVPacket → σ
  receive_frame : σ → σ × Int × AVFrame

/-- `MediaH264Decoder::Err`, the codes the functions use. -/
inductive Err where
  | NoErr
  | NoDecodedFrame
  | DecoderRestarted
deriving DecidableEq, Repr

/-- The members of `MediaH264DecoderFfmpeg` that `decodeFrame`,
`checkWhetherConfigChanged`, `resetDecoder` and `copyFrame` use, with the types
`MediaH264DecoderDefault.h` gives the members of the same names (`unsigned int`
sizes, `uint64_t` presentation time). -/
structure Decoder (σ : Type) where
  mIsSoftwareDecoder : Bool
  mNumDecodedFrame : Nat
  mImageReady : Bool
  mIsInFlush : Bool
  mFrameFormatChanged : Bool
  mOutputWidth : Nat
  mOutputHeight : Nat
  mOutBufferSize : Nat
  mOutputPts : Nat
  mColorPrimaries : Nat
  mColorRange : Nat
  mColorTransfer : Nat
  mColorSpace : Nat
  mDecodedFrame : List Nat
  mCodecCtx : σ
  mFrame : AVFrame
  mPacket : AVPacket

/-- Conversion to `unsigned int` (32 bits). -/
def toUnsigned (x : Int) : Nat := (x % 2 ^ 32).toNat

/-- Conversion to `int` (32 bits, two's complement). -/
def toInt32 (x : Int) : Int := (x + 2 ^ 31) % 2 ^ 32 - 2 ^ 31

/-- Arithmetic on `size_t` (64 bits). -/
def wrapSize (x : Int) : Nat := (x % 2 ^ 64).toNat

/-- Guest memory: a byte for every address. -/
abbrev Mem := Nat → Nat

/-- A store of the `n` low bytes of `value` at `addr` (host byte order: least
significant byte first). -/
def storeLE (mem : Mem) (addr n value : Nat) : Mem :=
  fun a => if addr ≤ a ∧ a < addr + n then value / 256 ^ (a - addr) % 256 else mem a

/-- A load of `n` bytes at `addr`. -/
def loadLE (mem : Mem) (addr : Nat) : Nat → Nat
  | 0 => 0
  | n + 1 => mem addr % 256 + 256 * loadLE mem (addr + 1) n

/-- `getReturnAddress(ptr)`: `xptr + 256`. -/
def getReturnAddress (ptr : Nat) : Nat := ptr + 256

/-- `resetDecoder()`: `mNumDecodedFrame = 0` and a new codec context. -/
def resetDecoder {σ : Type} (lib : Ffmpeg σ) (d : Decoder σ) : Decoder σ :=
  { d with mNumDecodedFrame := 0, mCodecCtx := lib.open_context }

/-- `checkWhetherConfigChanged(frame, szBytes)`; the result and the decoder
afterwards. -/
def checkWhetherConfigChanged {σ : Type} (P : NaluParser) (d : Decoder σ) (frame : List Nat)
    (szBytes : Nat) : Bool × Decoder σ :=
  match P.getNextStartCodeHeader frame szBytes with
  | none => (false, d)
  | some currNalu =>
    let remaining := wrapSize ((szBytes : Int) - (currNalu : Int))
    let currNaluType := P.getFrameNaluType (frame.drop currNalu) remaining
    if currNaluType ≠ H264NaluType.SPS then (false, d)
    else
      match P.getNextStartCodeHeader (frame.drop (currNalu + 3))
          (wrapSize ((remaining : Int) - 3)) with
      | none => (false, d)
      | some _ => if d.mNumDecodedFrame = 0 then (false, d) else (true, d)

/-- `copyFrame()`: the output size follows the frame, the decoded picture and
the colour description are taken from `mFrame`.  The bytes the row-by-row
`memcpy` of the planes and `YuvConverter` (not in the sources) leave in
`mDecodedFrame` are the parameter `pixels`. -/
def copyFrame {σ : Type} (pixels : AVFrame → List Nat) (d : Decoder σ) : Decoder σ :=
  let w := d.mFrame.width
  let h := d.mFrame.height
  let resized := toUnsigned w ≠ d.mOutputWidth ∨ toUnsigned h ≠ d.mOutputHeight
  { d with
    mOutputWidth := if resized then toUnsigned w else d.mOutputWidth
    mOutputHeight := if resized then toUnsigned h else d.mOutputHeight
    mOutBufferSize :=
      if resized then toUnsigned w * toUnsigned h % 2 ^ 32 * 3 % 2 ^ 32 / 2
      else d.mOutBufferSize
    mDecodedFrame := pixels d.mFrame
    mColorPrimaries := d.mFrame.color_primaries
    mColorRange := d.mFrame.color_range
    mColorTransfer := d.mFrame.color_trc
    mColorSpace := d.mFrame.colorspace }

/-- The decoder at the point where `decodeFrame` sends the packet: a hardware
decoder has been reset if `checkWhetherConfigChanged` said so. -/
def decodeFrame.prepared {σ : Type} (lib : Ffmpeg σ) (P : NaluParser) (d : Decoder σ)
    (frame : List Nat) (szBytes : Nat) : Decoder σ :=
  if d.mIsSoftwareDecoder = false then
    if (checkWhetherConfigChanged P d frame szBytes).1 = true then
      resetDecoder lib (checkWhetherConfigChanged P d frame szBytes).2
    else (checkWhetherConfigChanged P d frame szBytes).2
  else d

/-- What `avcodec_receive_frame` gives inside `decodeFrame`, after
`avcodec_send_packet` of the input: the context, the return value `retframe` and
the frame. -/
def decodeFrame.received {σ : Type} (lib : Ffmpeg σ) (P : NaluParser) (d : Decoder σ)
    (frame : List Nat) (szBytes inputPts : Nat) : σ × Int × AVFrame :=
  lib.receive_frame
    (lib.send_packet (decodeFrame.prepared lib P d frame szBytes).mCodecCtx
      { data := frame, size := toInt32 szBytes, pts := inputPts })

/-- `decodeFrame(ptr, frame, szBytes, inputPts)`: the decoder and the guest
memory afterwards.  `code` gives the `int` value of an error code. -/
def decodeFrame {σ : Type} (lib : Ffmpeg σ) (P : NaluParser) (pixels : AVFrame → List Nat)
    (code : Err → Int) (d : Decoder σ) (mem : Mem) (ptr : Nat) (frame : List Nat)
    (szBytes inputPts : Nat) : Decoder σ × Mem :=
  let retptr := getReturnAddress ptr
  let d1 := decodeFrame.prepared lib P d frame szBytes
  let r := decodeFrame.received lib P d frame szBytes inputPts
  let d2 : Decoder σ :=
    { d1 with
      mPacket := { data := frame, size := toInt32 szBytes, pts := inputPts }
      mCodecCtx := r.1
      mFrame := r.2.2 }
  let mem1 := storeLE mem retptr 8 (szBytes % 2 ^ 64)
  let mem2 := storeLE mem1 (retptr + 8) 4 (toUnsigned (code Err.NoErr))
  let d3 : Decoder σ := { d2 with mIsInFlush := false }
  if r.2.1 ≠ 0 then
    if r.2.1 = lib.AVERROR_EOF then (resetDecoder lib d3, mem2)
    else (d3, mem2)
  else
    let d4 : Decoder σ := { d3 with mFrameFormatChanged := false }
    if d4.mIsSoftwareDecoder = true
        ∧ (toUnsigned d4.mFrame.width ≠ d4.mOutputWidth
          ∨ toUnsigned d4.mFrame.height ≠ d4.mOutputHeight) then
      ({ d4 with
          mOutputHeight := toUnsigned d4.mFrame.height
          mOutputWidth := toUnsigned d4.mFrame.width
          mFrameFormatChanged := true },
        storeLE mem2 (retptr + 8) 4 (toUnsigned (code Err.DecoderRestarted)))
    else
      let d5 := copyFrame pixels { d4 with mNumDecodedFrame := d4.mNumDecodedFrame + 1 }
      ({ d5 with mOutputPts := wrapSize d5.mFrame.pts, mImageReady := true }, mem2)

/-- Whether `decodeFrame` meets a frame of the software decoder whose size is
not the current output size. -/
def decodeFrame.restarted {σ : Type} (lib : Ffmpeg σ) (P : NaluParser) (d : Decoder σ)
    (frame : List Nat) (szBytes inputPts : Nat) : Prop :=
  d.mIsSoftwareDecoder = true ∧ (decodeFrame.received lib P d frame szBytes inputPts).2.1 = 0 ∧
  (toUnsigned (decodeFrame.received lib P d frame szBytes inputPts).2.2.width ≠ d.mOutputWidth
    ∨ toUnsigned (decodeFrame.received lib P d frame szBytes inputPts).2.2.height
      ≠ d.mOutputHeight)

/-- A reference parser for the concrete statements: the start code is the
three bytes 00 00 01, and the type of a NAL unit is the low five bits of the
byte after its start code. -/
def findStartCode : List Nat → Nat → Option Nat
  | a :: b :: c :: rest, n + 3 =>
    if a = 0 ∧ b = 0 ∧ c = 1 then some 0
    else
      match findStartCode (b :: c :: rest) (n + 2) with
      | none => none
      | some i => some (i + 1)
  | _, _ => none

/-- The reference parser. -/
def refParser : NaluParser :=
  { getNextStartCodeHeader := findStartCode
    getFrameNaluType := fun data _ => data.getD 3 0 % 32 }

/-- A library for the concrete statements: the context counts the packets sent,
and every packet yields the same return value and frame. -/
def constLib (retframe : Int) (fr : AVFrame) : Ffmpeg Nat :=
  { AVERROR_EOF := -541478725
    AVERROR_EAGAIN := -11
    open_context := 0
    send_packet := fun ctx _ => ctx + 1
    receive_frame := fun ctx => (ctx, retframe, fr) }

/-- A frame of the given size with nothing else in it. -/
def blankFrame (width height : Int) : AVFrame :=
  { width := width, height := height, pts := 0, format := 0, color_primaries := 2,
    color_range := 0, color_trc := 2, colorspace := 2, data := [], linesize := [] }

/-- A software decoder with output size 640 x 480 that has decoded `n` frames. -/
def demoDecoder (n : Nat) : Decoder Nat :=
  { mIsSoftwareDecoder := true, mNumDecodedFrame := n, mImageReady := false, mIsInFlush := false,
    mFrameFormatChanged := false, mOutputWidth := 640, mOutputHeight := 480,
    mOutBufferSize := 460800, mOutputPts := 0, mColorPrimaries := 2, mColorRange := 0,
    mColorTransfer := 2, mColorSpace := 2, mDecodedFrame := [], mCodecCtx := 0,
    mFrame := blankFrame 0 0, mPacket := { data := [], size := 0, pts := 0 } }

/-- The error codes for the concrete statements. -/
def demoCode : Err → Int
  | .NoErr => 0
  | .NoDecodedFrame => -1
  | .DecoderRestarted => -3

end MediaH264

/-! # Icebox: the event loop of `track` (`android/snapshot/Icebox.cpp`)

The loop at the end of `track` is embedded from the source.  The socket is an
oracle: the packets `recvPacket` returns one after the other, and for every
`sendPacket` whether it succeeds.  `track` runs on a worker thread and the
snapshot on the main looper; a schedule says which of the two runs next.  The
ADB command words (`apacket_utils.h`) and the JDWP constants and serialiser
(`android/jdwp/Jdwp.h`) are not in the sources: the words and constants are
those of the ADB and JDWP protocols, and the serialiser is a parameter. -/

namespace Icebox

/-- `ADB_OKAY`, the ADB protocol's command word "OKAY". -/
def ADB_OKAY : Nat := 0x59414b4f

/-- `ADB_CLSE`, the ADB protocol's command word "CLSE". -/
def ADB_CLSE : Nat := 0x45534c43

/-- `ADB_WRTE`, the ADB protocol's command word "WRTE". -/
def ADB_WRTE : Nat := 0x45545257

/-- `SuspendPolicy::All` of JDWP. -/
def SuspendPolicy.All : Nat := 2

/-- `CommandSet::VirtualMachine` of JDWP. -/
def CommandSet.VirtualMachine : Nat := 1

/-- `VirtualMachineCommand::Resume` of JDWP. -/
def VirtualMachineCommand.Resume : Nat := 9

/-- An `apacket`: the fields of its `amessage` that `track` uses, and the
data. -/
structure apacket where
  command : Nat
  arg0 : Nat
  arg1 : Nat
  data_length : Nat
  magic : Nat
  data : List Nat
deriving DecidableEq, Repr

/-- `JdwpCommandHeader`. -/
structure JdwpCommandHeader where
  length : Nat
  id : Nat
  flags : Nat
  command_set : Nat
  command : Nat
deriving DecidableEq, Repr

/-- What the outside sees of `track`: a `sendPacket` with its result, and the
snapshot save on the main looper (`androidSnapshot_save(name)`). -/
inductive Effect where
  | send (packet : apacket) (ok : Bool)
  | snapshotSave (name : String)
deriving DecidableEq, Repr

/-- Where the `track` thread stands. -/
inductive Pc where
  /-- At the top of `while (1)`, before `_RECV_PACKET(reply)`. -/
  | loop
  /-- In `snapshot_signal.wait`, until `snapshot_done`. -/
  | waiting
  /-- `track` has returned `result`. -/
  | returned (result : Bool)
deriving DecidableEq, Repr

/-- The socket, the main looper and the locals of `track` that live across the
loop.  After the last entry of `incoming` the connection is closed and
`recvPacket` fails. -/
structure Track where
  incoming : List (Option apacket)
  sendOk : Nat → Bool
  nSent : Nat
  trace : List Effect
  posted : Nat
  snapshot_done : Bool
  local_id : Nat
  ok_out : apacket
  packet_out : apacket
  jdwp_id : Nat
  pc : Pc

/-- `sendPacket(s, &packet)`: the socket's answer, recorded in the trace. -/
def sendPacket (st : Track) (packet : apacket) : Track × Bool :=
  ({ st with nSent := st.nSent + 1, trace := st.trace ++ [Effect.send packet (st.sendOk st.nSent)] },
    st.sendOk st.nSent)

/-- `recvPacketWithId(s, hostId, packet)`: receive until a packet with
`arg1 == hostId` arrives; `none` if `recvPacket` fails first.  The second
component is what is left to receive. -/
def recvPacketWithId : List (Option apacket) → Nat → Option apacket × List (Option apacket)
  | [], _ => (none, [])
  | none :: rest, _ => (none, rest)
  | some p :: rest, hostId =>
    if p.arg1 ≠ hostId then recvPacketWithId rest hostId else (some p, rest)

/-- `std::vector::resize(n)` on bytes. -/
def resize (l : List Nat) (n : Nat) : List Nat := (l ++ List.replicate n 0).take n

/-- `return result;` -/
def Track.ret (st : Track) (result : Bool) : Track := { st with pc := Pc.returned result }

/-- `track`: one iteration of its final `while (1)` up to the point where it
waits for the snapshot, has sent its OKAY or returns. -/
def track.loopIteration (st : Track) : Track :=
  match recvPacketWithId st.incoming st.local_id with
  | (none, rest) => ({ st with incoming := rest }).ret false
  | (some reply, rest) =>
    if reply.command = ADB_CLSE then ({ st with incoming := rest }).ret true
    else if reply.data_length > 11 ∧ reply.data[11]? = some SuspendPolicy.All then
      { st with incoming := rest, snapshot_done := false, posted := st.posted + 1,
                pc := Pc.waiting }
    else
      if (sendPacket { st with incoming := rest } st.ok_out).2 = true then
        (sendPacket { st with incoming := rest } st.ok_out).1
      else (sendPacket { st with incoming := rest } st.ok_out).1.ret false

/-- The `JdwpCommandHeader` of the Resume command. -/
def resumeHeader (st : Track) : JdwpCommandHeader :=
  { length := 11, id := st.jdwp_id, flags := 0, command_set := CommandSet.VirtualMachine,
    command := VirtualMachineCommand.Resume }

/-- `packet_out` as the Resume command is sent in it. -/
def resumePacket (writeToBuffer : JdwpCommandHeader → List Nat → List Nat) (st : Track) :
    apacket :=
  { st.packet_out with
    data_length := (resumeHeader st).length
    data := writeToBuffer (resumeHeader st) (resize st.packet_out.data (resumeHeader st).length) }

/-- `packet_out` as the close is sent in it. -/
def closePacket (p : apacket) : apacket :=
  { p with command := ADB_CLSE, data_length := 0, data := resize p.data 0,
           magic := ADB_CLSE ^^^ 0xffffffff }

/-- `track`: the rest of the iteration once the snapshot is done: `_SEND_PACKET(ok_out)`,
the Resume command with `_SEND_PACKET_OK`, `_RECV_PACKET_OK(reply)`, the close
with `_SEND_PACKET`, `return true`; every macro returns false when its send or
receive fails. -/
def track.afterSnapshot (writeToBuffer : JdwpCommandHeader → List Nat → List Nat) (st : Track) :
    Track :=
  let s1 := sendPacket st st.ok_out
  if s1.2 = false then s1.1.ret false
  else
    let st2 : Track :=
      { s1.1 with jdwp_id := (s1.1.jdwp_id + 1) % 2 ^ 32
                  packet_out := resumePacket writeToBuffer s1.1 }
    let s3 := sendPacket st2 st2.packet_out
    if s3.2 = false then s3.1.ret false
    else
      match recvPacketWithId s3.1.incoming s3.1.local_id with
      | (none, rest) => ({ s3.1 with incoming := rest }).ret false
      | (some okay, rest) =>
        if okay.command ≠ ADB_OKAY then ({ s3.1 with incoming := rest }).ret false
        else
          match recvPacketWithId rest s3.1.local_id with
          | (none, rest2) => ({ s3.1 with incoming := rest2 }).ret false
          | (some _, rest2) =>
            let s4 := sendPacket { s3.1 with incoming := rest2 } s3.1.ok_out
            if s4.2 = false then s4.1.ret false
            else
              let st5 : Track := { s4.1 with packet_out := closePacket s4.1.packet_out }
              let s6 := sendPacket st5 st5.packet_out
              if s6.2 = false then s6.1.ret false
              else s6.1.ret true

/-- Who runs next. -/
inductive Action where
  /-- The `track` thread runs up to its next wait or return. -/
  | track
  /-- The main looper runs the next closure posted to it. -/
  | mainLooper
deriving DecidableEq, Repr

/-- The closure `track` posts with `runOnMainLooper`:
`androidSnapshot_save("test_failure_snapshot")`, then `snapshot_done = true` and
the broadcast. -/
def runPosted (st : Track) : Track :=
  if 0 < st.posted then
    { st with posted := st.posted - 1
              trace := st.trace ++ [Effect.snapshotSave "test_failure_snapshot"]
              snapshot_done := true }
  else st

/-- One action.  A `track` thread that waits goes on only when `snapshot_done`
holds. -/
def Track.exec (writeToBuffer : JdwpCommandHeader → List Nat → List Nat) (st : Track) :
    Action → Track
  | .track =>
    match st.pc with
    | .loop => track.loopIteration st
    | .waiting => if st.snapshot_done = true then track.afterSnapshot writeToBuffer st else st
    | .returned _ => st
  | .mainLooper => runPosted st

/-- A schedule. -/
def Track.run (writeToBuffer : JdwpCommandHeader → List Nat → List Nat) :
    List Action → Track → Track
  | [], st => st
  | a :: rest, st => Track.run writeToBuffer rest (st.exec writeToBuffer a)

/-- Whether a received packet makes `track` take the snapshot:
`reply.mesg.data_length > 11 && reply.data[11] == SuspendPolicy::All`. -/
def suspendsAll (reply : apacket) : Prop :=
  reply.data_length > 11 ∧ reply.data[11]? = some SuspendPolicy.All

/-- From `s` to `t` the trace has grown by sends only. -/
def SendsOnly (s t : Track) : Prop :=
  ∃ sends, t.trace = s.trace ++ sends ∧ ∀ e ∈ sends, ∃ p ok, e = Effect.send p ok

/-- The state in which `track` waits for the snapshot after it has received the
packet that is followed by `rest`. -/
def Track.posted1 (st : Track) (rest : List (Option apacket)) : Track :=
  { st with incoming := rest, snapshot_done := false, posted := 1, pc := Pc.waiting }

/-- The state in which `track` still waits and the main looper has saved the
snapshot. -/
def Track.saved (st : Track) (rest : List (Option apacket)) : Track :=
  { st with incoming := rest, snapshot_done := true, posted := 0, pc := Pc.waiting
            trace := st.trace ++ [Effect.snapshotSave "test_failure_snapshot"] }

/-- A serialiser for the concrete statements: length and id as four bytes each,
most significant first, then flags, command set and command. -/
def demoWriteToBuffer (h : JdwpCommandHeader) (_buffer : List Nat) : List Nat :=
  [h.length / 2 ^ 24 % 256, h.length / 2 ^ 16 % 256, h.length / 2 ^ 8 % 256, h.length % 256,
   h.id / 2 ^ 24 % 256, h.id / 2 ^ 16 % 256, h.id / 2 ^ 8 % 256, h.id % 256,
   h.flags % 256, h.command_set % 256, h.command % 256]

/-- The OKAY packet of a session with local id 7 and remote id 9. -/
def demoOkOut : apacket :=
  { command := ADB_OKAY, arg0 := 7, arg1 := 9, data_length := 0,
    magic := ADB_OKAY ^^^ 0xffffffff, data := [] }

/-- A JDWP event packet for the session whose byte 11 is `SuspendPolicy::All`. -/
def demoEvent : apacket :=
  { command := ADB_WRTE, arg0 := 9, arg1 := 7, data_length := 12, magic := 0,
    data := [0, 0, 0, 12, 0, 0, 0, 1, 0, 64, 100, 2] }

/-- The remote side's OKAY for the session. -/
def demoAck : apacket :=
  { command := ADB_OKAY, arg0 := 9, arg1 := 7, data_length := 0, magic := 0, data := [] }

/-- The reply to the Resume command. -/
def demoReply : apacket :=
  { command := ADB_WRTE, arg0 := 9, arg1 := 7, data_length := 11, magic := 0,
    data := [0, 0, 0, 11, 0, 0, 0, 8, 128, 0, 0] }

/-- `track` at the top of its loop; the event, the OKAY and the reply will
arrive; `sendOk` is the socket's answer to the sends. -/
def demoTrack (sendOk : Nat → Bool) : Track :=
  { incoming := [some demoEvent, some demoAck, some demoReply], sendOk := sendOk, nSent := 0,
    trace := [], posted := 0, snapshot_done := false, local_id := 7, ok_out := demoOkOut,
    packet_out := { command := ADB_WRTE, arg0 := 7, arg1 := 9, data_length := 0,
                    magic := ADB_WRTE ^^^ 0xffffffff, data := [] },
    jdwp_id := 8, pc := Pc.loop }

end Icebox

/-! # Theorems -/

namespace Snapshot

/-! ## The inline accessors of `RamSaver.h` -/

theorem ldiff_two_pow_eq_zero (n k : Nat) : Nat.ldiff (2 ^ k) n = 0 ↔ n.testBit k = true := by
  constructor
  · intro h
    have h1 := congrArg (fun x => x.testBit k) h
    simpa [Nat.testBit_ldiff, Nat.testBit_two_pow] using h1
  · intro h
    apply Nat.eq_of_testBit_eq
    intro i
    simp only [Nat.testBit_ldiff, Nat.testBit_two_pow, Nat.zero_testBit, Bool.and_eq_false_imp,
      decide_eq_true_eq, Bool.not_eq_false_eq_eq_true]
    intro hk
    subst hk
    simp [h]

theorem land_two_pow_ne_zero (flags : Int) (k : Nat) :
    (Int.land flags (2 ^ k) != 0) = flags.testBit k := by
  have h2 : ((2 : Int) ^ k) = ((2 ^ k : Nat) : Int) := by push_cast; rfl
  rw [h2]
  cases flags with
  | ofNat n =>
    show (((n &&& 2 ^ k : Nat) : Int) != 0) = n.testBit k
    rw [Nat.and_two_pow]
    cases h : n.testBit k <;> simp
  | negSucc n =>
    show (((Nat.ldiff (2 ^ k) n : Nat) : Int) != 0) = !(n.testBit k)
    cases h : n.testBit k
    · have h3 : Nat.ldiff (2 ^ k) n ≠ 0 := by
        intro h0
        rw [ldiff_two_pow_eq_zero] at h0
        rw [h] at h0
        exact Bool.noConfusion h0
      simpa using h3
    · have h3 : Nat.ldiff (2 ^ k) n = 0 := (ldiff_two_pow_eq_zero n k).2 h
      simp [h3]

theorem land_zero_left (c : Int) : Int.land 0 c = 0 := by
  cases c with
  | ofNat n =>
    show ((0 &&& n : Nat) : Int) = 0
    simp
  | negSucc n =>
    show ((Nat.ldiff 0 n : Nat) : Int) = 0
    have h : Nat.ldiff 0 n = 0 := by
      apply Nat.eq_of_testBit_eq
      intro i
      simp [Nat.testBit_ldiff]
    simp [h]

/-- C8: `getDuration` returns true exactly when `mEndTime >= mStartTime`; it never
changes the saver (so neither timestamp); when it returns false, or the pointer
is null, nothing is written; when it returns true and the pointer is non-null
the pointee becomes the 64-bit difference `mEndTime - mStartTime`, which is the
exact, non-negative difference whenever that subtraction does not overflow. -/
theorem getDuration_spec (s : RamSaver) (duration : Option Int) :
    ((s.getDuration duration).1 = true ↔ s.mStartTime ≤ s.mEndTime) ∧
    (s.getDuration duration).2.2 = s ∧
    ((s.getDuration duration).1 = false → (s.getDuration duration).2.1 = duration) ∧
    (duration = none → (s.getDuration duration).2.1 = none) ∧
    (∀ old, duration = some old → (s.getDuration duration).1 = true →
      (s.getDuration duration).2.1 = some (wrapDuration (s.mEndTime - s.mStartTime))) ∧
    (s.mStartTime ≤ s.mEndTime → s.mEndTime - s.mStartTime < 2 ^ 63 →
      wrapDuration (s.mEndTime - s.mStartTime) = s.mEndTime - s.mStartTime ∧
      0 ≤ wrapDuration (s.mEndTime - s.mStartTime)) := by
  refine ⟨?_, ?_, ?_, ?_, ?_, ?_⟩
  · unfold RamSaver.getDuration
    by_cases h : s.mEndTime < s.mStartTime
    · simp [h]
    · cases duration <;> simp [h] <;> omega
  · unfold RamSaver.getDuration
    by_cases h : s.mEndTime < s.mStartTime
    · simp [h]
    · cases duration <;> simp [h]
  · unfold RamSaver.getDuration
    by_cases h : s.mEndTime < s.mStartTime
    · simp [h]
    · cases duration <;> simp [h]
  · intro hd
    subst hd
    unfold RamSaver.getDuration
    by_cases h : s.mEndTime < s.mStartTime <;> simp [h]
  · intro old hd
    subst hd
    unfold RamSaver.getDuration
    by_cases h : s.mEndTime < s.mStartTime <;> simp [h]
  · intro h1 h2
    unfold wrapDuration
    constructor <;> omega

/-- A saver started at clock reading 10 whose save ended at clock reading 50. -/
theorem getDuration_spec_witness :
    wrapDuration (50 - 10) = 50 - 10 ∧ 0 ≤ wrapDuration (50 - 10) :=
  (getDuration_spec
    { RamSaver.initial 10 with mEndTime := 50 }
    (some 0)).2.2.2.2.2 (by decide) (by decide)

/-- C10: `compressed()` is true exactly when the `CompressedPages` bit (bit `k` for
the single-bit enumerator value `2 ^ k`) is set in `mIndex.flags`, for every
value of the flags word, so two flag words that agree on that bit give the same
answer; on the flags of a freshly constructed index (`Empty`) it is false,
whatever the enumerator's value. -/
theorem compressed_spec (s : RamSaver) (k : Nat) :
    (s.compressed (2 ^ k) = true ↔ s.mIndex.flags.testBit k = true) ∧
    (∀ t : RamSaver, t.mIndex.flags.testBit k = s.mIndex.flags.testBit k →
      t.compressed (2 ^ k) = s.compressed (2 ^ k)) ∧
    (∀ c : Int, s.mIndex.flags = IndexFlags.Empty → s.compressed c = false) ∧
    (∀ c : Int, ({ mStream := s.mStream, mFlags := s.mFlags, mStartTime := s.mStartTime }
      : RamSaver).compressed c = false) := by
  refine ⟨?_, ?_, ?_, ?_⟩
  · unfold RamSaver.compressed
    rw [land_two_pow_ne_zero]
  · intro t ht
    unfold RamSaver.compressed
    rw [land_two_pow_ne_zero, land_two_pow_ne_zero, ht]
  · intro c hc
    unfold RamSaver.compressed
    rw [hc]
    show (Int.land 0 c != 0) = false
    rw [land_zero_left]
    rfl
  · intro c
    unfold RamSaver.compressed
    show (Int.land 0 c != 0) = false
    rw [land_zero_left]
    rfl

end Snapshot

namespace Snapshot

/-! ## Files and the offset slot -/

theorem File.read_length (f : File) (pos n : Nat) : (f.read pos n).length = n := by
  simp [File.read]

theorem File.read_congr (f g : File) (pos n : Nat)
    (h : ∀ i, pos ≤ i → i < pos + n → f.data i = g.data i) : f.read pos n = g.read pos n := by
  unfold File.read
  apply List.map_congr_left
  intro i hi
  rw [List.mem_range] at hi
  exact h _ (by omega) (by omega)

theorem File.write_data_outside (f : File) (pos : Nat) (bs : List Nat) (i : Nat)
    (h : i < pos ∨ pos + bs.length ≤ i) : (f.write pos bs).data i = f.data i := by
  unfold File.write
  have h2 : ¬ (pos ≤ i ∧ i < pos + bs.length) := by omega
  simp [h2]

theorem File.read_write_disjoint (f : File) (pos : Nat) (bs : List Nat) (pos2 n : Nat)
    (h : pos2 + n ≤ pos ∨ pos + bs.length ≤ pos2) :
    (f.write pos bs).read pos2 n = f.read pos2 n := by
  apply File.read_congr
  intro i h1 h2
  apply File.write_data_outside
  omega

theorem File.read_write_same (f : File) (pos : Nat) (bs : List Nat) :
    (f.write pos bs).read pos bs.length = bs := by
  apply List.ext_getElem
  · simp [File.read]
  · intro i h1 h2
    simp only [File.read, List.getElem_map, List.getElem_range, File.write]
    have h3 : pos ≤ pos + i ∧ pos + i < pos + bs.length := by omega
    simp [h3, List.getD_eq_getElem?_getD, List.getElem?_eq_getElem h2]

theorem File.read_add (f : File) (pos n m : Nat) :
    f.read pos (n + m) = f.read pos n ++ f.read (pos + n) m := by
  apply List.ext_getElem
  · simp [File.read]
  · intro i h1 h2
    simp only [File.read, List.getElem_map, List.getElem_range]
    by_cases hi : i < n
    · rw [List.getElem_append_left (by simpa using hi)]
      simp
    · rw [List.getElem_append_right (by simpa using hi)]
      simp only [List.length_map, List.length_range, List.getElem_map, List.getElem_range]
      congr 1
      omega

theorem File.write_size (f : File) (pos : Nat) (bs : List Nat) :
    (f.write pos bs).size = max f.size (pos + bs.length) := rfl

theorem encode64_length (n : Nat) : (encode64 n).length = 8 := by
  simp [encode64]

theorem decode64_encode64 (n : Nat) (h : n < 2 ^ 64) : decode64 (encode64 n) = n := by
  simp only [encode64, decode64, List.range_succ, List.range_zero, List.nil_append,
    List.map_append, List.map_cons, List.map_nil, List.cons_append, List.foldr_cons,
    List.foldr_nil]
  omega

end Snapshot

namespace Snapshot

/-! ## Entries of the index -/

theorem FileIndex.page?_setPage_same (idx : FileIndex) (bi pi : Nat) (p q : Page)
    (h : idx.page? bi pi = some q) : (idx.setPage bi pi p).page? bi pi = some p := by
  unfold FileIndex.page? at h
  unfold FileIndex.setPage FileIndex.page?
  cases hb : idx.blocks[bi]? with
  | none => simp [hb] at h
  | some b =>
    simp only [hb] at h ⊢
    have hlt : bi < idx.blocks.length := by
      by_contra hc
      rw [List.getElem?_eq_none (by omega)] at hb
      exact Option.noConfusion hb
    have hpl : pi < b.pages.length := by
      by_contra hc
      rw [List.getElem?_eq_none (by omega)] at h
      exact Option.noConfusion h
    simp [List.getElem?_set, hlt, hpl]

theorem FileIndex.page?_setPage_other (idx : FileIndex) (bi pi bj pj : Nat) (p : Page)
    (h : ¬ (bi = bj ∧ pi = pj)) : (idx.setPage bi pi p).page? bj pj = idx.page? bj pj := by
  unfold FileIndex.setPage FileIndex.page?
  cases hb : idx.blocks[bi]? with
  | none => simp
  | some b =>
    simp only []
    by_cases hbb : bi = bj
    · subst hbb
      have hpp : pi ≠ pj := fun hc => h ⟨rfl, hc⟩
      have hlt : bi < idx.blocks.length := by
        by_contra hc
        rw [List.getElem?_eq_none (by omega)] at hb
        exact Option.noConfusion hb
      simp [List.getElem?_set, hlt, hb, hpp]
    · simp [List.getElem?_set, hbb]

/-- The descriptors and page counts of an index, in order. -/
theorem FileIndex.setPage_layout (idx : FileIndex) (bi pi : Nat) (p : Page) :
    (idx.setPage bi pi p).blocks.map (fun b => (b.ramBlock, b.pages.length))
      = idx.blocks.map (fun b => (b.ramBlock, b.pages.length)) := by
  unfold FileIndex.setPage
  cases hb : idx.blocks[bi]? with
  | none => simp
  | some b =>
    simp only []
    apply List.ext_getElem?
    intro n
    simp only [List.getElem?_map, List.getElem?_set]
    by_cases hn : bi = n
    · subst hn
      have hlt : bi < idx.blocks.length := by
        by_contra hc
        rw [List.getElem?_eq_none (by omega)] at hb
        exact Option.noConfusion hb
      simp [hlt, hb]
    · simp [hn]

theorem FileIndex.setPage_fields (idx : FileIndex) (bi pi : Nat) (p : Page) :
    (idx.setPage bi pi p).flags = idx.flags ∧ (idx.setPage bi pi p).totalPages = idx.totalPages
    ∧ (idx.setPage bi pi p).version = idx.version
    ∧ (idx.setPage bi pi p).startPosInFile = idx.startPosInFile := by
  unfold FileIndex.setPage
  cases idx.blocks[bi]? <;> simp

theorem FileIndex.setPage_ramBlock (idx : FileIndex) (bi pi bj : Nat) (p : Page) :
    ((idx.setPage bi pi p).blocks[bj]?).map (fun b => b.ramBlock)
      = (idx.blocks[bj]?).map (fun b => b.ramBlock) := by
  have h := congrArg (fun l => (l[bj]?).map Prod.fst) (FileIndex.setPage_layout idx bi pi p)
  simpa [List.getElem?_map, Option.map_map, Function.comp] using h

end Snapshot

namespace Snapshot

/-! ## What each call leaves unchanged -/

theorem SameConfig.refl (s : RamSaver) : SameConfig s s :=
  ⟨rfl, rfl, rfl, rfl, rfl, rfl, rfl⟩

theorem SameConfig.trans {s t u : RamSaver} (h1 : SameConfig s t) (h2 : SameConfig t u) :
    SameConfig s u :=
  ⟨h2.flags.trans h1.flags, h2.loader.trans h1.loader, h2.fails.trans h1.fails,
   h2.layout.trans h1.layout, h2.indexFlags.trans h1.indexFlags,
   h2.totalPages.trans h1.totalPages, h2.startTime.trans h1.startTime⟩

theorem FileIndex.layout_setPage (idx : FileIndex) (bi pi : Nat) (p : Page) :
    (idx.setPage bi pi p).layout = idx.layout :=
  FileIndex.setPage_layout idx bi pi p

theorem FileIndex.setPage_none (idx : FileIndex) (bi pi : Nat) (p : Page)
    (h : idx.blocks[bi]? = none) : idx.setPage bi pi p = idx := by
  unfold FileIndex.setPage
  rw [h]

/-- The shape of the result of `handlePageSave`: one entry of the index is
replaced, items are appended to the writer's channel, counters change. -/
theorem handlePageSave_form (env : Env) (mem : Nat → Nat) (s : RamSaver) (pi : QueuedPageInfo) :
    ∃ (p : Page) (w : List WriteInfo) (d : Nat) (st : IncrementalStats),
      s.handlePageSave env mem pi =
        { s with
          mIndex := s.mIndex.setPage pi.blockIndex pi.pageIndex p
          mWriter := w
          mDiskSize := d
          mIncStats := st } := by
  unfold RamSaver.handlePageSave
  cases hb : s.mIndex.blocks[pi.blockIndex]? with
  | none =>
    refine ⟨{}, s.mWriter, s.mDiskSize, s.mIncStats, ?_⟩
    rw [FileIndex.setPage_none _ _ _ _ hb]
  | some block =>
    dsimp only
    cases hp : s.priorMatch pi (env.calcHash (pageBytes mem block.ramBlock pi.pageIndex)) with
    | some prior =>
      exact ⟨_, _, _, _, rfl⟩
    | none =>
      dsimp only
      by_cases hz : isZeroPage (pageBytes mem block.ramBlock pi.pageIndex) = true
      · rw [if_pos hz]
        exact ⟨_, _, _, _, rfl⟩
      · rw [if_neg hz]
        exact ⟨_, _, _, _, rfl⟩

theorem handlePageSave_sameConfig (env : Env) (mem : Nat → Nat) (s : RamSaver)
    (pi : QueuedPageInfo) : SameConfig s (s.handlePageSave env mem pi) := by
  obtain ⟨p, w, d, st, h⟩ := handlePageSave_form env mem s pi
  rw [h]
  constructor <;>
    simp [FileIndex.layout_setPage, (FileIndex.setPage_fields _ _ _ _).1,
      (FileIndex.setPage_fields _ _ _ _).2.1]

theorem pwrite_fails (st : StdioStream) (pos : Nat) (bs : List Nat) :
    (st.pwrite pos bs).1.fails = st.fails := by
  unfold StdioStream.pwrite
  split <;> rfl

/-- The shape of the result of `writePage`. -/
theorem writePage_form (s : RamSaver) (wi : WriteInfo) :
    ∃ (idx : FileIndex) (d : Nat) (st : IncrementalStats) (err : Bool),
      (idx = s.mIndex ∨ ∃ p, idx = s.mIndex.setPage wi.page.blockIndex wi.page.pageIndex p) ∧
      s.writePage wi =
        { s with
          mStream := (s.mStream.pwrite (s.assignSlot wi.ptr.length).1 wi.ptr).1
          mGaps := (s.assignSlot wi.ptr.length).2.1
          mCurrentStreamPos := (s.assignSlot wi.ptr.length).2.2
          mIndex := idx
          mDiskSize := d
          mIncStats := st
          mHasError := s.mHasError || err } := by
  unfold RamSaver.writePage
  by_cases hok : (s.mStream.pwrite (s.assignSlot wi.ptr.length).1 wi.ptr).2 = true
  · rw [if_pos hok]
    cases hp : s.mIndex.page? wi.page.blockIndex wi.page.pageIndex with
    | none => exact ⟨s.mIndex, s.mDiskSize, s.mIncStats, false, Or.inl rfl, by simp⟩
    | some p =>
      refine ⟨s.mIndex.setPage wi.page.blockIndex wi.page.pageIndex
          { p with filePos := ((s.assignSlot wi.ptr.length).1 : Int),
                   sizeOnDisk := (wi.ptr.length : Int) },
        s.mDiskSize + wi.ptr.length,
        { s.mIncStats with bytesWritten := s.mIncStats.bytesWritten + wi.ptr.length },
        false, Or.inr ⟨_, rfl⟩, ?_⟩
      simp only [Bool.or_false]
  · rw [if_neg hok]
    exact ⟨s.mIndex, s.mDiskSize, s.mIncStats, true, Or.inl rfl, by simp⟩

theorem writePage_sameConfig (s : RamSaver) (wi : WriteInfo) : SameConfig s (s.writePage wi) := by
  obtain ⟨idx, d, st, err, hidx, h⟩ := writePage_form s wi
  rw [h]
  rcases hidx with hidx | ⟨p, hidx⟩ <;> subst hidx <;> constructor <;>
    simp [FileIndex.layout_setPage, (FileIndex.setPage_fields _ _ _ _).1,
      (FileIndex.setPage_fields _ _ _ _).2.1, pwrite_fails]

theorem writerStep_sameConfig (s : RamSaver) : SameConfig s s.writerStep := by
  unfold RamSaver.writerStep
  split
  · exact SameConfig.refl s
  · rename_i wi rest hq
    have h1 : SameConfig s { s with mWriter := rest } := ⟨rfl, rfl, rfl, rfl, rfl, rfl, rfl⟩
    exact SameConfig.trans h1 (writePage_sameConfig _ _)

theorem drainN_sameConfig (n : Nat) (s : RamSaver) : SameConfig s (RamSaver.drainN n s) := by
  induction n generalizing s with
  | zero => exact SameConfig.refl s
  | succ n ih => exact SameConfig.trans (writerStep_sameConfig s) (ih _)

theorem writeIndex_sameConfig (env : Env) (s : RamSaver) : SameConfig s (s.writeIndex env) := by
  unfold RamSaver.writeIndex
  constructor <;> simp [pwrite_fails, FileIndex.layout]

theorem publishIndexOffset_sameConfig (s : RamSaver) : SameConfig s s.publishIndexOffset := by
  unfold RamSaver.publishIndexOffset
  constructor <;> simp [pwrite_fails]

theorem complete_sameConfig (env : Env) (s : RamSaver) (now : Int) :
    SameConfig s (s.complete env now) := by
  have h1 := drainN_sameConfig s.mWriter.length s
  have h2 := writeIndex_sameConfig env (RamSaver.drainN s.mWriter.length s)
  have h3 := publishIndexOffset_sameConfig ((RamSaver.drainN s.mWriter.length s).writeIndex env)
  have h4 := SameConfig.trans h1 (SameConfig.trans h2 h3)
  unfold RamSaver.complete RamSaver.drain
  exact ⟨h4.flags, h4.loader, h4.fails, h4.layout, h4.indexFlags, h4.totalPages, h4.startTime⟩

theorem savePage_sameConfig (env : Env) (mem : Nat → Nat) (s t : RamSaver)
    (blockOffset pageOffset pageSize : Int)
    (h : s.savePage env mem blockOffset pageOffset pageSize = some t) : SameConfig s t := by
  unfold RamSaver.savePage at h
  split at h
  · exact Option.noConfusion h
  · split at h
    · exact Option.noConfusion h
    · injection h with h
      subst h
      rename_i pi hres
      have h1 : SameConfig s { s with mLastBlockIndex := (pi.blockIndex : Int) } :=
        ⟨rfl, rfl, rfl, rfl, rfl, rfl, rfl⟩
      exact SameConfig.trans h1 (handlePageSave_sameConfig _ _ _ _)

/-! ## C7: the error flag -/

theorem handlePageSave_hasError (env : Env) (mem : Nat → Nat) (s : RamSaver)
    (pi : QueuedPageInfo) : (s.handlePageSave env mem pi).mHasError = s.mHasError := by
  obtain ⟨p, w, d, st, h⟩ := handlePageSave_form env mem s pi
  rw [h]

theorem writePage_hasError (s : RamSaver) (wi : WriteInfo) (h : s.mHasError = true) :
    (s.writePage wi).mHasError = true := by
  obtain ⟨idx, d, st, err, _, hw⟩ := writePage_form s wi
  rw [hw]
  simp [h]

theorem writerStep_hasError (s : RamSaver) (h : s.mHasError = true) :
    s.writerStep.mHasError = true := by
  unfold RamSaver.writerStep
  split
  · exact h
  · exact writePage_hasError _ _ h

theorem drainN_hasError (n : Nat) (s : RamSaver) (h : s.mHasError = true) :
    (RamSaver.drainN n s).mHasError = true := by
  induction n generalizing s with
  | zero => exact h
  | succ n ih => exact ih _ (writerStep_hasError s h)

theorem writeIndex_hasError (env : Env) (s : RamSaver) (h : s.mHasError = true) :
    (s.writeIndex env).mHasError = true := by
  simp [RamSaver.writeIndex, h]

theorem publishIndexOffset_hasError (s : RamSaver) (h : s.mHasError = true) :
    s.publishIndexOffset.mHasError = true := by
  simp [RamSaver.publishIndexOffset, h]

theorem step_hasError (env : Env) (op : Op) (s t : RamSaver) (hs : step env op s = some t)
    (h : s.hasError = true) : t.hasError = true := by
  unfold RamSaver.hasError at h ⊢
  cases op with
  | registerBlock block =>
    simp only [step, RamSaver.registerBlock] at hs
    split at hs
    · exact Option.noConfusion hs
    · split at hs
      · exact Option.noConfusion hs
      · injection hs with hs
        subst hs
        exact h
  | savePage mem blockOffset pageOffset pageSize =>
    simp only [step, RamSaver.savePage] at hs
    split at hs
    · exact Option.noConfusion hs
    · split at hs
      · exact Option.noConfusion hs
      · injection hs with hs
        subst hs
        rw [handlePageSave_hasError]
        exact h
  | writePage =>
    simp only [step] at hs
    injection hs with hs
    subst hs
    exact writerStep_hasError s h
  | writeIndex =>
    simp only [step] at hs
    injection hs with hs
    subst hs
    exact writeIndex_hasError env s h
  | publishIndexOffset =>
    simp only [step] at hs
    injection hs with hs
    subst hs
    exact publishIndexOffset_hasError s h
  | complete now =>
    simp only [step] at hs
    injection hs with hs
    subst hs
    exact publishIndexOffset_hasError _ (writeIndex_hasError env _ (drainN_hasError _ _ h))
  | join =>
    simp only [step] at hs
    injection hs with hs
    subst hs
    exact h

/-- C7: `hasError` is sticky.  In every sequence of calls (`registerBlock`,
`savePage`, the writer's `writePage`, `writeIndex`, the offset backpatch,
`complete`, `join`) that runs from a saver on which `hasError()` is true,
`hasError()` is true on the resulting saver: no call resets `mHasError`. -/
theorem hasError_sticky (env : Env) (ops : List Op) (s t : RamSaver)
    (hrun : run env ops s = some t) (h : s.hasError = true) : t.hasError = true := by
  induction ops generalizing s with
  | nil =>
    simp only [run] at hrun
    injection hrun with hrun
    subst hrun
    exact h
  | cons op ops ih =>
    simp only [run] at hrun
    cases hstep : step env op s with
    | none => rw [hstep] at hrun; exact Option.noConfusion hrun
    | some s1 =>
      rw [hstep] at hrun
      exact ih s1 hrun (step_hasError env op s s1 hstep h)

end Snapshot

namespace Snapshot

/-! ## C6: completeness of the index -/

theorem step_sameConfig (env : Env) (op : Op) (s t : RamSaver) (hs : step env op s = some t)
    (hop : op.registered = none) : SameConfig s t := by
  cases op with
  | registerBlock block => simp [Op.registered] at hop
  | savePage mem blockOffset pageOffset pageSize =>
    exact savePage_sameConfig env mem s t blockOffset pageOffset pageSize hs
  | writePage =>
    simp only [step] at hs
    injection hs with hs
    subst hs
    exact writerStep_sameConfig s
  | writeIndex =>
    simp only [step] at hs
    injection hs with hs
    subst hs
    exact writeIndex_sameConfig env s
  | publishIndexOffset =>
    simp only [step] at hs
    injection hs with hs
    subst hs
    exact publishIndexOffset_sameConfig s
  | complete now =>
    simp only [step] at hs
    injection hs with hs
    subst hs
    exact complete_sameConfig env s now
  | join =>
    simp only [step] at hs
    injection hs with hs
    subst hs
    exact ⟨rfl, rfl, rfl, rfl, rfl, rfl, rfl⟩

theorem registerBlock_layout (s t : RamSaver) (block : RamBlock)
    (h : s.registerBlock block = some t) :
    t.mIndex.layout = s.mIndex.layout ++ [(block, block.numPages)] ∧
    t.mIndex.totalPages = s.mIndex.totalPages + (block.numPages : Int) ∧
    t.mFlags = s.mFlags ∧ t.mLoader = s.mLoader ∧ t.mStream = s.mStream ∧
    t.mIndex.flags = s.mIndex.flags ∧ t.mWriter = s.mWriter ∧ t.mGaps = s.mGaps ∧
    t.mCurrentStreamPos = s.mCurrentStreamPos ∧ t.mCompleted = s.mCompleted ∧
    t.mIncStats = s.mIncStats ∧ t.mDiskSize = s.mDiskSize := by
  unfold RamSaver.registerBlock at h
  split at h
  · exact Option.noConfusion h
  · split at h
    · exact Option.noConfusion h
    · injection h with h
      subst h
      simp [FileIndex.layout]

theorem run_layout (env : Env) (ops : List Op) (s t : RamSaver) (hrun : run env ops s = some t) :
    t.mIndex.layout
      = s.mIndex.layout ++ (ops.filterMap Op.registered).map (fun rb => (rb, rb.numPages)) ∧
    t.mIndex.totalPages
      = s.mIndex.totalPages + (((ops.filterMap Op.registered).map RamBlock.numPages).sum : Nat) := by
  induction ops generalizing s with
  | nil =>
    simp only [run] at hrun
    injection hrun with hrun
    subst hrun
    simp
  | cons op ops ih =>
    simp only [run] at hrun
    cases hstep : step env op s with
    | none => rw [hstep] at hrun; exact Option.noConfusion hrun
    | some s1 =>
      rw [hstep] at hrun
      obtain ⟨ih1, ih2⟩ := ih s1 hrun
      cases hreg : op.registered with
      | none =>
        have hc := step_sameConfig env op s s1 hstep hreg
        rw [ih1, ih2, hc.layout, hc.totalPages]
        simp [List.filterMap_cons, hreg]
      | some rb =>
        cases op with
        | registerBlock block =>
          simp only [Op.registered, Option.some.injEq] at hreg
          subst hreg
          simp only [step] at hstep
          obtain ⟨h1, h2, _⟩ := registerBlock_layout s s1 block hstep
          rw [ih1, ih2, h1, h2]
          simp only [List.filterMap_cons, Op.registered, List.map_cons, List.sum_cons,
            List.append_assoc, List.singleton_append, Nat.cast_add, true_and]
          omega
        | savePage _ _ _ _ => simp [Op.registered] at hreg
        | writePage => simp [Op.registered] at hreg
        | writeIndex => simp [Op.registered] at hreg
        | publishIndexOffset => simp [Op.registered] at hreg
        | complete _ => simp [Op.registered] at hreg
        | join => simp [Op.registered] at hreg

/-- C6: after any sequence of calls on a newly constructed saver (any number of
`registerBlock` calls, and any later `savePage`, writer, `writeIndex` or
`complete` calls, so also at the time the index is written), `totalPages` is the
sum of the page counts of the blocks of the index, every block has exactly
`totalSize / pageSize` page entries, and the blocks of the index are the
registered blocks in registration order. -/
theorem index_complete (env : Env) (existing : File) (preferredFlags : Nat)
    (loader : Option RamLoader) (gaps : GapTracker) (fails : Nat → Option Nat) (now : Int)
    (ops : List Op) (t : RamSaver)
    (hrun : run env ops (RamSaver.create existing preferredFlags loader gaps fails now) = some t) :
    t.mIndex.totalPages = (((t.mIndex.blocks.map (fun b => b.pages.length)).sum : Nat) : Int) ∧
    (∀ b ∈ t.mIndex.blocks, b.pages.length = b.ramBlock.totalSize / b.ramBlock.pageSize) ∧
    t.mIndex.blocks.map (fun b => b.ramBlock) = ops.filterMap Op.registered := by
  obtain ⟨h1, h2⟩ := run_layout env ops _ t hrun
  have h0 : (RamSaver.create existing preferredFlags loader gaps fails now).mIndex.layout = [] := rfl
  have h00 : (RamSaver.create existing preferredFlags loader gaps fails now).mIndex.totalPages
      = 0 := rfl
  rw [h0] at h1
  rw [h00] at h2
  simp only [List.nil_append] at h1
  have hlen : t.mIndex.blocks.map (fun b => b.pages.length)
      = (ops.filterMap Op.registered).map RamBlock.numPages := by
    have h3 := congrArg (List.map Prod.snd) h1
    simp only [FileIndex.layout, List.map_map] at h3
    exact h3
  refine ⟨?_, ?_, ?_⟩
  · rw [h2, hlen]
    simp
  · intro b hb
    have hmem : (b.ramBlock, b.pages.length) ∈ t.mIndex.layout :=
      List.mem_map.2 ⟨b, hb, rfl⟩
    rw [h1] at hmem
    obtain ⟨rb, _, hrb⟩ := List.mem_map.1 hmem
    simp only [Prod.mk.injEq] at hrb
    rw [← hrb.2, hrb.1]
    rfl
  · have h3 := congrArg (List.map Prod.fst) h1
    simp only [FileIndex.layout, List.map_map] at h3
    have e1 : (Prod.fst ∘ fun b : Block => (b.ramBlock, b.pages.length)) = fun b => b.ramBlock :=
      rfl
    have e2 : (Prod.fst ∘ fun rb : RamBlock => (rb, rb.numPages)) = id := rfl
    rw [e1, e2, List.map_id] at h3
    exact h3

end Snapshot

namespace Snapshot

/-! ## Registration and resolution -/

theorem run_append (env : Env) (ops1 ops2 : List Op) (s : RamSaver) :
    run env (ops1 ++ ops2) s =
      match run env ops1 s with
      | none => none
      | some t => run env ops2 t := by
  induction ops1 generalizing s with
  | nil => simp [run]
  | cons op ops ih =>
    simp only [List.cons_append, run]
    cases step env op s with
    | none => rfl
    | some s1 => exact ih s1

theorem registerBlock_ok (s : RamSaver) (block : RamBlock) (h1 : s.mLastBlockIndex < 0)
    (h2 : s.mCompleted = false)
    (h3 : block.startOffset ∉ s.mIndex.layout.map (fun e => e.1.startOffset)) :
    ∃ t, s.registerBlock block = some t ∧ t.mLastBlockIndex = s.mLastBlockIndex := by
  unfold RamSaver.registerBlock
  have hc : ¬ (0 ≤ s.mLastBlockIndex ∨ s.mCompleted = true) := by
    rw [h2]
    simp
    omega
  rw [if_neg hc]
  have hany : s.mIndex.blocks.any (fun b => b.ramBlock.startOffset == block.startOffset) = false := by
    rw [List.any_eq_false]
    intro b hb hbo
    apply h3
    simp only [FileIndex.layout, List.map_map, List.mem_map, Function.comp]
    exact ⟨b, hb, by simpa using hbo⟩
  rw [hany]
  simp

theorem run_register (env : Env) (blocks : List RamBlock) (s : RamSaver)
    (h1 : s.mLastBlockIndex < 0) (h2 : s.mCompleted = false)
    (h3 : (s.mIndex.layout.map (fun e => e.1.startOffset)
      ++ blocks.map (fun rb => rb.startOffset)).Nodup) :
    ∃ t, run env (blocks.map Op.registerBlock) s = some t ∧
      t.mIndex.layout = s.mIndex.layout ++ blocks.map (fun rb => (rb, rb.numPages)) ∧
      t.mFlags = s.mFlags ∧ t.mLoader = s.mLoader ∧ t.mStream = s.mStream ∧
      t.mIndex.flags = s.mIndex.flags ∧ t.mWriter = s.mWriter ∧ t.mGaps = s.mGaps ∧
      t.mCurrentStreamPos = s.mCurrentStreamPos ∧ t.mCompleted = s.mCompleted ∧
      t.mIncStats = s.mIncStats ∧ t.mDiskSize = s.mDiskSize := by
  induction blocks generalizing s with
  | nil => exact ⟨s, rfl, by simp, rfl, rfl, rfl, rfl, rfl, rfl, rfl, rfl, rfl, rfl⟩
  | cons b rest ih =>
    have hb : b.startOffset ∉ s.mIndex.layout.map (fun e => e.1.startOffset) := by
      intro hmem
      rw [List.nodup_append] at h3
      exact h3.2.2 hmem (by simp)
    obtain ⟨s1, hs1, hl1⟩ := registerBlock_ok s b h1 h2 hb
    obtain ⟨g1, g2, g3, g4, g5, g6, g7, g8, g9, g10, g11, g12⟩ := registerBlock_layout s s1 b hs1
    have h3' : (s1.mIndex.layout.map (fun e => e.1.startOffset)
        ++ rest.map (fun rb => rb.startOffset)).Nodup := by
      rw [g1]
      simpa using h3
    obtain ⟨t, ht, k1, k2, k3, k4, k5, k6, k7, k8, k9, k10, k11⟩ :=
      ih s1 (by rw [hl1]; exact h1) (by rw [g10]; exact h2) h3'
    refine ⟨t, ?_, ?_, ?_, ?_, ?_, ?_, ?_, ?_, ?_, ?_, ?_, ?_⟩
    · simp only [List.map_cons, run, step, hs1]
      exact ht
    · rw [k1, g1]
      simp
    · rw [k2, g3]
    · rw [k3, g4]
    · rw [k4, g5]
    · rw [k5, g6]
    · rw [k6, g7]
    · rw [k7, g8]
    · rw [k8, g9]
    · rw [k9, g10]
    · rw [k10, g11]
    · rw [k11, g12]

theorem findBlock_of_nodup (bs : List Block) (bi : Nat) (b : Block)
    (hnd : (bs.map (fun b => b.ramBlock.startOffset)).Nodup) (hb : bs[bi]? = some b) :
    findBlock bs (b.ramBlock.startOffset : Int) = some bi := by
  induction bs generalizing bi with
  | nil => simp at hb
  | cons c rest ih =>
    simp only [List.map_cons, List.nodup_cons] at hnd
    cases bi with
    | zero =>
      simp only [List.getElem?_cons_zero, Option.some.injEq] at hb
      subst hb
      simp [findBlock]
    | succ n =>
      simp only [List.getElem?_cons_succ] at hb
      have hne : ¬ ((c.ramBlock.startOffset : Int) = (b.ramBlock.startOffset : Int)) := by
        intro hc
        apply hnd.1
        have hc2 : c.ramBlock.startOffset = b.ramBlock.startOffset := by exact_mod_cast hc
        rw [hc2]
        exact List.mem_map.2 ⟨b, List.getElem?_mem hb, rfl⟩
      simp only [findBlock, if_neg hne, ih n hnd.2 hb]

/-- What the layout says about one block of the index. -/
theorem layout_getElem? (idx : FileIndex) (blocks : List RamBlock)
    (hl : idx.layout = blocks.map (fun rb => (rb, rb.numPages))) (bi : Nat) (rb : RamBlock)
    (hb : blocks[bi]? = some rb) :
    ∃ b, idx.blocks[bi]? = some b ∧ b.ramBlock = rb ∧ b.pages.length = rb.numPages := by
  have h := congrArg (fun l => l[bi]?) hl
  simp only [FileIndex.layout, List.getElem?_map, hb, Option.map_some'] at h
  cases hx : idx.blocks[bi]? with
  | none => rw [hx] at h; simp at h
  | some b =>
    rw [hx] at h
    simp only [Option.map_some', Option.some.injEq, Prod.mk.injEq] at h
    exact ⟨b, rfl, h.1, h.2⟩

theorem layout_offsets (idx : FileIndex) (blocks : List RamBlock)
    (hl : idx.layout = blocks.map (fun rb => (rb, rb.numPages))) :
    idx.blocks.map (fun b => b.ramBlock.startOffset) = blocks.map (fun rb => rb.startOffset) := by
  have h := congrArg (List.map (fun e : RamBlock × Nat => e.1.startOffset)) hl
  simp only [FileIndex.layout, List.map_map] at h
  exact h

theorem pageIndex_of_offset (j ps : Nat) (hps : 0 < ps) :
    (((j * ps : Nat) : Int) / (ps : Int)).toNat = j := by
  have h : ((j * ps : Nat) : Int) / (ps : Int) = ((j * ps / ps : Nat) : Int) := by
    norm_cast
  rw [h, Nat.mul_div_cancel _ hps]
  simp

theorem numPages_pos (rb : RamBlock) (j : Nat) (h : j < rb.numPages) : 0 < rb.pageSize := by
  unfold RamBlock.numPages at h
  by_contra hc
  have h0 : rb.pageSize = 0 := by omega
  rw [h0, Nat.div_zero] at h
  omega

theorem resolve_ok (s : RamSaver) (blocks : List RamBlock)
    (hl : s.mIndex.layout = blocks.map (fun rb => (rb, rb.numPages)))
    (hnd : (blocks.map (fun rb => rb.startOffset)).Nodup)
    (bi j : Nat) (rb : RamBlock) (hb : blocks[bi]? = some rb) (hj : j < rb.numPages) :
    s.resolve (rb.startOffset : Int) ((j * rb.pageSize : Nat) : Int)
      = some { blockIndex := bi, pageIndex := j } := by
  obtain ⟨b, hb1, hb2, hb3⟩ := layout_getElem? s.mIndex blocks hl bi rb hb
  have hnd2 : (s.mIndex.blocks.map (fun b => b.ramBlock.startOffset)).Nodup := by
    rw [layout_offsets s.mIndex blocks hl]
    exact hnd
  have hf := findBlock_of_nodup s.mIndex.blocks bi b hnd2 hb1
  rw [hb2] at hf
  unfold RamSaver.resolve
  rw [hf]
  simp only [hb1, hb2]
  have hps := numPages_pos rb j hj
  rw [pageIndex_of_offset j rb.pageSize hps]
  have hc : (0 : Int) ≤ ((j * rb.pageSize : Nat) : Int) ∧ j < b.pages.length := by
    constructor
    · exact Int.ofNat_nonneg _
    · rw [hb3]
      exact hj
  rw [if_pos hc]

theorem savePage_ok (env : Env) (mem : Nat → Nat) (s : RamSaver) (blocks : List RamBlock)
    (hl : s.mIndex.layout = blocks.map (fun rb => (rb, rb.numPages)))
    (hnd : (blocks.map (fun rb => rb.startOffset)).Nodup) (hc : s.mCompleted = false)
    (bi j : Nat) (rb : RamBlock) (hb : blocks[bi]? = some rb) (hj : j < rb.numPages)
    (pageSize : Int) :
    s.savePage env mem (rb.startOffset : Int) ((j * rb.pageSize : Nat) : Int) pageSize
      = some (({ s with mLastBlockIndex := (bi : Int) }).handlePageSave env mem
          { blockIndex := bi, pageIndex := j }) := by
  unfold RamSaver.savePage
  rw [hc]
  simp only [Bool.false_eq_true, if_false]
  rw [resolve_ok s blocks hl hnd bi j rb hb hj]

end Snapshot

namespace Snapshot

/-! ## The invariant of a full save -/

theorem handlePageSave_zero_eq (env : Env) (mem : Nat → Nat) (s : RamSaver) (x : QueuedPageInfo)
    (b : Block) (hb : s.mIndex.blocks[x.blockIndex]? = some b)
    (hp : s.priorMatch x (env.calcHash (pageBytes mem b.ramBlock x.pageIndex)) = none)
    (hz : isZeroPage (pageBytes mem b.ramBlock x.pageIndex) = true) :
    s.handlePageSave env mem x =
      { s with
        mIndex := s.mIndex.setPage x.blockIndex x.pageIndex
          { sizeOnDisk := 0, same := false, hashFilled := true, filePos := 0,
            hash := env.calcHash (pageBytes mem b.ramBlock x.pageIndex) }
        mIncStats := { s.mIncStats with zeroPages := s.mIncStats.zeroPages + 1 } } := by
  unfold RamSaver.handlePageSave
  simp only [hb, hp, if_pos hz]

theorem handlePageSave_write_eq (env : Env) (mem : Nat → Nat) (s : RamSaver) (x : QueuedPageInfo)
    (b : Block) (hb : s.mIndex.blocks[x.blockIndex]? = some b)
    (hp : s.priorMatch x (env.calcHash (pageBytes mem b.ramBlock x.pageIndex)) = none)
    (hz : isZeroPage (pageBytes mem b.ramBlock x.pageIndex) = false) :
    s.handlePageSave env mem x =
      { s with
        mIndex := s.mIndex.setPage x.blockIndex x.pageIndex
          { sizeOnDisk := 0, same := false, hashFilled := true, filePos := 0,
            hash := env.calcHash (pageBytes mem b.ramBlock x.pageIndex) }
        mWriter := s.mWriter ++ [s.makeWriteInfo env x (pageBytes mem b.ramBlock x.pageIndex)]
        mIncStats := { s.mIncStats with changedPages := s.mIncStats.changedPages + 1 } } := by
  unfold RamSaver.handlePageSave
  simp only [hb, hp, hz, Bool.false_eq_true, if_false]

theorem handlePageSave_same_eq (env : Env) (mem : Nat → Nat) (s : RamSaver) (x : QueuedPageInfo)
    (b : Block) (prior : Int × Int) (hb : s.mIndex.blocks[x.blockIndex]? = some b)
    (hp : s.priorMatch x (env.calcHash (pageBytes mem b.ramBlock x.pageIndex)) = some prior) :
    s.handlePageSave env mem x =
      { s with
        mIndex := s.mIndex.setPage x.blockIndex x.pageIndex
          { sizeOnDisk := prior.2, same := true, hashFilled := true, filePos := prior.1,
            hash := env.calcHash (pageBytes mem b.ramBlock x.pageIndex) }
        mDiskSize := s.mDiskSize + prior.2.toNat
        mIncStats := { s.mIncStats with samePages := s.mIncStats.samePages + 1 } } := by
  unfold RamSaver.handlePageSave
  simp only [hb, hp]

theorem priorMatch_noLoader (s : RamSaver) (x : QueuedPageInfo) (hash : Hash)
    (h : s.mLoader = none) : s.priorMatch x hash = none := by
  unfold RamSaver.priorMatch
  rw [h]

theorem pageBytes_length (mem : Nat → Nat) (rb : RamBlock) (j : Nat) :
    (pageBytes mem rb j).length = rb.pageSize := by
  simp [pageBytes]

theorem isZeroPage_eq_replicate (bytes : List Nat) (h : isZeroPage bytes = true) :
    bytes = List.replicate bytes.length 0 := by
  unfold isZeroPage at h
  rw [List.all_eq_true] at h
  apply List.ext_getElem
  · simp
  · intro i h1 h2
    have := h bytes[i] (List.getElem_mem h1)
    simp only [beq_iff_eq] at this
    simp [this]

theorem page?_some_of_layout (idx : FileIndex) (blocks : List RamBlock)
    (hl : idx.layout = blocks.map (fun rb => (rb, rb.numPages))) (x : QueuedPageInfo)
    (rb : RamBlock) (hb : blocks[x.blockIndex]? = some rb) (hj : x.pageIndex < rb.numPages) :
    ∃ p, idx.page? x.blockIndex x.pageIndex = some p := by
  obtain ⟨b, hb1, _, hb3⟩ := layout_getElem? idx blocks hl x.blockIndex rb hb
  unfold FileIndex.page?
  rw [hb1]
  have hlt : x.pageIndex < b.pages.length := by omega
  exact ⟨b.pages[x.pageIndex], List.getElem?_eq_getElem hlt⟩

theorem QueuedPageInfo.ne_iff (x y : QueuedPageInfo) :
    x ≠ y ↔ ¬ (x.blockIndex = y.blockIndex ∧ x.pageIndex = y.pageIndex) := by
  cases x
  cases y
  simp

theorem handlePageSave_inv (env : Env) (mem : Nat → Nat) (blocks : List RamBlock)
    (D : QueuedPageInfo → Prop) (s : RamSaver) (hinv : FullSaveInv env mem blocks D s)
    (x : QueuedPageInfo) (rb : RamBlock) (hb : blocks[x.blockIndex]? = some rb)
    (hj : x.pageIndex < rb.numPages) :
    FullSaveInv env mem blocks (fun y => D y ∨ y = x) (s.handlePageSave env mem x) := by
  obtain ⟨b, hb1, hb2, hb3⟩ := layout_getElem? s.mIndex blocks hinv.layout x.blockIndex rb hb
  have hp := priorMatch_noLoader s x (env.calcHash (pageBytes mem b.ramBlock x.pageIndex))
    hinv.noLoader
  have hcfg := handlePageSave_sameConfig env mem s x
  obtain ⟨p0, hp0⟩ := page?_some_of_layout s.mIndex blocks hinv.layout x rb hb hj
  by_cases hz : isZeroPage (pageBytes mem b.ramBlock x.pageIndex) = true
  · have heq := handlePageSave_zero_eq env mem s x b hb1 hp hz
    rw [heq]
    refine ⟨?_, hinv.noFail, hinv.noGaps, hinv.noLoader, hinv.pos, hinv.queued, ?_⟩
    · rw [← hinv.layout]
      exact FileIndex.layout_setPage _ _ _ _
    · intro y rb2 hD hb4 hj4 hq
      by_cases hxy : y = x
      · subst hxy
        rw [hb] at hb4
        injection hb4 with hb4
        subst hb4
        refine ⟨_, FileIndex.page?_setPage_same _ _ _ _ _ hp0, ?_, ?_⟩
        · simp only [loadPage, Page.zeroed, beq_self_eq_true, if_true]
          rw [hb2] at hz
          have h1 := isZeroPage_eq_replicate _ hz
          rw [pageBytes_length] at h1
          exact h1.symm
        · intro hzz
          simp [Page.zeroed] at hzz
      · have hD2 : D y := by
          rcases hD with hD | hD
          · exact hD
          · exact absurd hD hxy
        obtain ⟨p, hp1, hp2⟩ := hinv.done y rb2 hD2 hb4 hj4 hq
        refine ⟨p, ?_, hp2⟩
        show (s.mIndex.setPage x.blockIndex x.pageIndex _).page? y.blockIndex y.pageIndex = some p
        rw [FileIndex.page?_setPage_other _ _ _ _ _ _
          ((QueuedPageInfo.ne_iff x y).1 (fun h => hxy h.symm))]
        exact hp1
  · have hz2 : isZeroPage (pageBytes mem b.ramBlock x.pageIndex) = false := by
      cases h : isZeroPage (pageBytes mem b.ramBlock x.pageIndex)
      · rfl
      · exact absurd h hz
    have heq := handlePageSave_write_eq env mem s x b hb1 hp hz2
    rw [heq]
    refine ⟨?_, hinv.noFail, hinv.noGaps, hinv.noLoader, hinv.pos, ?_, ?_⟩
    · rw [← hinv.layout]
      exact FileIndex.layout_setPage _ _ _ _
    · intro wi hwi
      simp only [List.mem_append, List.mem_singleton] at hwi
      rcases hwi with hwi | hwi
      · exact hinv.queued wi hwi
      · subst hwi
        refine ⟨rb, hb, hj, ?_, ?_⟩
        · rw [hb2]
          rfl
        · rw [hb2] at hz2
          exact hz2
    · intro y rb2 hD hb4 hj4 hq
      have hxy : y ≠ x := by
        intro hxy
        apply hq (s.makeWriteInfo env x (pageBytes mem b.ramBlock x.pageIndex))
        · simp
        · rw [hxy]
          rfl
      have hD2 : D y := by
        rcases hD with hD | hD
        · exact hD
        · exact absurd hD hxy
      have hq2 : ∀ wi ∈ s.mWriter, wi.page ≠ y := by
        intro wi hwi
        apply hq wi
        simp [hwi]
      obtain ⟨p, hp1, hp2⟩ := hinv.done y rb2 hD2 hb4 hj4 hq2
      refine ⟨p, ?_, hp2⟩
      show (s.mIndex.setPage x.blockIndex x.pageIndex _).page? y.blockIndex y.pageIndex = some p
      rw [FileIndex.page?_setPage_other _ _ _ _ _ _
        ((QueuedPageInfo.ne_iff x y).1 (fun h => hxy h.symm))]
      exact hp1

end Snapshot

namespace Snapshot

theorem assignSlot_noGaps (s : RamSaver) (size : Nat) (h : s.mGaps.gaps = []) :
    s.assignSlot size = (s.mCurrentStreamPos, s.mGaps, s.mCurrentStreamPos + size) := by
  unfold RamSaver.assignSlot GapTracker.reserve
  rw [h]
  rfl

theorem pwrite_ok (st : StdioStream) (pos : Nat) (bs : List Nat) (h : st.fails st.nOps = none) :
    st.pwrite pos bs = ({ st with file := st.file.write pos bs, nOps := st.nOps + 1 }, true) := by
  unfold StdioStream.pwrite
  rw [h]

theorem writePage_ok_eq (s : RamSaver) (wi : WriteInfo) (p : Page) (hg : s.mGaps.gaps = [])
    (hf : s.mStream.fails s.mStream.nOps = none)
    (hp : s.mIndex.page? wi.page.blockIndex wi.page.pageIndex = some p) :
    s.writePage wi =
      { s with
        mStream := { s.mStream with
          file := s.mStream.file.write s.mCurrentStreamPos wi.ptr, nOps := s.mStream.nOps + 1 }
        mCurrentStreamPos := s.mCurrentStreamPos + wi.ptr.length
        mIndex := s.mIndex.setPage wi.page.blockIndex wi.page.pageIndex
          { p with filePos := (s.mCurrentStreamPos : Int), sizeOnDisk := (wi.ptr.length : Int) }
        mDiskSize := s.mDiskSize + wi.ptr.length
        mIncStats := { s.mIncStats with bytesWritten := s.mIncStats.bytesWritten + wi.ptr.length } } := by
  unfold RamSaver.writePage
  rw [assignSlot_noGaps s _ hg, pwrite_ok _ _ _ hf]
  simp only [hp, if_true]

theorem loadPage_congr (env : Env) (f g : File) (c : Bool) (pageSize : Nat) (p : Page)
    (h : p.zeroed = false →
      ∀ i, p.filePos.toNat ≤ i → i < p.filePos.toNat + p.sizeOnDisk.toNat → f.data i = g.data i) :
    loadPage env f c pageSize p = loadPage env g c pageSize p := by
  unfold loadPage
  cases hz : p.zeroed with
  | true => simp
  | false =>
    have h2 := File.read_congr f g p.filePos.toNat p.sizeOnDisk.toNat (h hz)
    simp [h2]

theorem payloadOf_ne_nil (env : Env) (hlaw : env.Lawful) (flags : Nat) (bytes : List Nat)
    (hz : isZeroPage bytes = false) : payloadOf env flags bytes ≠ [] := by
  have hne : bytes ≠ [] := by
    intro h
    rw [h] at hz
    simp [isZeroPage] at hz
  unfold payloadOf
  split
  · exact hlaw.compress_ne_nil bytes hne
  · exact hne

theorem loadPage_payload (env : Env) (hlaw : env.Lawful) (f : File) (flags : Nat) (pageSize : Nat)
    (bytes : List Nat) (pos : Nat) (p : Page) (hz : isZeroPage bytes = false)
    (hpos : p.filePos = (pos : Int))
    (hsize : p.sizeOnDisk = ((payloadOf env flags bytes).length : Int))
    (hread : f.read pos (payloadOf env flags bytes).length = payloadOf env flags bytes) :
    loadPage env f (Flags.hasCompress flags) pageSize p = bytes := by
  have hne := payloadOf_ne_nil env hlaw flags bytes hz
  have hlen : (payloadOf env flags bytes).length ≠ 0 := by
    intro h
    exact hne (List.length_eq_zero.1 h)
  unfold loadPage Page.zeroed
  rw [hpos, hsize]
  have hnz : ((((payloadOf env flags bytes).length : Nat) : Int) == 0) = false := by
    simp
    exact hne
  simp only [hnz, Bool.false_eq_true, if_false, Int.toNat_ofNat, hread]
  unfold payloadOf
  cases hc : Flags.hasCompress flags with
  | true => simp [hlaw.decompress_compress]
  | false => simp

theorem writerStep_inv (env : Env) (hlaw : env.Lawful) (mem : Nat → Nat) (blocks : List RamBlock)
    (D : QueuedPageInfo → Prop) (s : RamSaver) (hinv : FullSaveInv env mem blocks D s) :
    FullSaveInv env mem blocks D s.writerStep := by
  unfold RamSaver.writerStep
  cases hq : s.mWriter with
  | nil => exact hinv
  | cons wi rest =>
    dsimp only
    obtain ⟨rb, hb, hj, hptr, hz⟩ := hinv.queued wi (by rw [hq]; simp)
    obtain ⟨p, hp⟩ := page?_some_of_layout s.mIndex blocks hinv.layout wi.page rb hb hj
    have heq := writePage_ok_eq { s with mWriter := rest } wi p hinv.noGaps (hinv.noFail _) hp
    rw [heq]
    refine ⟨?_, hinv.noFail, hinv.noGaps, hinv.noLoader, ?_, ?_, ?_⟩
    · rw [← hinv.layout]
      exact FileIndex.layout_setPage _ _ _ _
    · show 8 ≤ s.mCurrentStreamPos + wi.ptr.length
      have := hinv.pos
      omega
    · intro w hw
      exact hinv.queued w (by rw [hq]; exact List.mem_cons_of_mem _ hw)
    · intro y rb2 hD hb4 hj4 hq4
      by_cases hxy : y = wi.page
      · subst hxy
        rw [hb] at hb4
        injection hb4 with hb4
        subst hb4
        refine ⟨_, FileIndex.page?_setPage_same _ _ _ _ _ hp, ?_, ?_⟩
        · apply loadPage_payload env hlaw _ s.mFlags _ _ s.mCurrentStreamPos _ hz rfl
          · show ((wi.ptr.length : Nat) : Int) = _
            rw [hptr]
          · show (s.mStream.file.write s.mCurrentStreamPos wi.ptr).read s.mCurrentStreamPos _ = _
            rw [← hptr]
            exact File.read_write_same _ _ _
        · intro _
          show 8 ≤ ((s.mCurrentStreamPos : Nat) : Int).toNat ∧
            ((s.mCurrentStreamPos : Nat) : Int).toNat + ((wi.ptr.length : Nat) : Int).toNat
              ≤ s.mCurrentStreamPos + wi.ptr.length
          simp only [Int.toNat_ofNat]
          exact ⟨hinv.pos, Nat.le_refl _⟩
      · have hq5 : ∀ w ∈ s.mWriter, w.page ≠ y := by
          intro w hw
          rw [hq] at hw
          rcases List.mem_cons.1 hw with hw | hw
          · subst hw
            exact fun h => hxy h.symm
          · exact hq4 w hw
        obtain ⟨p2, hp1, hp2, hp3⟩ := hinv.done y rb2 hD hb4 hj4 hq5
        refine ⟨p2, ?_, ?_, ?_⟩
        · show (s.mIndex.setPage wi.page.blockIndex wi.page.pageIndex _).page?
            y.blockIndex y.pageIndex = some p2
          rw [FileIndex.page?_setPage_other _ _ _ _ _ _
            ((QueuedPageInfo.ne_iff wi.page y).1 (fun h => hxy h.symm))]
          exact hp1
        · rw [← hp2]
          apply loadPage_congr
          intro hzz i hi1 hi2
          have := (hp3 hzz).2
          apply File.write_data_outside
          show i < s.mCurrentStreamPos ∨ s.mCurrentStreamPos + wi.ptr.length ≤ i
          left
          omega
        · intro hzz
          have := hp3 hzz
          show 8 ≤ p2.filePos.toNat ∧
            p2.filePos.toNat + p2.sizeOnDisk.toNat ≤ s.mCurrentStreamPos + wi.ptr.length
          omega

theorem writerStep_mWriter (s : RamSaver) : s.writerStep.mWriter = s.mWriter.tail := by
  unfold RamSaver.writerStep
  cases hq : s.mWriter with
  | nil => simp [hq]
  | cons wi rest =>
    dsimp only
    obtain ⟨idx, d, st, err, _, h⟩ := writePage_form { s with mWriter := rest } wi
    rw [h]
    rfl

theorem drainN_mWriter (n : Nat) (s : RamSaver) : (RamSaver.drainN n s).mWriter = s.mWriter.drop n := by
  induction n generalizing s with
  | zero => simp [RamSaver.drainN]
  | succ n ih =>
    simp only [RamSaver.drainN]
    rw [ih, writerStep_mWriter]
    simp [List.drop_tail]

theorem drain_mWriter (s : RamSaver) : s.drain.mWriter = [] := by
  unfold RamSaver.drain
  rw [drainN_mWriter]
  simp

theorem drainN_inv (env : Env) (hlaw : env.Lawful) (mem : Nat → Nat) (blocks : List RamBlock)
    (D : QueuedPageInfo → Prop) (n : Nat) (s : RamSaver) (hinv : FullSaveInv env mem blocks D s) :
    FullSaveInv env mem blocks D (RamSaver.drainN n s) := by
  induction n generalizing s with
  | zero => exact hinv
  | succ n ih => exact ih _ (writerStep_inv env hlaw mem blocks D s hinv)

end Snapshot

namespace Snapshot

/-! ## The `savePage` calls of a driver -/

theorem FullSaveInv.weaken {env : Env} {mem : Nat → Nat} {blocks : List RamBlock}
    {D E : QueuedPageInfo → Prop} {s : RamSaver} (h : FullSaveInv env mem blocks D s)
    (hDE : ∀ y, E y → D y) : FullSaveInv env mem blocks E s :=
  ⟨h.layout, h.noFail, h.noGaps, h.noLoader, h.pos, h.queued,
   fun x rb hE hb hj hq => h.done x rb (hDE x hE) hb hj hq⟩

theorem handlePageSave_mCompleted (env : Env) (mem : Nat → Nat) (s : RamSaver)
    (x : QueuedPageInfo) : (s.handlePageSave env mem x).mCompleted = s.mCompleted := by
  obtain ⟨p, w, d, st, h⟩ := handlePageSave_form env mem s x
  rw [h]

theorem OpFor.unique {mem : Nat → Nat} {blocks : List RamBlock} {op : Op} {x y : QueuedPageInfo}
    (hnd : (blocks.map (fun rb => rb.startOffset)).Nodup)
    (hx : OpFor mem blocks op x) (hy : OpFor mem blocks op y) : x = y := by
  obtain ⟨rb, hb, hj, hop⟩ := hx
  obtain ⟨rb2, hb2, hj2, hop2⟩ := hy
  rw [hop] at hop2
  injection hop2 with _ h1 h2 h3
  have h1' : rb.startOffset = rb2.startOffset := by exact_mod_cast h1
  have hlt : x.blockIndex < blocks.length := by
    by_contra hc
    rw [List.getElem?_eq_none (by omega)] at hb
    exact Option.noConfusion hb
  have hlt2 : y.blockIndex < blocks.length := by
    by_contra hc
    rw [List.getElem?_eq_none (by omega)] at hb2
    exact Option.noConfusion hb2
  have e1 : (blocks.map (fun rb => rb.startOffset))[x.blockIndex]? = some rb.startOffset := by
    rw [List.getElem?_map, hb]
    rfl
  have e2 : (blocks.map (fun rb => rb.startOffset))[y.blockIndex]? = some rb.startOffset := by
    rw [List.getElem?_map, hb2, h1']
    rfl
  have hbi : x.blockIndex = y.blockIndex := by
    have hl1 : x.blockIndex < (blocks.map (fun rb => rb.startOffset)).length := by simpa using hlt
    have hl2 : y.blockIndex < (blocks.map (fun rb => rb.startOffset)).length := by simpa using hlt2
    rw [List.getElem?_eq_getElem hl1] at e1
    rw [List.getElem?_eq_getElem hl2] at e2
    injection e1 with e1
    injection e2 with e2
    exact (List.Nodup.getElem_inj_iff hnd).1 (e1.trans e2.symm)
  have hrb : rb = rb2 := by
    rw [hbi, hb2] at hb
    injection hb with hb
    exact hb.symm
  subst hrb
  have hps := numPages_pos rb x.pageIndex hj
  have h2' : x.pageIndex * rb.pageSize = y.pageIndex * rb.pageSize := by exact_mod_cast h2
  have hpi : x.pageIndex = y.pageIndex := Nat.eq_of_mul_eq_mul_right hps h2'
  cases x
  cases y
  simp only [QueuedPageInfo.mk.injEq]
  exact ⟨hbi, hpi⟩

theorem run_savePages (env : Env) (mem : Nat → Nat) (blocks : List RamBlock)
    (hnd : (blocks.map (fun rb => rb.startOffset)).Nodup) (ops : List Op)
    (hops : ∀ op ∈ ops, ∃ x, OpFor mem blocks op x)
    (D : QueuedPageInfo → Prop) (s : RamSaver) (hinv : FullSaveInv env mem blocks D s)
    (hc : s.mCompleted = false) :
    ∃ t, run env ops s = some t ∧
      FullSaveInv env mem blocks (fun y => D y ∨ ∃ op ∈ ops, OpFor mem blocks op y) t ∧
      t.mCompleted = false ∧ SameConfig s t := by
  induction ops generalizing s D with
  | nil =>
    refine ⟨s, rfl, hinv.weaken ?_, hc, SameConfig.refl s⟩
    intro y hy
    rcases hy with hy | ⟨op, hop, _⟩
    · exact hy
    · simp at hop
  | cons op ops ih =>
    obtain ⟨x, hx⟩ := hops op (by simp)
    obtain ⟨rb, hb, hj, hop⟩ := hx
    have hsave := savePage_ok env mem s blocks hinv.layout hnd hc x.blockIndex x.pageIndex rb hb hj
      (rb.pageSize : Int)
    have hinv0 : FullSaveInv env mem blocks D { s with mLastBlockIndex := (x.blockIndex : Int) } :=
      ⟨hinv.layout, hinv.noFail, hinv.noGaps, hinv.noLoader, hinv.pos, hinv.queued, hinv.done⟩
    have hinv1 := handlePageSave_inv env mem blocks D _ hinv0 x rb hb hj
    have hc1 : (({ s with mLastBlockIndex := (x.blockIndex : Int) }).handlePageSave env mem
        x).mCompleted = false := by
      rw [handlePageSave_mCompleted]
      exact hc
    have hcfg1 : SameConfig s (({ s with mLastBlockIndex := (x.blockIndex : Int) }).handlePageSave
        env mem x) := by
      have h1 : SameConfig s { s with mLastBlockIndex := (x.blockIndex : Int) } :=
        ⟨rfl, rfl, rfl, rfl, rfl, rfl, rfl⟩
      exact SameConfig.trans h1 (handlePageSave_sameConfig _ _ _ _)
    obtain ⟨t, ht, hinvt, hct, hcfgt⟩ :=
      ih (fun op2 h2 => hops op2 (List.mem_cons_of_mem _ h2)) _ _ hinv1 hc1
    refine ⟨t, ?_, hinvt.weaken ?_, hct, SameConfig.trans hcfg1 hcfgt⟩
    · simp only [run]
      rw [hop]
      simp only [step]
      have hx2 : (⟨x.blockIndex, x.pageIndex⟩ : QueuedPageInfo) = x := by cases x; rfl
      rw [hx2] at hsave
      rw [hsave]
      exact ht
    · intro y hy
      rcases hy with hy | ⟨op2, hop2, hfor⟩
      · exact Or.inl (Or.inl hy)
      · rcases List.mem_cons.1 hop2 with h | h
        · subst h
          exact Or.inl (Or.inr (OpFor.unique hnd hfor ⟨rb, hb, hj, hop⟩))
        · exact Or.inr ⟨op2, h, hfor⟩

theorem mem_pageOps (mem : Nat → Nat) (rb : RamBlock) (n : Nat) (op : Op) :
    op ∈ pageOps mem rb n ↔ ∃ j, j < n ∧
      op = Op.savePage mem (rb.startOffset : Int) ((j * rb.pageSize : Nat) : Int)
        (rb.pageSize : Int) := by
  unfold pageOps
  simp only [List.mem_map, List.mem_range]
  constructor
  · rintro ⟨j, hj, h⟩
    exact ⟨j, hj, h.symm⟩
  · rintro ⟨j, hj, h⟩
    exact ⟨j, hj, h.symm⟩

theorem mem_savePageOps (mem : Nat → Nat) (bs : List RamBlock) (op : Op) :
    op ∈ savePageOps mem bs ↔ ∃ rb ∈ bs, ∃ j, j < rb.numPages ∧
      op = Op.savePage mem (rb.startOffset : Int) ((j * rb.pageSize : Nat) : Int)
        (rb.pageSize : Int) := by
  induction bs with
  | nil => simp [savePageOps]
  | cons b rest ih =>
    simp only [savePageOps, List.mem_append, mem_pageOps, ih, List.mem_cons]
    constructor
    · rintro (⟨j, hj, h⟩ | ⟨rb, hrb, j, hj, h⟩)
      · exact ⟨b, Or.inl rfl, j, hj, h⟩
      · exact ⟨rb, Or.inr hrb, j, hj, h⟩
    · rintro ⟨rb, hrb | hrb, j, hj, h⟩
      · subst hrb
        exact Or.inl ⟨j, hj, h⟩
      · exact Or.inr ⟨rb, hrb, j, hj, h⟩

theorem savePageOps_opFor (mem : Nat → Nat) (blocks : List RamBlock) (op : Op)
    (h : op ∈ savePageOps mem blocks) : ∃ x, OpFor mem blocks op x := by
  obtain ⟨rb, hrb, j, hj, hop⟩ := (mem_savePageOps mem blocks op).1 h
  obtain ⟨bi, hbi⟩ := List.mem_iff_getElem?.1 hrb
  exact ⟨⟨bi, j⟩, rb, hbi, hj, hop⟩

theorem savePageOps_covers (mem : Nat → Nat) (blocks : List RamBlock) (x : QueuedPageInfo)
    (rb : RamBlock) (hb : blocks[x.blockIndex]? = some rb) (hj : x.pageIndex < rb.numPages) :
    ∃ op ∈ savePageOps mem blocks, OpFor mem blocks op x :=
  ⟨_, (mem_savePageOps mem blocks _).2 ⟨rb, List.getElem?_mem hb, x.pageIndex, hj, rfl⟩,
    rb, hb, hj, rfl⟩

end Snapshot

namespace Snapshot

/-! ## Writing the index and reading it back -/

theorem loader_after_publish (env : Env) (hlaw : env.Lawful) (f : File) (cur : Nat)
    (idx : FileIndex) (h8 : 8 ≤ cur) (h64 : cur < 2 ^ 64) :
    RamLoader.create env ((f.write cur (env.encodeIndex idx)).write 0 (encode64 cur))
      = some { index := { idx with startPosInFile := (cur : Int) } } := by
  have hslot : ((f.write cur (env.encodeIndex idx)).write 0 (encode64 cur)).read 0 8
      = encode64 cur := by
    have h := File.read_write_same (f.write cur (env.encodeIndex idx)) 0 (encode64 cur)
    rw [encode64_length] at h
    exact h
  have hsize : ((f.write cur (env.encodeIndex idx)).write 0 (encode64 cur)).size - cur
      = (env.encodeIndex idx).length
        + (((f.write cur (env.encodeIndex idx)).write 0 (encode64 cur)).size - cur
            - (env.encodeIndex idx).length) := by
    simp only [File.write_size]
    omega
  have hidx : ((f.write cur (env.encodeIndex idx)).write 0 (encode64 cur)).read cur
      (env.encodeIndex idx).length = env.encodeIndex idx := by
    rw [File.read_write_disjoint _ 0 (encode64 cur) cur _ (by rw [encode64_length]; omega)]
    exact File.read_write_same _ _ _
  unfold RamLoader.create
  simp only [hslot, decode64_encode64 cur h64]
  rw [hsize, File.read_add, hidx, hlaw.decode_encode]

theorem loadRam_blocks (env : Env) (f : File) (idx : FileIndex) (blocks : List RamBlock)
    (mem : Nat → Nat) (c : Bool)
    (hl : idx.layout = blocks.map (fun rb => (rb, rb.numPages)))
    (hpages : ∀ (x : QueuedPageInfo) rb, blocks[x.blockIndex]? = some rb →
      x.pageIndex < rb.numPages →
      ∃ p, idx.page? x.blockIndex x.pageIndex = some p ∧
        loadPage env f c rb.pageSize p = pageBytes mem rb x.pageIndex) :
    idx.blocks.map (fun b => b.pages.map (loadPage env f c b.ramBlock.pageSize))
      = ramContent mem blocks := by
  unfold ramContent
  apply List.ext_getElem?
  intro bi
  simp only [List.getElem?_map]
  cases hb : blocks[bi]? with
  | none =>
    have hlen : idx.blocks.length = blocks.length := by
      have := congrArg List.length hl
      simpa [FileIndex.layout] using this
    have hge : blocks.length ≤ bi := by
      by_contra hc
      rw [List.getElem?_eq_getElem (by omega)] at hb
      exact Option.noConfusion hb
    rw [List.getElem?_eq_none (by omega)]
    rfl
  | some rb =>
    obtain ⟨b, hb1, hb2, hb3⟩ := layout_getElem? idx blocks hl bi rb hb
    rw [hb1]
    simp only [Option.map_some', Option.some.injEq]
    apply List.ext_getElem?
    intro j
    simp only [List.getElem?_map]
    by_cases hj : j < rb.numPages
    · obtain ⟨p, hp1, hp2⟩ := hpages ⟨bi, j⟩ rb hb hj
      simp only [FileIndex.page?, hb1] at hp1
      rw [hp1, List.getElem?_range hj, hb2]
      simp only [Option.map_some', Option.some.injEq]
      exact hp2
    · rw [List.getElem?_eq_none (by omega), List.getElem?_eq_none (by simp; omega)]
      rfl

theorem compressedPages_of_flags (idx : FileIndex) (c : Bool)
    (h : idx.flags = if c = true then IndexFlags.CompressedPages else IndexFlags.Empty) :
    idx.compressedPages = c := by
  unfold FileIndex.compressedPages
  rw [h]
  cases c <;> decide

theorem writeIndex_ok_eq (env : Env) (s : RamSaver) (hf : s.mStream.fails s.mStream.nOps = none) :
    s.writeIndex env =
      { s with
        mStream := { s.mStream with
          file := s.mStream.file.write s.mCurrentStreamPos
            (env.encodeIndex { s.mIndex with startPosInFile := (s.mCurrentStreamPos : Int) })
          nOps := s.mStream.nOps + 1 }
        mIndex := { s.mIndex with startPosInFile := (s.mCurrentStreamPos : Int) }
        mCurrentStreamPos := s.mCurrentStreamPos
          + (env.encodeIndex { s.mIndex with startPosInFile := (s.mCurrentStreamPos : Int) }).length } := by
  unfold RamSaver.writeIndex
  dsimp only
  rw [pwrite_ok _ _ _ hf]
  simp

theorem publishIndexOffset_ok_eq (s : RamSaver) (hf : s.mStream.fails s.mStream.nOps = none) :
    s.publishIndexOffset =
      { s with
        mStream := { s.mStream with
          file := s.mStream.file.write 0 (encode64 s.mIndex.startPosInFile.toNat)
          nOps := s.mStream.nOps + 1 } } := by
  unfold RamSaver.publishIndexOffset
  dsimp only
  rw [pwrite_ok _ _ _ hf]
  simp

/-- The file and index a `complete()` without I/O failure leaves behind. -/
theorem complete_file (env : Env) (s : RamSaver) (now : Int)
    (hf : ∀ n, s.mStream.fails n = none) :
    (s.complete env now).mStream.file
      = (s.drain.mStream.file.write s.drain.mCurrentStreamPos
          (env.encodeIndex { s.drain.mIndex with
            startPosInFile := (s.drain.mCurrentStreamPos : Int) })).write 0
          (encode64 s.drain.mCurrentStreamPos) ∧
    (s.complete env now).mIndex
      = { s.drain.mIndex with startPosInFile := (s.drain.mCurrentStreamPos : Int) } := by
  have hf1 : ∀ n, s.drain.mStream.fails n = none := by
    intro n
    have := (drainN_sameConfig s.mWriter.length s).fails
    unfold RamSaver.drain
    rw [this]
    exact hf n
  unfold RamSaver.complete
  have e1 := writeIndex_ok_eq env s.drain (hf1 _)
  have hf2 : (s.drain.writeIndex env).mStream.fails (s.drain.writeIndex env).mStream.nOps
      = none := by
    rw [(writeIndex_sameConfig env s.drain).fails]
    exact hf1 _
  have e2 := publishIndexOffset_ok_eq (s.drain.writeIndex env) hf2
  rw [e2, e1]
  simp

end Snapshot

namespace Snapshot

/-! ## C1: round trip of a full save -/

theorem create_full_inv (env : Env) (mem : Nat → Nat) (blocks : List RamBlock) (s1 : RamSaver)
    (hl : s1.mIndex.layout = blocks.map (fun rb => (rb, rb.numPages)))
    (h1 : s1.mLoader = none) (h2 : s1.mStream = { file := File.reserved, fails := fun _ => none })
    (h3 : s1.mWriter = []) (h4 : s1.mGaps = {}) (h5 : s1.mCurrentStreamPos = 8) :
    FullSaveInv env mem blocks (fun _ => False) s1 := by
  refine ⟨hl, ?_, ?_, h1, ?_, ?_, ?_⟩
  · intro n
    rw [h2]
  · rw [h4]
  · omega
  · intro wi hwi
    rw [h3] at hwi
    simp at hwi
  · intro x rb hD
    exact absurd hD id

theorem complete_load (env : Env) (hlaw : env.Lawful) (mem : Nat → Nat) (blocks : List RamBlock)
    (D : QueuedPageInfo → Prop) (s : RamSaver) (now : Int)
    (hinv : FullSaveInv env mem blocks D s)
    (hD : ∀ (x : QueuedPageInfo) rb, blocks[x.blockIndex]? = some rb → x.pageIndex < rb.numPages →
      D x)
    (hflags : s.mIndex.flags = if Flags.hasCompress s.mFlags = true then IndexFlags.CompressedPages
      else IndexFlags.Empty)
    (h64 : (s.complete env now).mIndex.startPosInFile < 2 ^ 64) :
    loadRam env (s.complete env now).mStream.file = some (ramContent mem blocks) := by
  obtain ⟨hfile, hidx⟩ := complete_file env s now hinv.noFail
  have hinv3 : FullSaveInv env mem blocks D s.drain := drainN_inv env hlaw mem blocks D _ s hinv
  have hq3 := drain_mWriter s
  have hcfg : SameConfig s s.drain := drainN_sameConfig _ s
  rw [hidx] at h64
  have h64' : s.drain.mCurrentStreamPos < 2 ^ 64 := by
    have h : ((s.drain.mCurrentStreamPos : Nat) : Int) < 2 ^ 64 := h64
    exact_mod_cast h
  rw [hfile]
  unfold loadRam
  rw [loader_after_publish env hlaw _ _ _ hinv3.pos h64']
  simp only [Option.some.injEq]
  have hc : ({ s.drain.mIndex with startPosInFile := (s.drain.mCurrentStreamPos : Int) }
      : FileIndex).compressedPages = Flags.hasCompress s.mFlags := by
    apply compressedPages_of_flags
    show s.drain.mIndex.flags = _
    rw [hcfg.indexFlags]
    exact hflags
  rw [hc]
  apply loadRam_blocks env _ _ blocks mem
  · exact hinv3.layout
  · intro x rb hb hj
    obtain ⟨p, hp1, hp2, hp3⟩ := hinv3.done x rb (hD x rb hb hj) hb hj
      (by rw [hq3]; intro wi hwi; simp at hwi)
    refine ⟨p, hp1, ?_⟩
    rw [← hp2, hcfg.flags]
    apply loadPage_congr
    intro hz i hi1 hi2
    have hr := hp3 hz
    rw [File.write_data_outside _ 0 _ i (by rw [encode64_length]; omega)]
    rw [File.write_data_outside _ _ _ i (by omega)]

/-- C1: round trip.  For every list of blocks registered at distinct guest
offsets and every content of host memory, with compression enabled or disabled
(any flags value), a full save without I/O failure (`registerBlock` for each
block, `savePage` for each page, `complete`, `join`) runs to the end, and, when
the offset of the index fits the 8-byte slot, reading the file as the spec
describes reconstructs every page of every block byte for byte. -/
theorem save_load_roundtrip (env : Env) (hlaw : env.Lawful) (mem : Nat → Nat)
    (blocks : List RamBlock) (hnd : (blocks.map (fun rb => rb.startOffset)).Nodup)
    (existing : File) (preferredFlags : Nat) (gaps : GapTracker) (now now2 : Int) :
    ∃ t, run env (saveOps mem blocks now2)
        (RamSaver.create existing preferredFlags none gaps (fun _ => none) now) = some t ∧
      (t.mIndex.startPosInFile < 2 ^ 64 →
        loadRam env t.mStream.file = some (ramContent mem blocks)) := by
  obtain ⟨s1, hs1, g1, g2, g3, g4, g5, g6, g7, g8, g9, _, _⟩ :=
    run_register env blocks (RamSaver.create existing preferredFlags none gaps (fun _ => none) now)
      (by show (-1 : Int) < 0; decide) rfl
      (by simpa [RamSaver.create, FileIndex.layout] using hnd)
  have hl1 : s1.mIndex.layout = blocks.map (fun rb => (rb, rb.numPages)) := by
    rw [g1]
    rfl
  have hinv1 : FullSaveInv env mem blocks (fun _ => False) s1 :=
    create_full_inv env mem blocks s1 hl1 (by rw [g3]; rfl)
      (by rw [g4]; rfl) (by rw [g6]; rfl) (by rw [g7]; rfl) (by rw [g8]; rfl)
  obtain ⟨s2, hs2, hinv2, hc2, hcfg2⟩ :=
    run_savePages env mem blocks hnd (savePageOps mem blocks)
      (fun op hop => savePageOps_opFor mem blocks op hop) _ s1 hinv1 (by rw [g9]; rfl)
  refine ⟨(s2.complete env now2).join, ?_, ?_⟩
  · unfold saveOps
    rw [run_append, run_append, hs1]
    simp only [hs2]
    rfl
  · intro h64
    have hflags : s2.mIndex.flags = if Flags.hasCompress s2.mFlags = true
        then IndexFlags.CompressedPages else IndexFlags.Empty := by
      rw [hcfg2.indexFlags, hcfg2.flags, g5, g2]
      rfl
    exact complete_load env hlaw mem blocks _ s2 now2 hinv2
      (fun x rb hb hj => Or.inr (savePageOps_covers mem blocks x rb hb hj)) hflags h64

end Snapshot

namespace Snapshot

/-! ## A run of `savePage` calls as a fold over the resolved pages -/

theorem savePageAt_sameConfig (env : Env) (mem : Nat → Nat) (s : RamSaver) (x : QueuedPageInfo) :
    SameConfig s (s.savePageAt env mem x) := by
  have h1 : SameConfig s { s with mLastBlockIndex := (x.blockIndex : Int) } :=
    ⟨rfl, rfl, rfl, rfl, rfl, rfl, rfl⟩
  exact SameConfig.trans h1 (handlePageSave_sameConfig _ _ _ _)

/-- What `savePage` never touches: the stream, the gap tracker, the end-of-file
position, the error flag and the phase of the save. -/
theorem savePageAt_frame (env : Env) (mem : Nat → Nat) (s : RamSaver) (x : QueuedPageInfo) :
    (s.savePageAt env mem x).mStream = s.mStream ∧ (s.savePageAt env mem x).mGaps = s.mGaps ∧
    (s.savePageAt env mem x).mCurrentStreamPos = s.mCurrentStreamPos ∧
    (s.savePageAt env mem x).mHasError = s.mHasError ∧
    (s.savePageAt env mem x).mCompleted = s.mCompleted ∧
    (s.savePageAt env mem x).mEndTime = s.mEndTime := by
  unfold RamSaver.savePageAt
  obtain ⟨p, w, d, st, h⟩ := handlePageSave_form env mem
    { s with mLastBlockIndex := (x.blockIndex : Int) } x
  rw [h]
  exact ⟨rfl, rfl, rfl, rfl, rfl, rfl⟩

theorem savePagesAt_sameConfig (env : Env) (mem : Nat → Nat) (xs : List QueuedPageInfo)
    (s : RamSaver) : SameConfig s (s.savePagesAt env mem xs) := by
  induction xs generalizing s with
  | nil => exact SameConfig.refl s
  | cons x xs ih => exact SameConfig.trans (savePageAt_sameConfig env mem s x) (ih _)

theorem savePagesAt_frame (env : Env) (mem : Nat → Nat) (xs : List QueuedPageInfo)
    (s : RamSaver) :
    (s.savePagesAt env mem xs).mStream = s.mStream ∧ (s.savePagesAt env mem xs).mGaps = s.mGaps ∧
    (s.savePagesAt env mem xs).mCurrentStreamPos = s.mCurrentStreamPos ∧
    (s.savePagesAt env mem xs).mHasError = s.mHasError ∧
    (s.savePagesAt env mem xs).mCompleted = s.mCompleted ∧
    (s.savePagesAt env mem xs).mEndTime = s.mEndTime := by
  induction xs generalizing s with
  | nil => exact ⟨rfl, rfl, rfl, rfl, rfl, rfl⟩
  | cons x xs ih =>
    obtain ⟨a1, a2, a3, a4, a5, a6⟩ := savePageAt_frame env mem s x
    obtain ⟨b1, b2, b3, b4, b5, b6⟩ := ih (s.savePageAt env mem x)
    simp only [RamSaver.savePagesAt]
    exact ⟨b1.trans a1, b2.trans a2, b3.trans a3, b4.trans a4, b5.trans a5, b6.trans a6⟩

theorem savePagesAt_append (env : Env) (mem : Nat → Nat) (xs ys : List QueuedPageInfo)
    (s : RamSaver) :
    s.savePagesAt env mem (xs ++ ys) = (s.savePagesAt env mem xs).savePagesAt env mem ys := by
  induction xs generalizing s with
  | nil => rfl
  | cons x xs ih =>
    simp only [List.cons_append, RamSaver.savePagesAt]
    exact ih _

theorem run_pageOps (env : Env) (mem : Nat → Nat) (blocks : List RamBlock)
    (hnd : (blocks.map (fun rb => rb.startOffset)).Nodup) (bi : Nat) (rb : RamBlock)
    (hb : blocks[bi]? = some rb) (n : Nat) (hn : n ≤ rb.numPages) (s : RamSaver)
    (hl : s.mIndex.layout = blocks.map (fun rb => (rb, rb.numPages)))
    (hc : s.mCompleted = false) :
    run env (pageOps mem rb n) s = some (s.savePagesAt env mem
      ((List.range n).map (fun j => { blockIndex := bi, pageIndex := j }))) := by
  induction n with
  | zero => rfl
  | succ n ih =>
    have ih2 := ih (by omega)
    unfold pageOps at ih2 ⊢
    rw [List.range_succ, List.map_append, List.map_append, run_append, ih2,
      savePagesAt_append]
    simp only [List.map_cons, List.map_nil, run, step, RamSaver.savePagesAt]
    have hl2 := (savePagesAt_sameConfig env mem
      ((List.range n).map (fun j => { blockIndex := bi, pageIndex := j })) s).layout
    have hc2 := (savePagesAt_frame env mem
      ((List.range n).map (fun j => { blockIndex := bi, pageIndex := j })) s).2.2.2.2.1
    rw [savePage_ok env mem _ blocks (by rw [hl2]; exact hl) hnd (by rw [hc2]; exact hc) bi n rb hb
      (by omega)]
    rfl

theorem run_savePageOps (env : Env) (mem : Nat → Nat) (blocks : List RamBlock)
    (hnd : (blocks.map (fun rb => rb.startOffset)).Nodup) (pre bs : List RamBlock)
    (hsplit : blocks = pre ++ bs) (s : RamSaver)
    (hl : s.mIndex.layout = blocks.map (fun rb => (rb, rb.numPages)))
    (hc : s.mCompleted = false) :
    run env (savePageOps mem bs) s = some (s.savePagesAt env mem (pageInfos bs pre.length)) := by
  induction bs generalizing pre s with
  | nil => rfl
  | cons b rest ih =>
    have hb : blocks[pre.length]? = some b := by
      rw [hsplit, List.getElem?_append_right (Nat.le_refl _)]
      simp
    simp only [savePageOps, pageInfos]
    rw [run_append, run_pageOps env mem blocks hnd pre.length b hb b.numPages (Nat.le_refl _) s hl hc,
      savePagesAt_append]
    have hl2 := (savePagesAt_sameConfig env mem
      ((List.range b.numPages).map (fun j => { blockIndex := pre.length, pageIndex := j })) s).layout
    have hc2 := (savePagesAt_frame env mem
      ((List.range b.numPages).map (fun j => { blockIndex := pre.length, pageIndex := j }))
      s).2.2.2.2.1
    have := ih (pre ++ [b]) (by rw [hsplit]; simp) _ (by rw [hl2]; exact hl) (by rw [hc2]; exact hc)
    simp only [List.length_append, List.length_singleton] at this
    exact this

theorem mem_pageInfos (bs : List RamBlock) (start : Nat) (x : QueuedPageInfo) :
    x ∈ pageInfos bs start ↔
      ∃ rb, bs[x.blockIndex - start]? = some rb ∧ start ≤ x.blockIndex ∧
        x.pageIndex < rb.numPages := by
  induction bs generalizing start with
  | nil => simp [pageInfos]
  | cons b rest ih =>
    simp only [pageInfos, List.mem_append, List.mem_map, List.mem_range, ih]
    constructor
    · rintro (⟨j, hj, h⟩ | ⟨rb, h1, h2, h3⟩)
      · subst h
        exact ⟨b, by simp, Nat.le_refl _, hj⟩
      · refine ⟨rb, ?_, by omega, h3⟩
        have e : x.blockIndex - start = (x.blockIndex - (start + 1)) + 1 := by omega
        rw [e, List.getElem?_cons_succ]
        exact h1
    · rintro ⟨rb, h1, h2, h3⟩
      by_cases hx : x.blockIndex = start
      · left
        rw [hx] at h1
        simp only [Nat.sub_self, List.getElem?_cons_zero, Option.some.injEq] at h1
        subst h1
        refine ⟨x.pageIndex, h3, ?_⟩
        cases x
        simp only [QueuedPageInfo.mk.injEq, and_true]
        exact hx.symm
      · right
        have e : x.blockIndex - start = (x.blockIndex - (start + 1)) + 1 := by omega
        rw [e, List.getElem?_cons_succ] at h1
        exact ⟨rb, h1, by omega, h3⟩

theorem pageInfos_nodup (bs : List RamBlock) (start : Nat) : (pageInfos bs start).Nodup := by
  induction bs generalizing start with
  | nil => simp [pageInfos]
  | cons b rest ih =>
    simp only [pageInfos]
    rw [List.nodup_append]
    refine ⟨?_, ih _, ?_⟩
    · apply List.Nodup.map
      · intro i j hij
        injection hij
      · exact List.nodup_range _
    · intro x hx1 hx2
      simp only [List.mem_map, List.mem_range] at hx1
      obtain ⟨j, _, hj⟩ := hx1
      obtain ⟨rb, _, h2, _⟩ := (mem_pageInfos rest (start + 1) x).1 hx2
      subst hj
      simp at h2

theorem pageInfos_length (bs : List RamBlock) (start : Nat) :
    (pageInfos bs start).length = (bs.map RamBlock.numPages).sum := by
  induction bs generalizing start with
  | nil => rfl
  | cons b rest ih => simp [pageInfos, ih]

end Snapshot

namespace Snapshot

/-! ## Digests in the index of any save -/

theorem handlePageSave_entry (env : Env) (mem : Nat → Nat) (s : RamSaver) (x : QueuedPageInfo)
    (b : Block) (hb : s.mIndex.blocks[x.blockIndex]? = some b) :
    ∃ p, (s.handlePageSave env mem x).mIndex = s.mIndex.setPage x.blockIndex x.pageIndex p ∧
      p.hashFilled = true ∧ p.hash = env.calcHash (pageBytes mem b.ramBlock x.pageIndex) := by
  cases hp : s.priorMatch x (env.calcHash (pageBytes mem b.ramBlock x.pageIndex)) with
  | some prior =>
    rw [handlePageSave_same_eq env mem s x b prior hb hp]
    exact ⟨_, rfl, rfl, rfl⟩
  | none =>
    cases hz : isZeroPage (pageBytes mem b.ramBlock x.pageIndex) with
    | true =>
      rw [handlePageSave_zero_eq env mem s x b hb hp hz]
      exact ⟨_, rfl, rfl, rfl⟩
    | false =>
      rw [handlePageSave_write_eq env mem s x b hb hp hz]
      exact ⟨_, rfl, rfl, rfl⟩

theorem savePageAt_hash_set (env : Env) (mem : Nat → Nat) (blocks : List RamBlock) (s : RamSaver)
    (hl : s.mIndex.layout = blocks.map (fun rb => (rb, rb.numPages))) (x : QueuedPageInfo) :
    HashOk env mem blocks (s.savePageAt env mem x).mIndex x := by
  intro rb hb hj
  obtain ⟨b, hb1, hb2, hb3⟩ := layout_getElem? s.mIndex blocks hl x.blockIndex rb hb
  obtain ⟨p0, hp0⟩ := page?_some_of_layout s.mIndex blocks hl x rb hb hj
  obtain ⟨p, h1, h2, h3⟩ := handlePageSave_entry env mem
    { s with mLastBlockIndex := (x.blockIndex : Int) } x b hb1
  unfold RamSaver.savePageAt
  rw [h1]
  refine ⟨p, FileIndex.page?_setPage_same _ _ _ _ _ hp0, h2, ?_⟩
  rw [h3, hb2]

theorem savePageAt_hash_keep (env : Env) (mem : Nat → Nat) (blocks : List RamBlock) (s : RamSaver)
    (hl : s.mIndex.layout = blocks.map (fun rb => (rb, rb.numPages))) (x y : QueuedPageInfo)
    (hy : HashOk env mem blocks s.mIndex y) :
    HashOk env mem blocks (s.savePageAt env mem x).mIndex y := by
  by_cases hxy : y = x
  · subst hxy
    exact savePageAt_hash_set env mem blocks s hl y
  · intro rb hb hj
    obtain ⟨q, hq1, hq2, hq3⟩ := hy rb hb hj
    refine ⟨q, ?_, hq2, hq3⟩
    unfold RamSaver.savePageAt
    obtain ⟨p, w, d, st, h⟩ := handlePageSave_form env mem
      { s with mLastBlockIndex := (x.blockIndex : Int) } x
    rw [h]
    show (s.mIndex.setPage x.blockIndex x.pageIndex p).page? y.blockIndex y.pageIndex = some q
    rw [FileIndex.page?_setPage_other _ _ _ _ _ _
      ((QueuedPageInfo.ne_iff x y).1 (fun h => hxy h.symm))]
    exact hq1

theorem savePagesAt_hash (env : Env) (mem : Nat → Nat) (blocks : List RamBlock)
    (xs : List QueuedPageInfo) (s : RamSaver)
    (hl : s.mIndex.layout = blocks.map (fun rb => (rb, rb.numPages))) (y : QueuedPageInfo)
    (hy : y ∈ xs ∨ HashOk env mem blocks s.mIndex y) :
    HashOk env mem blocks (s.savePagesAt env mem xs).mIndex y := by
  induction xs generalizing s with
  | nil =>
    rcases hy with hy | hy
    · simp at hy
    · exact hy
  | cons x xs ih =>
    simp only [RamSaver.savePagesAt]
    have hl2 : (s.savePageAt env mem x).mIndex.layout = blocks.map (fun rb => (rb, rb.numPages)) := by
      rw [(savePageAt_sameConfig env mem s x).layout]
      exact hl
    apply ih _ hl2
    rcases hy with hy | hy
    · rcases List.mem_cons.1 hy with h | h
      · subst h
        exact Or.inr (savePageAt_hash_set env mem blocks s hl y)
      · exact Or.inl h
    · exact Or.inr (savePageAt_hash_keep env mem blocks s hl x y hy)

/-- The writer only changes `filePos` and `sizeOnDisk` of an entry. -/
theorem writePage_entry (s : RamSaver) (wi : WriteInfo) :
    (s.writePage wi).mIndex = s.mIndex ∨
    ∃ q, s.mIndex.page? wi.page.blockIndex wi.page.pageIndex = some q ∧
      (s.writePage wi).mIndex = s.mIndex.setPage wi.page.blockIndex wi.page.pageIndex
        { q with filePos := ((s.assignSlot wi.ptr.length).1 : Int),
                 sizeOnDisk := (wi.ptr.length : Int) } := by
  unfold RamSaver.writePage
  by_cases hok : (s.mStream.pwrite (s.assignSlot wi.ptr.length).1 wi.ptr).2 = true
  · rw [if_pos hok]
    cases hp : s.mIndex.page? wi.page.blockIndex wi.page.pageIndex with
    | none => exact Or.inl rfl
    | some p => exact Or.inr ⟨p, rfl, rfl⟩
  · rw [if_neg hok]
    exact Or.inl rfl

theorem writePage_hash (env : Env) (mem : Nat → Nat) (blocks : List RamBlock) (s : RamSaver)
    (wi : WriteInfo) (y : QueuedPageInfo) (hy : HashOk env mem blocks s.mIndex y) :
    HashOk env mem blocks (s.writePage wi).mIndex y := by
  rcases writePage_entry s wi with h | ⟨q, hq, h⟩
  · rw [h]
    exact hy
  · rw [h]
    intro rb hb hj
    obtain ⟨q2, hq1, hq2, hq3⟩ := hy rb hb hj
    by_cases hxy : y = wi.page
    · subst hxy
      rw [hq] at hq1
      injection hq1 with hq1
      subst hq1
      exact ⟨_, FileIndex.page?_setPage_same _ _ _ _ _ hq, hq2, hq3⟩
    · refine ⟨q2, ?_, hq2, hq3⟩
      rw [FileIndex.page?_setPage_other _ _ _ _ _ _
        ((QueuedPageInfo.ne_iff wi.page y).1 (fun h => hxy h.symm))]
      exact hq1

theorem drainN_hash (env : Env) (mem : Nat → Nat) (blocks : List RamBlock) (n : Nat)
    (s : RamSaver) (y : QueuedPageInfo) (hy : HashOk env mem blocks s.mIndex y) :
    HashOk env mem blocks (RamSaver.drainN n s).mIndex y := by
  induction n generalizing s with
  | zero => exact hy
  | succ n ih =>
    apply ih
    unfold RamSaver.writerStep
    cases hq : s.mWriter with
    | nil => simpa [hq] using hy
    | cons wi rest => exact writePage_hash env mem blocks { s with mWriter := rest } wi y hy

theorem complete_blocks (env : Env) (s : RamSaver) (now : Int) :
    (s.complete env now).mIndex.blocks = s.drain.mIndex.blocks := by
  unfold RamSaver.complete RamSaver.publishIndexOffset RamSaver.writeIndex
  rfl

theorem HashOk.of_blocks {env : Env} {mem : Nat → Nat} {blocks : List RamBlock}
    {idx idx2 : FileIndex} {y : QueuedPageInfo} (h : HashOk env mem blocks idx y)
    (hb : idx2.blocks = idx.blocks) : HashOk env mem blocks idx2 y := by
  intro rb hb1 hj
  obtain ⟨q, hq1, hq2, hq3⟩ := h rb hb1 hj
  refine ⟨q, ?_, hq2, hq3⟩
  unfold FileIndex.page? at hq1 ⊢
  rw [hb]
  exact hq1

/-! ## The end-of-file position -/

theorem assignSlot_pos (s : RamSaver) (size : Nat) :
    s.mCurrentStreamPos ≤ (s.assignSlot size).2.2 := by
  unfold RamSaver.assignSlot
  cases s.mGaps.reserve size with
  | none => simp
  | some res => simp

theorem writePage_pos (s : RamSaver) (wi : WriteInfo) :
    s.mCurrentStreamPos ≤ (s.writePage wi).mCurrentStreamPos := by
  obtain ⟨idx, d, st, err, _, h⟩ := writePage_form s wi
  rw [h]
  exact assignSlot_pos s _

theorem drainN_pos (n : Nat) (s : RamSaver) :
    s.mCurrentStreamPos ≤ (RamSaver.drainN n s).mCurrentStreamPos := by
  induction n generalizing s with
  | zero => exact Nat.le_refl _
  | succ n ih =>
    refine Nat.le_trans ?_ (ih _)
    unfold RamSaver.writerStep
    cases hq : s.mWriter with
    | nil => simp [hq]
    | cons wi rest => exact writePage_pos { s with mWriter := rest } wi

end Snapshot

namespace Snapshot

/-! ## Any save without I/O failure leaves a readable, describing index -/

theorem mem_pageInfos_zero (blocks : List RamBlock) (x : QueuedPageInfo) (rb : RamBlock)
    (hb : blocks[x.blockIndex]? = some rb) (hj : x.pageIndex < rb.numPages) :
    x ∈ pageInfos blocks 0 :=
  (mem_pageInfos blocks 0 x).2 ⟨rb, by simpa using hb, Nat.zero_le _, hj⟩

theorem of_mem_pageInfos_zero (blocks : List RamBlock) (x : QueuedPageInfo)
    (h : x ∈ pageInfos blocks 0) :
    ∃ rb, blocks[x.blockIndex]? = some rb ∧ x.pageIndex < rb.numPages := by
  obtain ⟨rb, h1, _, h3⟩ := (mem_pageInfos blocks 0 x).1 h
  exact ⟨rb, by simpa using h1, h3⟩

/-- The calls of a save up to `complete`, as functions: every block registered,
every page saved. -/
theorem run_save_prefix (env : Env) (mem : Nat → Nat) (blocks : List RamBlock)
    (hnd : (blocks.map (fun rb => rb.startOffset)).Nodup) (existing : File)
    (preferredFlags : Nat) (loader : Option RamLoader) (gaps : GapTracker)
    (fails : Nat → Option Nat) (now : Int) :
    ∃ s1, run env (blocks.map Op.registerBlock)
        (RamSaver.create existing preferredFlags loader gaps fails now) = some s1 ∧
      run env (blocks.map Op.registerBlock ++ savePageOps mem blocks)
        (RamSaver.create existing preferredFlags loader gaps fails now)
        = some (s1.savePagesAt env mem (pageInfos blocks 0)) ∧
      s1.mIndex.layout = blocks.map (fun rb => (rb, rb.numPages)) ∧
      s1.mFlags = preferredFlags ∧ s1.mLoader = loader ∧
      s1.mStream = (RamSaver.create existing preferredFlags loader gaps fails now).mStream ∧
      s1.mIndex.flags = (if Flags.hasCompress preferredFlags = true
        then IndexFlags.CompressedPages else IndexFlags.Empty) ∧
      s1.mWriter = [] ∧
      s1.mGaps = (RamSaver.create existing preferredFlags loader gaps fails now).mGaps ∧
      s1.mCurrentStreamPos
        = (RamSaver.create existing preferredFlags loader gaps fails now).mCurrentStreamPos ∧
      s1.mCompleted = false ∧ s1.mIncStats = {} ∧ s1.mDiskSize = 0 := by
  obtain ⟨s1, hs1, g1, g2, g3, g4, g5, g6, g7, g8, g9, g10, g11⟩ :=
    run_register env blocks (RamSaver.create existing preferredFlags loader gaps fails now)
      (by show (-1 : Int) < 0; decide) rfl
      (by simpa [RamSaver.create, FileIndex.layout] using hnd)
  have hl1 : s1.mIndex.layout = blocks.map (fun rb => (rb, rb.numPages)) := by
    rw [g1]
    rfl
  refine ⟨s1, hs1, ?_, hl1, g2, g3, g4, g5, g6, g7, g8, g9, g10, g11⟩
  rw [run_append, hs1]
  exact run_savePageOps env mem blocks hnd [] blocks rfl s1 hl1 (by rw [g9]; rfl)

theorem create_pos (existing : File) (preferredFlags : Nat) (loader : Option RamLoader)
    (gaps : GapTracker) (fails : Nat → Option Nat) (now : Int) :
    8 ≤ (RamSaver.create existing preferredFlags loader gaps fails now).mCurrentStreamPos := by
  unfold RamSaver.create
  cases loader <;> simp

theorem save_general (env : Env) (hlaw : env.Lawful) (mem : Nat → Nat) (blocks : List RamBlock)
    (hnd : (blocks.map (fun rb => rb.startOffset)).Nodup) (existing : File)
    (preferredFlags : Nat) (loader : Option RamLoader) (gaps : GapTracker) (now now2 : Int) :
    ∃ t, run env (saveOps mem blocks now2)
        (RamSaver.create existing preferredFlags loader gaps (fun _ => none) now) = some t ∧
      Describes env mem blocks t.mIndex ∧
      (t.mIndex.startPosInFile < 2 ^ 64 →
        RamLoader.create env t.mStream.file = some { index := t.mIndex }) := by
  obtain ⟨s1, _, hrun, hl1, _, _, g4, _, _, _, g8, _, _, _⟩ :=
    run_save_prefix env mem blocks hnd existing preferredFlags loader gaps (fun _ => none) now
  have hcfg2 := savePagesAt_sameConfig env mem (pageInfos blocks 0) s1
  have hfr2 := savePagesAt_frame env mem (pageInfos blocks 0) s1
  refine ⟨((s1.savePagesAt env mem (pageInfos blocks 0)).complete env now2).join, ?_, ?_, ?_⟩
  · unfold saveOps
    rw [run_append, hrun]
    rfl
  · constructor
    · show ((s1.savePagesAt env mem (pageInfos blocks 0)).complete env now2).mIndex.layout = _
      rw [(complete_sameConfig env _ now2).layout, hcfg2.layout]
      exact hl1
    · intro x rb hb hj
      have h1 := savePagesAt_hash env mem blocks (pageInfos blocks 0) s1 hl1 x
        (Or.inl (mem_pageInfos_zero blocks x rb hb hj))
      have h2 := drainN_hash env mem blocks
        (s1.savePagesAt env mem (pageInfos blocks 0)).mWriter.length _ x h1
      have h3 : HashOk env mem blocks
          ((s1.savePagesAt env mem (pageInfos blocks 0)).complete env now2).join.mIndex x :=
        HashOk.of_blocks h2 (complete_blocks env _ now2)
      exact h3 rb hb hj
  · intro h64
    have hf : ∀ n, (s1.savePagesAt env mem (pageInfos blocks 0)).mStream.fails n = none := by
      intro n
      rw [hfr2.1, g4]
      rfl
    obtain ⟨hfile, hidx⟩ := complete_file env (s1.savePagesAt env mem (pageInfos blocks 0)) now2 hf
    have h8 : 8 ≤ (s1.savePagesAt env mem (pageInfos blocks 0)).drain.mCurrentStreamPos := by
      refine Nat.le_trans ?_ (drainN_pos _ _)
      rw [hfr2.2.2.1, g8]
      exact create_pos _ _ _ _ _ _
    show RamLoader.create env
        ((s1.savePagesAt env mem (pageInfos blocks 0)).complete env now2).mStream.file
      = some { index := ((s1.savePagesAt env mem (pageInfos blocks 0)).complete env now2).mIndex }
    have h64' : (((s1.savePagesAt env mem (pageInfos blocks 0)).drain.mCurrentStreamPos : Nat) : Int)
        < 2 ^ 64 := by
      have h : ((s1.savePagesAt env mem (pageInfos blocks 0)).complete env now2).mIndex.startPosInFile
          < 2 ^ 64 := h64
      rw [hidx] at h
      exact h
    rw [hfile, hidx]
    rw [loader_after_publish env hlaw _ _ _ h8 (by exact_mod_cast h64')]

end Snapshot

namespace Snapshot

/-! ## Classification of pages in an incremental save -/

theorem priorMatch_some (s : RamSaver) (l : RamLoader) (x : QueuedPageInfo) (q : Page)
    (hlo : s.mLoader = some l) (hq : l.index.page? x.blockIndex x.pageIndex = some q)
    (hf : q.hashFilled = true) : s.priorMatch x q.hash = some (q.filePos, q.sizeOnDisk) := by
  unfold RamSaver.priorMatch RamLoader.hashForPage RamLoader.filePosForPage
  rw [hlo]
  simp [hq, hf]

theorem priorMatch_none_of_ne (s : RamSaver) (l : RamLoader) (x : QueuedPageInfo) (q : Page)
    (hash : Hash) (hlo : s.mLoader = some l)
    (hq : l.index.page? x.blockIndex x.pageIndex = some q) (hne : q.hash ≠ hash) :
    s.priorMatch x hash = none := by
  unfold RamSaver.priorMatch RamLoader.hashForPage RamLoader.filePosForPage
  rw [hlo]
  simp [hq, hne]

theorem savePageAt_match (env : Env) (mem : Nat → Nat) (blocks : List RamBlock) (l : RamLoader)
    (s : RamSaver) (hl : s.mIndex.layout = blocks.map (fun rb => (rb, rb.numPages)))
    (hlo : s.mLoader = some l) (x : QueuedPageInfo) (hx : Matches env mem blocks l x) :
    (s.savePageAt env mem x).mWriter = s.mWriter ∧
    (s.savePageAt env mem x).mIncStats
      = { s.mIncStats with samePages := s.mIncStats.samePages + 1 } ∧
    SameAs l (s.savePageAt env mem x).mIndex x ∧
    ∀ y, SameAs l s.mIndex y → SameAs l (s.savePageAt env mem x).mIndex y := by
  obtain ⟨rb, q, hb, hj, hq, hf, hh⟩ := hx
  obtain ⟨b, hb1, hb2, hb3⟩ := layout_getElem? s.mIndex blocks hl x.blockIndex rb hb
  obtain ⟨p0, hp0⟩ := page?_some_of_layout s.mIndex blocks hl x rb hb hj
  have hpm : ({ s with mLastBlockIndex := (x.blockIndex : Int) } : RamSaver).priorMatch x
      (env.calcHash (pageBytes mem b.ramBlock x.pageIndex)) = some (q.filePos, q.sizeOnDisk) := by
    rw [hb2, ← hh]
    exact priorMatch_some _ l x q hlo hq hf
  have heq := handlePageSave_same_eq env mem { s with mLastBlockIndex := (x.blockIndex : Int) } x b
    _ hb1 hpm
  have hset : SameAs l (s.savePageAt env mem x).mIndex x := by
    unfold RamSaver.savePageAt
    rw [heq]
    exact ⟨_, q, FileIndex.page?_setPage_same _ _ _ _ _ hp0, hq, rfl, rfl, rfl⟩
  refine ⟨?_, ?_, hset, ?_⟩
  · unfold RamSaver.savePageAt
    rw [heq]
  · unfold RamSaver.savePageAt
    rw [heq]
  · intro y hy
    by_cases hxy : y = x
    · subst hxy
      exact hset
    · obtain ⟨p, q2, h1, h2, h3, h4, h5⟩ := hy
      refine ⟨p, q2, ?_, h2, h3, h4, h5⟩
      unfold RamSaver.savePageAt
      rw [heq]
      show (s.mIndex.setPage x.blockIndex x.pageIndex _).page? y.blockIndex y.pageIndex = some p
      rw [FileIndex.page?_setPage_other _ _ _ _ _ _
        ((QueuedPageInfo.ne_iff x y).1 (fun h => hxy h.symm))]
      exact h1

theorem savePagesAt_allSame (env : Env) (mem : Nat → Nat) (blocks : List RamBlock)
    (l : RamLoader) (xs : List QueuedPageInfo) (s : RamSaver)
    (hl : s.mIndex.layout = blocks.map (fun rb => (rb, rb.numPages)))
    (hlo : s.mLoader = some l) (hxs : ∀ x ∈ xs, Matches env mem blocks l x) :
    (s.savePagesAt env mem xs).mWriter = s.mWriter ∧
    (s.savePagesAt env mem xs).mIncStats
      = { s.mIncStats with samePages := s.mIncStats.samePages + xs.length } ∧
    ∀ y, (y ∈ xs ∨ SameAs l s.mIndex y) → SameAs l (s.savePagesAt env mem xs).mIndex y := by
  induction xs generalizing s with
  | nil =>
    refine ⟨rfl, rfl, ?_⟩
    intro y hy
    rcases hy with hy | hy
    · simp at hy
    · exact hy
  | cons x xs ih =>
    obtain ⟨a1, a2, a3, a4⟩ := savePageAt_match env mem blocks l s hl hlo x (hxs x (by simp))
    have hl2 : (s.savePageAt env mem x).mIndex.layout = blocks.map (fun rb => (rb, rb.numPages)) := by
      rw [(savePageAt_sameConfig env mem s x).layout]
      exact hl
    have hlo2 : (s.savePageAt env mem x).mLoader = some l := by
      rw [(savePageAt_sameConfig env mem s x).loader]
      exact hlo
    obtain ⟨b1, b2, b3⟩ := ih (s.savePageAt env mem x) hl2 hlo2
      (fun y hy => hxs y (List.mem_cons_of_mem _ hy))
    simp only [RamSaver.savePagesAt]
    refine ⟨b1.trans a1, ?_, ?_⟩
    · rw [b2, a2]
      simp only [List.length_cons, IncrementalStats.mk.injEq, and_true, true_and]
      omega
    · intro y hy
      apply b3
      rcases hy with hy | hy
      · rcases List.mem_cons.1 hy with h | h
        · subst h
          exact Or.inr a3
        · exact Or.inl h
      · exact Or.inr (a4 y hy)

theorem Describes.matches {env : Env} {mem : Nat → Nat} {blocks : List RamBlock} {l : RamLoader}
    (h : Describes env mem blocks l.index) (x : QueuedPageInfo) (rb : RamBlock)
    (hb : blocks[x.blockIndex]? = some rb) (hj : x.pageIndex < rb.numPages) :
    Matches env mem blocks l x := by
  obtain ⟨q, h1, h2, h3⟩ := h.2 x rb hb hj
  exact ⟨rb, q, hb, hj, h1, h2, h3⟩

/-- Nothing is queued: `complete()` has nothing to drain. -/
theorem drain_of_empty (s : RamSaver) (h : s.mWriter = []) : s.drain = s := by
  unfold RamSaver.drain
  rw [h]
  rfl

theorem complete_of_empty (env : Env) (s : RamSaver) (now : Int) (h : s.mWriter = []) :
    (s.complete env now).mIncStats = s.mIncStats ∧
    (s.complete env now).mIndex.blocks = s.mIndex.blocks ∧
    (s.complete env now).mIndex.startPosInFile = (s.mCurrentStreamPos : Int) ∧
    (s.complete env now).mDiskSize = s.mDiskSize := by
  unfold RamSaver.complete
  rw [drain_of_empty s h]
  unfold RamSaver.publishIndexOffset RamSaver.writeIndex
  exact ⟨rfl, rfl, rfl, rfl⟩

/-- C3: incremental no-op.  For every list of blocks registered at distinct
offsets and every prior snapshot whose index describes the current content of
memory (the index any save of that content leaves, see `save_general`), an
incremental save over it runs to the end; no `WriteInfo` is queued by the
`savePage` calls; in its index every page entry has `same == true` with the
`filePos` and `sizeOnDisk` of the prior snapshot; every page is counted as same,
none as changed, the number of payload bytes written is 0 and the index is
written where the payload region ended before the save. -/
theorem incremental_noop (env : Env) (mem : Nat → Nat) (blocks : List RamBlock)
    (hnd : (blocks.map (fun rb => rb.startOffset)).Nodup) (l : RamLoader)
    (hdesc : Describes env mem blocks l.index) (existing : File) (preferredFlags : Nat)
    (gaps : GapTracker) (fails : Nat → Option Nat) (now now2 : Int) :
    ∃ t2 t,
      run env (blocks.map Op.registerBlock ++ savePageOps mem blocks)
        (RamSaver.create existing preferredFlags (some l) gaps fails now) = some t2 ∧
      t2.mWriter = [] ∧
      run env (saveOps mem blocks now2)
        (RamSaver.create existing preferredFlags (some l) gaps fails now) = some t ∧
      (∀ (x : QueuedPageInfo) rb, blocks[x.blockIndex]? = some rb → x.pageIndex < rb.numPages →
        SameAs l t.mIndex x) ∧
      t.mIncStats.changedPages = 0 ∧ t.mIncStats.bytesWritten = 0 ∧
      t.mIncStats.samePages = (blocks.map RamBlock.numPages).sum ∧
      t.mIndex.startPosInFile = ((max 8 existing.size : Nat) : Int) := by
  obtain ⟨s1, _, hrun, hl1, _, g3, _, _, g6, _, g8, _, g10, _⟩ :=
    run_save_prefix env mem blocks hnd existing preferredFlags (some l) gaps fails now
  obtain ⟨a1, a2, a3⟩ := savePagesAt_allSame env mem blocks l (pageInfos blocks 0) s1 hl1 g3
    (fun x hx => by
      obtain ⟨rb, hb, hj⟩ := of_mem_pageInfos_zero blocks x hx
      exact hdesc.matches x rb hb hj)
  have hw : (s1.savePagesAt env mem (pageInfos blocks 0)).mWriter = [] := a1.trans g6
  obtain ⟨c1, c2, c3, _⟩ := complete_of_empty env _ now2 hw
  refine ⟨_, ((s1.savePagesAt env mem (pageInfos blocks 0)).complete env now2).join,
    hrun, hw, ?_, ?_, ?_, ?_, ?_, ?_⟩
  · unfold saveOps
    rw [run_append, hrun]
    rfl
  · intro x rb hb hj
    obtain ⟨p, q, h1, h2, h3, h4, h5⟩ := a3 x (Or.inl (mem_pageInfos_zero blocks x rb hb hj))
    refine ⟨p, q, ?_, h2, h3, h4, h5⟩
    show FileIndex.page? ((s1.savePagesAt env mem (pageInfos blocks 0)).complete env now2).mIndex
      x.blockIndex x.pageIndex = some p
    unfold FileIndex.page? at h1 ⊢
    rw [c2]
    exact h1
  · show ((s1.savePagesAt env mem (pageInfos blocks 0)).complete env now2).mIncStats.changedPages = 0
    rw [c1, a2, g10]
  · show ((s1.savePagesAt env mem (pageInfos blocks 0)).complete env now2).mIncStats.bytesWritten = 0
    rw [c1, a2, g10]
  · show ((s1.savePagesAt env mem (pageInfos blocks 0)).complete env now2).mIncStats.samePages = _
    rw [c1, a2, g10, pageInfos_length]
    simp
  · show ((s1.savePagesAt env mem (pageInfos blocks 0)).complete env now2).mIndex.startPosInFile = _
    rw [c3, (savePagesAt_frame env mem (pageInfos blocks 0) s1).2.2.1, g8]
    rfl

end Snapshot

namespace Snapshot

/-! ## C4: one changed page -/

theorem savePageAt_nomatch (env : Env) (mem : Nat → Nat) (blocks : List RamBlock) (l : RamLoader)
    (s : RamSaver) (hl : s.mIndex.layout = blocks.map (fun rb => (rb, rb.numPages)))
    (hlo : s.mLoader = some l) (x : QueuedPageInfo) (rb : RamBlock) (q : Page)
    (hb : blocks[x.blockIndex]? = some rb) (hj : x.pageIndex < rb.numPages)
    (hq : l.index.page? x.blockIndex x.pageIndex = some q)
    (hne : q.hash ≠ env.calcHash (pageBytes mem rb x.pageIndex)) :
    (isZeroPage (pageBytes mem rb x.pageIndex) = false →
      (s.savePageAt env mem x).mWriter = s.mWriter ++
        [{ page := x, ptr := payloadOf env s.mFlags (pageBytes mem rb x.pageIndex),
           allocated := Flags.hasCompress s.mFlags }] ∧
      (s.savePageAt env mem x).mIncStats
        = { s.mIncStats with changedPages := s.mIncStats.changedPages + 1 }) ∧
    (isZeroPage (pageBytes mem rb x.pageIndex) = true →
      (s.savePageAt env mem x).mWriter = s.mWriter ∧
      (s.savePageAt env mem x).mIncStats
        = { s.mIncStats with zeroPages := s.mIncStats.zeroPages + 1 } ∧
      ∃ p, (s.savePageAt env mem x).mIndex.page? x.blockIndex x.pageIndex = some p ∧
        p.sizeOnDisk = 0 ∧ p.zeroed = true ∧ p.same = false) ∧
    ∀ y, y ≠ x → SameAs l s.mIndex y → SameAs l (s.savePageAt env mem x).mIndex y := by
  obtain ⟨b, hb1, hb2, hb3⟩ := layout_getElem? s.mIndex blocks hl x.blockIndex rb hb
  obtain ⟨p0, hp0⟩ := page?_some_of_layout s.mIndex blocks hl x rb hb hj
  have hpm : ({ s with mLastBlockIndex := (x.blockIndex : Int) } : RamSaver).priorMatch x
      (env.calcHash (pageBytes mem b.ramBlock x.pageIndex)) = none := by
    rw [hb2]
    exact priorMatch_none_of_ne _ l x q _ hlo hq hne
  refine ⟨?_, ?_, ?_⟩
  · intro hz
    have hz2 : isZeroPage (pageBytes mem b.ramBlock x.pageIndex) = false := by rw [hb2]; exact hz
    have heq := handlePageSave_write_eq env mem { s with mLastBlockIndex := (x.blockIndex : Int) } x
      b hb1 hpm hz2
    unfold RamSaver.savePageAt
    rw [heq, hb2]
    exact ⟨rfl, rfl⟩
  · intro hz
    have hz2 : isZeroPage (pageBytes mem b.ramBlock x.pageIndex) = true := by rw [hb2]; exact hz
    have heq := handlePageSave_zero_eq env mem { s with mLastBlockIndex := (x.blockIndex : Int) } x
      b hb1 hpm hz2
    unfold RamSaver.savePageAt
    rw [heq]
    exact ⟨rfl, rfl, _, FileIndex.page?_setPage_same _ _ _ _ _ hp0, rfl, rfl, rfl⟩
  · intro y hxy hy
    obtain ⟨p, q2, h1, h2, h3, h4, h5⟩ := hy
    refine ⟨p, q2, ?_, h2, h3, h4, h5⟩
    unfold RamSaver.savePageAt
    obtain ⟨p', w, d, st, h⟩ := handlePageSave_form env mem
      { s with mLastBlockIndex := (x.blockIndex : Int) } x
    rw [h]
    show (s.mIndex.setPage x.blockIndex x.pageIndex p').page? y.blockIndex y.pageIndex = some p
    rw [FileIndex.page?_setPage_other _ _ _ _ _ _
      ((QueuedPageInfo.ne_iff x y).1 (fun h => hxy h.symm))]
    exact h1

/-- Saving pages other than `c` leaves the entry of `c` as it is. -/
theorem savePagesAt_page?_other (env : Env) (mem : Nat → Nat) (xs : List QueuedPageInfo)
    (s : RamSaver) (c : QueuedPageInfo) (hc : c ∉ xs) :
    (s.savePagesAt env mem xs).mIndex.page? c.blockIndex c.pageIndex
      = s.mIndex.page? c.blockIndex c.pageIndex := by
  induction xs generalizing s with
  | nil => rfl
  | cons x xs ih =>
    have hxc : x ≠ c := fun h => hc (by rw [h]; exact List.mem_cons_self _ _)
    have hcxs : c ∉ xs := fun h => hc (List.mem_cons_of_mem _ h)
    show ((s.savePageAt env mem x).savePagesAt env mem xs).mIndex.page? c.blockIndex c.pageIndex = _
    rw [ih _ hcxs]
    unfold RamSaver.savePageAt
    obtain ⟨p', w, d, st, h⟩ := handlePageSave_form env mem
      { s with mLastBlockIndex := (x.blockIndex : Int) } x
    rw [h]
    show (s.mIndex.setPage x.blockIndex x.pageIndex p').page? c.blockIndex c.pageIndex = _
    exact FileIndex.page?_setPage_other _ _ _ _ _ _ ((QueuedPageInfo.ne_iff x c).1 hxc)

/-- C4, amended: single-change cost.  For every prior snapshot whose index
describes the earlier content `mem1` of the registered blocks and every page `c`,
if the current content `mem2` differs from `mem1` in page `c` only, then in the
incremental save every other page's entry has `same == true` with its prior
`filePos`, and: when the digest of `c` has changed and the new content of `c` is
not all zero, exactly one `WriteInfo` is queued, the one for `c`, and all other
pages are counted as same; when the digest of `c` has changed and the new
content of `c` is all zero, no `WriteInfo` is queued at all and the entry of `c`
has `sizeOnDisk == 0` (it is `zeroed()`, not `same`); when the digest of `c` is
the one of the earlier content, no `WriteInfo` is queued at all and `c` too is
marked `same` with its prior `filePos`. -/
theorem single_change (env : Env) (mem1 mem2 : Nat → Nat) (blocks : List RamBlock)
    (hnd : (blocks.map (fun rb => rb.startOffset)).Nodup) (l : RamLoader)
    (hdesc : Describes env mem1 blocks l.index) (c : QueuedPageInfo) (rbc : RamBlock)
    (hcb : blocks[c.blockIndex]? = some rbc) (hcj : c.pageIndex < rbc.numPages)
    (hsame : ∀ (x : QueuedPageInfo) rb, blocks[x.blockIndex]? = some rb →
      x.pageIndex < rb.numPages → x ≠ c → pageBytes mem2 rb x.pageIndex = pageBytes mem1 rb x.pageIndex)
    (existing : File) (preferredFlags : Nat) (gaps : GapTracker) (fails : Nat → Option Nat)
    (now : Int) :
    ∃ t2,
      run env (blocks.map Op.registerBlock ++ savePageOps mem2 blocks)
        (RamSaver.create existing preferredFlags (some l) gaps fails now) = some t2 ∧
      (∀ (x : QueuedPageInfo) rb, blocks[x.blockIndex]? = some rb → x.pageIndex < rb.numPages →
        x ≠ c → SameAs l t2.mIndex x) ∧
      (env.calcHash (pageBytes mem2 rbc c.pageIndex) ≠ env.calcHash (pageBytes mem1 rbc c.pageIndex) →
        isZeroPage (pageBytes mem2 rbc c.pageIndex) = false →
        t2.mWriter = [{ page := c, ptr := payloadOf env preferredFlags (pageBytes mem2 rbc c.pageIndex),
                        allocated := Flags.hasCompress preferredFlags }] ∧
        t2.mIncStats.changedPages = 1 ∧ t2.mIncStats.zeroPages = 0 ∧
        t2.mIncStats.samePages = (blocks.map RamBlock.numPages).sum - 1) ∧
      (env.calcHash (pageBytes mem2 rbc c.pageIndex) ≠ env.calcHash (pageBytes mem1 rbc c.pageIndex) →
        isZeroPage (pageBytes mem2 rbc c.pageIndex) = true →
        t2.mWriter = [] ∧
        (∃ p, t2.mIndex.page? c.blockIndex c.pageIndex = some p ∧ p.sizeOnDisk = 0 ∧
          p.zeroed = true ∧ p.same = false) ∧
        t2.mIncStats.changedPages = 0 ∧ t2.mIncStats.zeroPages = 1 ∧
        t2.mIncStats.samePages = (blocks.map RamBlock.numPages).sum - 1) ∧
      (env.calcHash (pageBytes mem2 rbc c.pageIndex) = env.calcHash (pageBytes mem1 rbc c.pageIndex) →
        t2.mWriter = [] ∧ SameAs l t2.mIndex c ∧
        t2.mIncStats.changedPages = 0 ∧ t2.mIncStats.zeroPages = 0 ∧
        t2.mIncStats.samePages = (blocks.map RamBlock.numPages).sum) := by
  obtain ⟨s1, _, hrun, hl1, g2, g3, _, _, g6, _, _, _, g10, _⟩ :=
    run_save_prefix env mem2 blocks hnd existing preferredFlags (some l) gaps fails now
  obtain ⟨qc, hqc1, hqc2, hqc3⟩ := hdesc.2 c rbc hcb hcj
  have hmatchOther : ∀ x, x ∈ pageInfos blocks 0 → x ≠ c → Matches env mem2 blocks l x := by
    intro x hxm hxc
    obtain ⟨rb, hb, hj⟩ := of_mem_pageInfos_zero blocks x hxm
    obtain ⟨q, h1, h2, h3⟩ := hdesc.2 x rb hb hj
    exact ⟨rb, q, hb, hj, h1, h2, by rw [h3, hsame x rb hb hj hxc]⟩
  by_cases hh : env.calcHash (pageBytes mem2 rbc c.pageIndex)
      = env.calcHash (pageBytes mem1 rbc c.pageIndex)
  · -- the digest of `c` is unchanged: every page matches its prior entry
    have hmatch : ∀ x ∈ pageInfos blocks 0, Matches env mem2 blocks l x := by
      intro x hxm
      by_cases hxc : x = c
      · rw [hxc]
        exact ⟨rbc, qc, hcb, hcj, hqc1, hqc2, by rw [hqc3, hh]⟩
      · exact hmatchOther x hxm hxc
    obtain ⟨a1, a2, a3⟩ := savePagesAt_allSame env mem2 blocks l (pageInfos blocks 0) s1 hl1 g3
      hmatch
    refine ⟨_, hrun, ?_, fun hne => absurd hh hne, fun hne => absurd hh hne, ?_⟩
    · intro x rb hb hj _
      exact a3 x (Or.inl (mem_pageInfos_zero blocks x rb hb hj))
    · intro _
      rw [a1, a2, g6, g10, pageInfos_length]
      refine ⟨rfl, a3 c (Or.inl (mem_pageInfos_zero blocks c rbc hcb hcj)), rfl, rfl, ?_⟩
      show 0 + (blocks.map RamBlock.numPages).sum = _
      omega
  · -- the digest of `c` has changed
    have hcmem := mem_pageInfos_zero blocks c rbc hcb hcj
    obtain ⟨pre, post, hsplit⟩ := List.append_of_mem hcmem
    have hndp := pageInfos_nodup blocks 0
    rw [hsplit] at hndp
    have hlen : pre.length + post.length = (blocks.map RamBlock.numPages).sum - 1 := by
      have := pageInfos_length blocks 0
      rw [hsplit] at this
      simp only [List.length_append, List.length_cons] at this
      omega
    have hcpre : c ∉ pre := by
      intro h
      rw [List.nodup_append] at hndp
      exact hndp.2.2 h (by simp)
    have hcpost : c ∉ post := by
      rw [List.nodup_append] at hndp
      exact (List.nodup_cons.1 hndp.2.1).1
    have hmatch : ∀ x, x ∈ pre ∨ x ∈ post → Matches env mem2 blocks l x := by
      intro x hx
      have hxm : x ∈ pageInfos blocks 0 := by
        rw [hsplit]
        rcases hx with hx | hx
        · exact List.mem_append_left _ hx
        · exact List.mem_append_right _ (List.mem_cons_of_mem _ hx)
      have hxc : x ≠ c := by
        intro h
        subst h
        rcases hx with hx | hx
        · exact hcpre hx
        · exact hcpost hx
      exact hmatchOther x hxm hxc
    -- the pages before `c`
    obtain ⟨a1, a2, a3⟩ := savePagesAt_allSame env mem2 blocks l pre s1 hl1 g3
      (fun x hx => hmatch x (Or.inl hx))
    have hlu : (s1.savePagesAt env mem2 pre).mIndex.layout
        = blocks.map (fun rb => (rb, rb.numPages)) := by
      rw [(savePagesAt_sameConfig env mem2 pre s1).layout]
      exact hl1
    have hlou : (s1.savePagesAt env mem2 pre).mLoader = some l := by
      rw [(savePagesAt_sameConfig env mem2 pre s1).loader]
      exact g3
    have hfu : (s1.savePagesAt env mem2 pre).mFlags = preferredFlags := by
      rw [(savePagesAt_sameConfig env mem2 pre s1).flags]
      exact g2
    -- page `c`
    obtain ⟨b1, b2, b3⟩ := savePageAt_nomatch env mem2 blocks l (s1.savePagesAt env mem2 pre) hlu
      hlou c rbc qc hcb hcj hqc1 (by rw [hqc3]; exact fun h => hh h.symm)
    have hlv : ((s1.savePagesAt env mem2 pre).savePageAt env mem2 c).mIndex.layout
        = blocks.map (fun rb => (rb, rb.numPages)) := by
      rw [(savePageAt_sameConfig env mem2 _ c).layout]
      exact hlu
    have hlov : ((s1.savePagesAt env mem2 pre).savePageAt env mem2 c).mLoader = some l := by
      rw [(savePageAt_sameConfig env mem2 _ c).loader]
      exact hlou
    -- the pages after `c`
    obtain ⟨c1, c2, c3⟩ := savePagesAt_allSame env mem2 blocks l post _ hlv hlov
      (fun x hx => hmatch x (Or.inr hx))
    have hfinal : s1.savePagesAt env mem2 (pageInfos blocks 0)
        = ((s1.savePagesAt env mem2 pre).savePageAt env mem2 c).savePagesAt env mem2 post := by
      rw [hsplit, savePagesAt_append]
      rfl
    refine ⟨_, hrun, ?_, ?_, ?_, fun he => absurd he hh⟩
    · intro x rb hb hj hxc
      rw [hfinal]
      have hxm := mem_pageInfos_zero blocks x rb hb hj
      rw [hsplit] at hxm
      rcases List.mem_append.1 hxm with h | h
      · exact c3 x (Or.inr (b3 x hxc (a3 x (Or.inl h))))
      · rcases List.mem_cons.1 h with h | h
        · exact absurd h hxc
        · exact c3 x (Or.inl h)
    · intro _ hz
      obtain ⟨d1, d2⟩ := b1 hz
      rw [hfinal, c1, c2, d1, d2, a1, a2, g6, g10, hfu]
      refine ⟨rfl, rfl, rfl, ?_⟩
      show 0 + pre.length + post.length = _
      omega
    · intro _ hz
      obtain ⟨d1, d2, p, hp1, hp2, hp3, hp4⟩ := b2 hz
      rw [hfinal, c1, c2, d1, d2, a1, a2, g6, g10]
      refine ⟨rfl, ⟨p, ?_, hp2, hp3, hp4⟩, rfl, rfl, ?_⟩
      · rw [savePagesAt_page?_other env mem2 post _ c hcpost]
        exact hp1
      · show 0 + pre.length + post.length = _
        omega

/-! ## C5: zero pages -/

theorem priorMatch_inv (s : RamSaver) (x : QueuedPageInfo) (hash : Hash) (prior : Int × Int)
    (h : s.priorMatch x hash = some prior) :
    ∃ l q, s.mLoader = some l ∧ l.index.page? x.blockIndex x.pageIndex = some q ∧
      q.hashFilled = true ∧ q.hash = hash ∧ prior = (q.filePos, q.sizeOnDisk) := by
  unfold RamSaver.priorMatch at h
  cases hlo : s.mLoader with
  | none => rw [hlo] at h; exact Option.noConfusion h
  | some l =>
    rw [hlo] at h
    dsimp only at h
    unfold RamLoader.hashForPage RamLoader.filePosForPage at h
    cases hq : l.index.page? x.blockIndex x.pageIndex with
    | none =>
      rw [hq] at h
      simp at h
    | some q =>
      rw [hq] at h
      dsimp only at h
      by_cases hc : q.hashFilled = true ∧ q.hash = hash
      · rw [if_pos hc] at h
        injection h with h
        exact ⟨l, q, rfl, hq, hc.1, hc.2, h.symm⟩
      · rw [if_neg hc] at h
        exact Option.noConfusion h

theorem priorMatch_none_of_noEntry (s : RamSaver) (x : QueuedPageInfo) (hash : Hash)
    (h : ∀ l q, s.mLoader = some l → l.index.page? x.blockIndex x.pageIndex = some q →
      q.hashFilled = true → q.hash ≠ hash) : s.priorMatch x hash = none := by
  cases hpm : s.priorMatch x hash with
  | none => rfl
  | some prior =>
    obtain ⟨l, q, k1, k2, k3, k4, _⟩ := priorMatch_inv s x hash prior hpm
    exact absurd k4 (h l q k1 k2 k3)

/-- C5, amended: zero-page compaction.  For a saver on which the blocks are
registered and every page whose bytes are all zero, `savePage` succeeds, queues
no `WriteInfo`, writes nothing and does not advance the payload position.  When
the prior snapshot has no valid entry for the page with the digest of the page
(so in every full save), the entry gets `sizeOnDisk == 0`, `zeroed()` is true and
`diskSize` is not advanced.  When the prior snapshot has such an entry, the page
is marked `same` and takes over that entry's `filePos` and `sizeOnDisk`, and
`diskSize` advances by that size: by 0, with `zeroed()` true, when that entry is
itself a zero page.  `Page::zeroed()` is true exactly when `sizeOnDisk == 0`. -/
theorem zero_page_compaction (env : Env) (mem : Nat → Nat) (blocks : List RamBlock) (s : RamSaver)
    (hl : s.mIndex.layout = blocks.map (fun rb => (rb, rb.numPages)))
    (hnd : (blocks.map (fun rb => rb.startOffset)).Nodup) (hc : s.mCompleted = false)
    (bi j : Nat) (rb : RamBlock) (hb : blocks[bi]? = some rb) (hj : j < rb.numPages)
    (hz : isZeroPage (pageBytes mem rb j) = true) (pageSize : Int) :
    (∃ t p, s.savePage env mem (rb.startOffset : Int) ((j * rb.pageSize : Nat) : Int) pageSize
        = some t ∧
      t.mIndex.page? bi j = some p ∧
      t.mWriter = s.mWriter ∧ t.mStream = s.mStream ∧
      t.mCurrentStreamPos = s.mCurrentStreamPos ∧
      t.mIncStats.changedPages = s.mIncStats.changedPages ∧
      t.mIncStats.bytesWritten = s.mIncStats.bytesWritten ∧
      ((∀ l q, s.mLoader = some l → l.index.page? bi j = some q → q.hashFilled = true →
          q.hash ≠ env.calcHash (pageBytes mem rb j)) →
        p.sizeOnDisk = 0 ∧ p.zeroed = true ∧ p.same = false ∧ t.diskSize = s.diskSize) ∧
      (∀ l q, s.mLoader = some l → l.index.page? bi j = some q → q.hashFilled = true →
          q.hash = env.calcHash (pageBytes mem rb j) →
        p.same = true ∧ p.filePos = q.filePos ∧ p.sizeOnDisk = q.sizeOnDisk ∧
        t.diskSize = s.diskSize + q.sizeOnDisk.toNat ∧
        (q.sizeOnDisk = 0 → p.sizeOnDisk = 0 ∧ p.zeroed = true ∧ t.diskSize = s.diskSize))) ∧
    (∀ p : Page, p.zeroed = true ↔ p.sizeOnDisk = 0) := by
  constructor
  · rw [savePage_ok env mem s blocks hl hnd hc bi j rb hb hj pageSize]
    obtain ⟨b, hb1, hb2, hb3⟩ := layout_getElem? s.mIndex blocks hl bi rb hb
    obtain ⟨p0, hp0⟩ := page?_some_of_layout s.mIndex blocks hl ⟨bi, j⟩ rb hb hj
    cases hpm : ({ s with mLastBlockIndex := (bi : Int) } : RamSaver).priorMatch ⟨bi, j⟩
        (env.calcHash (pageBytes mem b.ramBlock j)) with
    | some prior =>
      obtain ⟨l, q, k1, k2, k3, k4, k5⟩ := priorMatch_inv _ _ _ _ hpm
      have heq := handlePageSave_same_eq env mem { s with mLastBlockIndex := (bi : Int) } ⟨bi, j⟩ b
        prior hb1 hpm
      rw [heq]
      refine ⟨_, _, rfl, FileIndex.page?_setPage_same _ _ _ _ _ hp0, rfl, rfl, rfl, rfl, rfl, ?_,
        ?_⟩
      · intro hno
        exact absurd (by rw [k4, hb2]) (hno l q k1 k2 k3)
      · intro l2 q2 m1 m2 _ _
        have e1 : l2 = l := by
          have h := m1.symm.trans k1
          injection h
        subst e1
        have e2 : q2 = q := by
          have h := m2.symm.trans k2
          injection h
        subst e2
        refine ⟨rfl, ?_, ?_, ?_, ?_⟩
        · show prior.1 = q2.filePos
          rw [k5]
        · show prior.2 = q2.sizeOnDisk
          rw [k5]
        · show s.mDiskSize + prior.2.toNat = s.mDiskSize + q2.sizeOnDisk.toNat
          rw [k5]
        · intro hq0
          refine ⟨?_, ?_, ?_⟩
          · show prior.2 = 0
            rw [k5]
            exact hq0
          · show (prior.2 == 0) = true
            rw [k5]
            simp [hq0]
          · show s.mDiskSize + prior.2.toNat = s.mDiskSize
            rw [k5]
            simp [hq0]
    | none =>
      have hz2 : isZeroPage (pageBytes mem b.ramBlock j) = true := by rw [hb2]; exact hz
      have heq := handlePageSave_zero_eq env mem { s with mLastBlockIndex := (bi : Int) } ⟨bi, j⟩ b
        hb1 hpm hz2
      rw [heq]
      refine ⟨_, _, rfl, FileIndex.page?_setPage_same _ _ _ _ _ hp0, rfl, rfl, rfl, rfl, rfl, ?_,
        ?_⟩
      · intro _
        exact ⟨rfl, rfl, rfl, rfl⟩
      · intro l2 q2 m1 m2 m3 m4
        have hs := priorMatch_some ({ s with mLastBlockIndex := (bi : Int) } : RamSaver) l2
          ⟨bi, j⟩ q2 m1 m2 m3
        rw [m4, ← hb2, hpm] at hs
        exact Option.noConfusion hs
  · intro p
    unfold Page.zeroed
    simp

end Snapshot

namespace Snapshot

/-! ## C2: crash safety -/

end Snapshot

namespace Snapshot

/-! ## The reference collaborators satisfy the laws -/

theorem decInt_encInt (z : Int) (rest : List Nat) : decInt (encInt z ++ rest) = some (z, rest) := by
  unfold encInt
  by_cases h : z < 0
  · rw [if_pos h]
    simp only [List.cons_append, List.nil_append, decInt]
    have : ((-z).toNat : Int) = -z := Int.toNat_of_nonneg (by omega)
    simp [this]
  · rw [if_neg h]
    simp only [List.cons_append, List.nil_append, decInt]
    have : (z.toNat : Int) = z := Int.toNat_of_nonneg (by omega)
    simp [this]

theorem decBool_encBool (b : Bool) (rest : List Nat) :
    decBool (encBool b ++ rest) = some (b, rest) := by
  cases b <;> simp [encBool, decBool]

theorem decMany_encMany {α : Type} (enc : α → List Nat)
    (dec : List Nat → Option (α × List Nat))
    (h : ∀ a rest, dec (enc a ++ rest) = some (a, rest)) (l : List α) (rest : List Nat) :
    decMany dec l.length (encMany enc l ++ rest) = some (l, rest) := by
  induction l with
  | nil => rfl
  | cons a l ih =>
    simp only [List.length_cons, encMany, decMany, List.append_assoc, h, ih]

theorem decList_encList {α : Type} (enc : α → List Nat)
    (dec : List Nat → Option (α × List Nat))
    (h : ∀ a rest, dec (enc a ++ rest) = some (a, rest)) (l : List α) (rest : List Nat) :
    decList dec (encList enc l ++ rest) = some (l, rest) := by
  simp only [encList, List.cons_append, decList]
  exact decMany_encMany enc dec h l rest

theorem decPage_encPage (p : Page) (rest : List Nat) :
    decPage (encPage p ++ rest) = some (p, rest) := by
  simp only [encPage, decPage, List.append_assoc, decInt_encInt, decBool_encBool,
    decList_encList encInt decInt decInt_encInt]

theorem decChar_enc (c : Char) (rest : List Nat) :
    decChar ([c.toNat] ++ rest) = some (c, rest) := by
  simp [decChar, Char.ofNat_toNat]

theorem decRamBlock_encRamBlock (b : RamBlock) (rest : List Nat) :
    decRamBlock (encRamBlock b ++ rest) = some (b, rest) := by
  simp only [encRamBlock, decRamBlock, List.append_assoc,
    decList_encList (fun c : Char => [c.toNat]) decChar decChar_enc, List.cons_append,
    List.nil_append]

theorem decBlock_encBlock (b : Block) (rest : List Nat) :
    decBlock (encBlock b ++ rest) = some (b, rest) := by
  simp only [encBlock, decBlock, List.append_assoc, decRamBlock_encRamBlock,
    decList_encList encPage decPage decPage_encPage]

theorem decIndex_encIndex (idx : FileIndex) (rest : List Nat) :
    decIndex (encIndex idx ++ rest) = some { idx with startPosInFile := 0 } := by
  simp only [encIndex, decIndex, List.append_assoc, decInt_encInt,
    decList_encList encBlock decBlock decBlock_encBlock]

theorem refEnv_lawful : refEnv.Lawful :=
  ⟨decIndex_encIndex, fun _ => rfl, fun _ h => h⟩

end Snapshot

namespace Snapshot

/-! ## What a full save leaves in the file is a snapshot -/

end Snapshot

namespace Snapshot

/-! ## The statements at concrete inputs -/

theorem some_getD {α : Type} (x : Option α) (d : α) (h : x.isSome = true) :
    x = some (x.getD d) := by
  cases x with
  | none => simp at h
  | some a => rfl

theorem demoSave1_run : run refEnv (saveOps demoMem1 demoBlocks 50) demoStart = some demoSave1 :=
  some_getD _ _ (by decide)

theorem demo_describes :
    demoLoader = { index := demoSave1.mIndex } ∧
    Describes refEnv demoMem1 demoBlocks demoLoader.index := by
  obtain ⟨t, ht, hd, hl⟩ := save_general refEnv refEnv_lawful demoMem1 demoBlocks (by decide)
    File.reserved Flags.None none {} 10 50
  have e : t = demoSave1 := by
    have h := demoSave1_run
    unfold demoStart at h
    rw [ht] at h
    injection h
  rw [e] at hd hl
  have hl2 := hl (by decide)
  have e2 : demoLoader = { index := demoSave1.mIndex } := by
    unfold demoLoader
    rw [hl2]
    rfl
  rw [e2]
  exact ⟨rfl, hd⟩

/-- The full save of the small scenario reads back as the memory it saved. -/
theorem save_load_roundtrip_witness :
    loadRam refEnv demoSave1.mStream.file = some (ramContent demoMem1 demoBlocks) := by
  obtain ⟨t, ht, hload⟩ := save_load_roundtrip refEnv refEnv_lawful demoMem1 demoBlocks
    (by decide) File.reserved Flags.None {} 10 50
  have e : t = demoSave1 := by
    have h := demoSave1_run
    unfold demoStart at h
    rw [ht] at h
    injection h
  rw [← e]
  apply hload
  rw [e]
  decide

/-- The incremental save of the unchanged small scenario. -/
theorem incremental_noop_witness :
    demoSave2.mIncStats.changedPages = 0 ∧ demoSave2.mIncStats.bytesWritten = 0 ∧
    demoSave2.mIncStats.samePages = 6 ∧ demoSave2.mIndex.startPosInFile = 101 := by
  obtain ⟨t2, t, _, _, h3, _, h5, h6, h7, h8⟩ := incremental_noop refEnv demoMem1 demoBlocks
    (by decide) demoLoader demo_describes.2 demoSave1.mStream.file Flags.None {}
    (fun n => if n = 1 then some 1 else none) 60 70
  have e : demoSave2 = t := by
    unfold demoSave2 demoStart2
    rw [h3]
    rfl
  rw [e]
  refine ⟨h5, h6, ?_, ?_⟩
  · rw [h7]
    decide
  · rw [h8]
    decide

theorem isZeroPage_false_of_getElem? (bytes : List Nat) (i v : Nat) (h : bytes[i]? = some v)
    (hv : v ≠ 0) : isZeroPage bytes = false := by
  unfold isZeroPage
  rw [List.all_eq_false]
  exact ⟨v, List.getElem?_mem h, by simpa using hv⟩

theorem scenario_describes : Describes refEnv scenarioMem1 scenarioBlocks scenarioLoader.index := by
  obtain ⟨t, ht, hd, _⟩ := save_general refEnv refEnv_lawful scenarioMem1 scenarioBlocks
    (by decide) File.reserved Flags.None none {} 10 50
  have e : scenarioSave1 = t := by
    unfold scenarioSave1 demoStart
    rw [ht]
    rfl
  unfold scenarioLoader
  rw [e]
  exact hd

theorem scenario_unchanged (x : QueuedPageInfo) (rb : RamBlock)
    (hb : scenarioBlocks[x.blockIndex]? = some rb) (hj : x.pageIndex < rb.numPages)
    (hx : x ≠ { blockIndex := 0, pageIndex := 1 }) :
    pageBytes scenarioMem2 rb x.pageIndex = pageBytes scenarioMem1 rb x.pageIndex := by
  obtain ⟨bi, pi⟩ := x
  have hne : ∀ k, k < rb.pageSize →
      (rb.hostPtr + pi * rb.pageSize + k) / 4096 ≠ 1 := by
    intro k hk
    match bi, hb with
    | 0, hb =>
      simp only [scenarioBlocks, List.getElem?_cons_zero, Option.some.injEq] at hb
      subst hb
      have hpi : pi ≠ 1 := by
        intro h
        apply hx
        rw [h]
      simp only [scenarioA] at hk ⊢
      omega
    | 1, hb =>
      simp only [scenarioBlocks, List.getElem?_cons_succ, List.getElem?_cons_zero,
        Option.some.injEq] at hb
      subst hb
      simp only [scenarioB] at hk ⊢
      omega
    | n + 2, hb =>
      simp [scenarioBlocks] at hb
  unfold pageBytes
  apply List.map_congr_left
  intro k hk
  rw [List.mem_range] at hk
  simp only [scenarioMem1, scenarioMem2, if_neg (hne k hk)]

theorem refEnv_hash_head (bytes : List Nat) (v : Nat) (h : bytes[0]? = some v) :
    (refEnv.calcHash bytes)[0]? = some (v : Int) := by
  show ((bytes.take 16).map Int.ofNat)[0]? = some (v : Int)
  rw [List.getElem?_map, List.getElem?_take]
  simp [h]

theorem scenario_head (mem : Nat → Nat) :
    (pageBytes mem scenarioA 1)[0]? = some (mem 4096) := by
  unfold pageBytes
  rw [List.getElem?_map, List.getElem?_range (by decide)]
  rfl

/-- C4 at the spec's scenario (blocks of 4 and 2 pages of 4096 bytes, only
A.page[1] changed to data4): exactly one payload write is queued and five pages
are counted as same. -/
theorem single_change_witness :
    scenarioSave2.mWriter.length = 1 ∧ scenarioSave2.mIncStats.changedPages = 1 ∧
    scenarioSave2.mIncStats.samePages = 5 := by
  have hhash : refEnv.calcHash (pageBytes scenarioMem2 scenarioA 1)
      ≠ refEnv.calcHash (pageBytes scenarioMem1 scenarioA 1) := by
    intro h
    have h2 : (refEnv.calcHash (pageBytes scenarioMem2 scenarioA 1))[0]?
        = (refEnv.calcHash (pageBytes scenarioMem1 scenarioA 1))[0]? := by rw [h]
    rw [refEnv_hash_head _ _ (scenario_head scenarioMem2),
      refEnv_hash_head _ _ (scenario_head scenarioMem1)] at h2
    revert h2
    decide
  have hz : isZeroPage (pageBytes scenarioMem2 scenarioA 1) = false :=
    isZeroPage_false_of_getElem? _ 0 _ (scenario_head scenarioMem2) (by decide)
  obtain ⟨t2, h1, _, h3, _, _⟩ := single_change refEnv scenarioMem1 scenarioMem2 scenarioBlocks
    (by decide) scenarioLoader scenario_describes { blockIndex := 0, pageIndex := 1 } scenarioA rfl
    (by decide) scenario_unchanged scenarioSave1.mStream.file Flags.None {}
    (fun _ => none) 60
  obtain ⟨k1, k2, _, k4⟩ := h3 hhash hz
  have e : scenarioSave2 = t2 := by
    unfold scenarioSave2 scenarioStart2
    rw [h1]
    rfl
  rw [e, k1, k2, k4]
  refine ⟨rfl, rfl, ?_⟩
  decide

theorem collSave1_run : run refEnv (saveOps collMem0 [collBlock] 50) demoStart = some collSave1 :=
  some_getD _ _ (by decide)

theorem collLoader_create : RamLoader.create refEnv collSave1.mStream.file = some collLoader :=
  some_getD _ _ (by decide)

theorem collRegistered_run :
    run refEnv [Op.registerBlock collBlock]
      (RamSaver.create collSave1.mStream.file Flags.None (some collLoader) {} (fun _ => none) 60)
      = some collRegistered :=
  some_getD _ _ (by decide)

/-- C4 as stated fails, in two ways.  In the small scenario exactly the content
of page 1 of block A changes between the two saves (from `[7, 0]` to all zero),
and the incremental save queues no payload write at all, not one.  And in the
scenario of one page of 17 bytes exactly the last byte of the page changes (from
5 to 6), the digest of the page stays the same, and the incremental save queues
no payload write at all and counts the page as same. -/
theorem single_change_counterexample :
    (run refEnv (saveOps demoMem1 demoBlocks 50) demoStart = some demoSave1 ∧
      RamLoader.create refEnv demoSave1.mStream.file = some demoLoader ∧
      ramContent demoMem1 demoBlocks = [[[0, 0], [7, 0], [0, 9], [0, 0]], [[3, 0], [0, 0]]] ∧
      ramContent demoMemZero demoBlocks = [[[0, 0], [0, 0], [0, 9], [0, 0]], [[3, 0], [0, 0]]] ∧
      (run refEnv (demoBlocks.map Op.registerBlock ++ savePageOps demoMemZero demoBlocks)
        demoStart2).map (fun t => (t.mWriter, t.mIncStats.changedPages)) = some ([], 0)) ∧
    (run refEnv (saveOps collMem0 [collBlock] 50) demoStart = some collSave1 ∧
      RamLoader.create refEnv collSave1.mStream.file = some collLoader ∧
      ramContent collMem0 [collBlock] = [[[0, 0, 0, 0, 0, 0, 0, 0, 0, 0, 0, 0, 0, 0, 0, 0, 5]]] ∧
      ramContent collMem1 [collBlock] = [[[0, 0, 0, 0, 0, 0, 0, 0, 0, 0, 0, 0, 0, 0, 0, 0, 6]]] ∧
      refEnv.calcHash (pageBytes collMem1 collBlock 0)
        = refEnv.calcHash (pageBytes collMem0 collBlock 0) ∧
      (run refEnv ([collBlock].map Op.registerBlock ++ savePageOps collMem1 [collBlock])
        (RamSaver.create collSave1.mStream.file Flags.None (some collLoader) {} (fun _ => none)
          60)).map (fun t => (t.mWriter, t.mIncStats.changedPages, t.mIncStats.samePages))
        = some ([], 0, 1)) := by
  refine ⟨⟨some_getD _ _ (by decide), some_getD _ _ (by decide), by decide, by decide, by decide⟩,
    collSave1_run, collLoader_create, by decide, by decide, by decide, by decide⟩

/-- C5 as stated fails: in the scenario of one page of 17 bytes the prior
snapshot stores the page, 16 zero bytes and the byte 5, in 17 bytes; in the
incremental save the page is all zero, its digest is the one of the prior entry,
and `savePage` leaves the entry marked same with `sizeOnDisk == 17`, so that
`zeroed()` is false, and advances `diskSize` from 0 to 17. -/
theorem zero_page_compaction_counterexample :
    run refEnv (saveOps collMem0 [collBlock] 50) demoStart = some collSave1 ∧
    RamLoader.create refEnv collSave1.mStream.file = some collLoader ∧
    run refEnv [Op.registerBlock collBlock]
      (RamSaver.create collSave1.mStream.file Flags.None (some collLoader) {} (fun _ => none) 60)
      = some collRegistered ∧
    pageBytes collMemZero collBlock 0 = List.replicate 17 0 ∧
    isZeroPage (pageBytes collMemZero collBlock 0) = true ∧
    collRegistered.savePage refEnv collMemZero 0 0 17 = some collSavedZero ∧
    (collSavedZero.mIndex.page? 0 0).map (fun p => (p.sizeOnDisk, p.zeroed, p.same))
      = some (17, false, true) ∧
    collRegistered.diskSize = 0 ∧ collSavedZero.diskSize = 17 :=
  ⟨collSave1_run, collLoader_create, collRegistered_run, by decide, by decide,
    some_getD _ _ (by decide), by decide, by decide, by decide⟩

theorem demoRegistered2_run :
    run refEnv (demoBlocks.map Op.registerBlock) demoStart2 = some demoRegistered2 :=
  some_getD _ _ (by decide)

theorem demoRegistered2_loader : demoRegistered2.mLoader = some demoLoader := by
  have hr := demoRegistered2_run
  obtain ⟨s1, hs1, _, _, _, g3, _⟩ := run_save_prefix refEnv demoMem1 demoBlocks (by decide)
    demoSave1.mStream.file Flags.None (some demoLoader) {}
    (fun n => if n = 1 then some 1 else none) 60
  unfold demoStart2 at hr
  rw [hs1] at hr
  injection hr with hr
  rw [← hr]
  exact g3

/-- C5 at page 0 of block A of the small scenario, in the incremental save: the
prior entry of the page is a zero-page entry with the digest of the page, and
`savePage` leaves the entry marked same with `sizeOnDisk == 0`, queues nothing
and advances neither the position nor `diskSize`. -/
theorem zero_page_compaction_witness :
    ∃ t p, demoRegistered2.savePage refEnv demoMem1 (demoA.startOffset : Int)
        ((0 * demoA.pageSize : Nat) : Int) 2 = some t ∧
      t.mIndex.page? 0 0 = some p ∧ p.same = true ∧ p.sizeOnDisk = 0 ∧ p.zeroed = true ∧
      t.mWriter = demoRegistered2.mWriter ∧ t.mStream = demoRegistered2.mStream ∧
      t.mCurrentStreamPos = demoRegistered2.mCurrentStreamPos ∧
      t.diskSize = demoRegistered2.diskSize := by
  obtain ⟨t, p, h1, h2, h3, h4, h5, _, _, _, h9⟩ :=
    (zero_page_compaction refEnv demoMem1 demoBlocks demoRegistered2 (by decide) (by decide)
      (by decide) 0 0 demoA rfl (by decide) (by decide) 2).1
  have e2 : demoLoader.index.page? 0 0
      = some { sizeOnDisk := 0, same := false, hashFilled := true, filePos := 0,
               hash := [0, 0] } := by decide
  obtain ⟨k1, _, _, _, k5⟩ := h9 demoLoader _ demoRegistered2_loader e2 rfl (by decide)
  obtain ⟨m1, m2, m3⟩ := k5 rfl
  exact ⟨t, p, h1, h2, k1, m1, m2, h3, h4, h5, m3⟩

/-- C6 at the full save of the small scenario. -/
theorem index_complete_witness :
    demoSave1.mIndex.totalPages
      = (((demoSave1.mIndex.blocks.map (fun b => b.pages.length)).sum : Nat) : Int) ∧
    (∀ b ∈ demoSave1.mIndex.blocks, b.pages.length = b.ramBlock.totalSize / b.ramBlock.pageSize) ∧
    demoSave1.mIndex.blocks.map (fun b => b.ramBlock)
      = (saveOps demoMem1 demoBlocks 50).filterMap Op.registered :=
  index_complete refEnv File.reserved Flags.None none {} (fun _ => none) 10
    (saveOps demoMem1 demoBlocks 50) demoSave1 demoSave1_run

/-- C7 at a saver whose only write call has failed: the flag survives `complete`
and `join`. -/
theorem hasError_sticky_witness : ((demoFailed.complete refEnv 5).join).hasError = true :=
  hasError_sticky refEnv [Op.complete 5, Op.join] demoFailed _ rfl (by decide)

/-- C10 at flag words 5 (bit 0 set) and the empty flags of a new saver. -/
theorem compressed_spec_witness :
    ({ demoStart with mIndex := { flags := 5 } } : RamSaver).compressed (2 ^ 0) = true ∧
    demoStart.compressed 1 = false :=
  ⟨(compressed_spec { demoStart with mIndex := { flags := 5 } } 0).1.2 (by decide),
   (compressed_spec demoStart 0).2.2.1 1 rfl⟩

end Snapshot

namespace Snapshot

/-! ## Compression buffers (C11) and their pool (C12) -/

theorem makeWriteInfo_ptr_compress (env : Env) (s : RamSaver) (pi : QueuedPageInfo)
    (bytes : List Nat) (hc : Flags.hasCompress s.mFlags = true) :
    (s.makeWriteInfo env pi bytes).ptr = env.compress bytes := by
  unfold RamSaver.makeWriteInfo
  simp [hc]

/-- A page size of 8192 bytes: the capacity of a buffer, 4128 bytes for the
default page size 4096, is below the worst-case bound 8240 of the page, and
below the 8192 bytes the reference compressor produces for it. -/
theorem compressBuffer_counterexample :
    CompressBuffer.capacity demoMaxCompressedSize demoDefaultPageSize = 4128 ∧
    demoMaxCompressedSize 8192 = 8240 ∧
    CompressBuffer.capacity demoMaxCompressedSize demoDefaultPageSize
      < demoMaxCompressedSize 8192 ∧
    CompressBuffer.capacity demoMaxCompressedSize demoDefaultPageSize
      < (refEnv.compress (List.replicate 8192 1)).length := by
  refine ⟨by decide, by decide, by decide, ?_⟩
  show 4128 < (List.replicate 8192 1).length
  rw [List.length_replicate]
  decide

/-- C11 (amended): the capacity of a `CompressBuffer` is
`maxCompressedSize(kDefaultPageSize)` whatever page size is passed to
`savePage`.  For a monotone bound and every page size up to `kDefaultPageSize`
it is at least `maxCompressedSize(pageSize)`, and the compressed bytes the saver
queues for such a page fit in one buffer when the compressor keeps to its
bound.  For a bound that is at least the input size (as the bound of a lossless
compressor is) and every page size above the capacity, the capacity is below
`maxCompressedSize(pageSize)`. -/
theorem compressBuffer_capacity (maxCompressedSize : Nat → Nat) (kDefaultPageSize pageSize : Nat)
    (hmono : Monotone maxCompressedSize) (hle : pageSize ≤ kDefaultPageSize) :
    maxCompressedSize pageSize ≤ CompressBuffer.capacity maxCompressedSize kDefaultPageSize ∧
    (∀ (env : Env) (s : RamSaver) (pi : QueuedPageInfo) (bytes : List Nat),
      (∀ bs, (env.compress bs).length ≤ maxCompressedSize bs.length) →
      Flags.hasCompress s.mFlags = true → bytes.length = pageSize →
      (s.makeWriteInfo env pi bytes).ptr.length
        ≤ CompressBuffer.capacity maxCompressedSize kDefaultPageSize) ∧
    ((∀ n, n ≤ maxCompressedSize n) → ∀ larger,
      CompressBuffer.capacity maxCompressedSize kDefaultPageSize < larger →
      CompressBuffer.capacity maxCompressedSize kDefaultPageSize < maxCompressedSize larger) := by
  refine ⟨hmono hle, ?_, ?_⟩
  · intro env s pi bytes hb hc hlen
    rw [makeWriteInfo_ptr_compress env s pi bytes hc]
    have h1 := hb bytes
    rw [hlen] at h1
    exact Nat.le_trans h1 (hmono hle)
  · intro hb larger hl
    exact Nat.lt_of_lt_of_le hl (hb larger)

theorem demoMaxCompressedSize_mono : Monotone demoMaxCompressedSize := by
  intro a b hab
  unfold demoMaxCompressedSize
  have := Nat.div_le_div_right (c := 255) hab
  omega

/-- A page of 2048 bytes against buffers for the default page size 4096. -/
theorem compressBuffer_capacity_witness :
    demoMaxCompressedSize 2048
      ≤ CompressBuffer.capacity demoMaxCompressedSize demoDefaultPageSize :=
  (compressBuffer_capacity demoMaxCompressedSize demoDefaultPageSize 2048
    demoMaxCompressedSize_mono (by decide)).1

theorem BufferPipeline.step_inv (p q : BufferPipeline) (op : PoolOp)
    (hstep : p.step op = some q)
    (hinv : p.leased = p.compressing + p.queued ∧ p.leased ≤ FastReleasePool.size
      ∧ p.compressing ≤ p.workers) :
    q.workers = p.workers ∧ q.leased = q.compressing + q.queued
      ∧ q.leased ≤ FastReleasePool.size ∧ q.compressing ≤ q.workers := by
  obtain ⟨h1, h2, h3⟩ := hinv
  cases op with
  | acquire =>
    simp only [BufferPipeline.step] at hstep
    split at hstep
    · split at hstep
      · injection hstep with hstep
        subst hstep
        refine ⟨rfl, ?_, ?_, ?_⟩
        · show p.leased + 1 = p.compressing + 1 + p.queued
          omega
        · show p.leased + 1 ≤ FastReleasePool.size
          omega
        · show p.compressing + 1 ≤ p.workers
          omega
      · exact Option.noConfusion hstep
    · injection hstep with hstep
      subst hstep
      exact ⟨rfl, h1, h2, h3⟩
  | enqueue =>
    simp only [BufferPipeline.step] at hstep
    split at hstep
    · injection hstep with hstep
      subst hstep
      refine ⟨rfl, ?_, h2, ?_⟩
      · show p.leased = p.compressing - 1 + (p.queued + 1)
        omega
      · show p.compressing - 1 ≤ p.workers
        omega
    · injection hstep with hstep
      subst hstep
      exact ⟨rfl, h1, h2, h3⟩
  | write =>
    simp only [BufferPipeline.step] at hstep
    split at hstep
    · injection hstep with hstep
      subst hstep
      refine ⟨rfl, ?_, ?_, h3⟩
      · show p.leased - 1 = p.compressing + (p.queued - 1)
        omega
      · show p.leased - 1 ≤ FastReleasePool.size
        omega
    · injection hstep with hstep
      subst hstep
      exact ⟨rfl, h1, h2, h3⟩

theorem BufferPipeline.run_inv (ops : List PoolOp) (p q : BufferPipeline)
    (hrun : BufferPipeline.run ops p = some q)
    (hinv : p.leased = p.compressing + p.queued ∧ p.leased ≤ FastReleasePool.size
      ∧ p.compressing ≤ p.workers) :
    q.workers = p.workers ∧ q.leased = q.compressing + q.queued
      ∧ q.leased ≤ FastReleasePool.size ∧ q.compressing ≤ q.workers := by
  induction ops generalizing p with
  | nil =>
    simp only [BufferPipeline.run] at hrun
    injection hrun with hrun
    subst hrun
    exact ⟨rfl, hinv⟩
  | cons op ops ih =>
    simp only [BufferPipeline.run] at hrun
    cases hstep : p.step op with
    | none => rw [hstep] at hrun; exact Option.noConfusion hrun
    | some r =>
      rw [hstep] at hrun
      obtain ⟨a0, a1, a2, a3⟩ := BufferPipeline.step_inv p r op hstep hinv
      obtain ⟨b0, b⟩ := ih r hrun ⟨a1, a2, a3⟩
      exact ⟨b0.trans a0, b⟩

/-- A worker that compresses `n` pages in a row, with enough free buffers. -/
theorem BufferPipeline.run_compressPages (n : Nat) (rest : List PoolOp) (p : BufferPipeline)
    (h0 : p.compressing = 0) (hw : 0 < p.workers) (hl : p.leased + n ≤ FastReleasePool.size) :
    BufferPipeline.run (compressPages n ++ rest) p
      = BufferPipeline.run rest { p with queued := p.queued + n, leased := p.leased + n } := by
  induction n generalizing p with
  | zero => rfl
  | succ n ih =>
    have e1 : p.step PoolOp.acquire
        = some { p with compressing := p.compressing + 1, leased := p.leased + 1 } := by
      simp only [BufferPipeline.step]
      rw [if_pos (by omega), if_pos (by omega)]
    have e2 : ({ p with compressing := p.compressing + 1, leased := p.leased + 1 }
        : BufferPipeline).step PoolOp.enqueue
        = some { p with queued := p.queued + 1, leased := p.leased + 1 } := by
      simp only [BufferPipeline.step]
      rw [if_pos (by show 0 < p.compressing + 1; omega)]
      simp [h0]
    show BufferPipeline.run (PoolOp.acquire :: PoolOp.enqueue :: (compressPages n ++ rest)) p = _
    simp only [BufferPipeline.run, e1, e2]
    have e3 := ih { p with queued := p.queued + 1, leased := p.leased + 1 } h0 hw
      (by show p.leased + 1 + n ≤ FastReleasePool.size; omega)
    rw [e3]
    congr 1
    simp only [BufferPipeline.mk.injEq]
    refine ⟨trivial, trivial, ?_, ?_⟩
    · show p.queued + 1 + n = p.queued + (n + 1)
      omega
    · show p.leased + 1 + n = p.leased + (n + 1)
      omega

/-- With 4 workers the pool holds 128 buffers, not 4; and with 128 workers, as
many as the pool has buffers, a worker that compresses 128 pages while the
writer has written none of them finds the pool exhausted at the next page. -/
theorem pool_counterexample :
    FastReleasePool.size = 128 ∧ FastReleasePool.size ≠ workerCount 4 ∧
    (BufferPipeline.start 128).workers = FastReleasePool.size ∧
    BufferPipeline.run (compressPages 128 ++ [PoolOp.acquire]) (BufferPipeline.start 128)
      = none := by
  refine ⟨rfl, by decide, rfl, ?_⟩
  rw [BufferPipeline.run_compressPages 128 _ _ rfl (by decide) (by decide)]
  rfl

/-- C12 (amended): the pool holds `kCompressBufferCount = 128` buffers whatever
the number of compression workers.  After any sequence of pool events in which
no acquisition found the pool exhausted, the buffers leased are those of the
workers compressing plus those of the compressed pages waiting for the writer,
at most 128; an acquisition finds a free buffer whenever the workers and the
pages waiting for the writer are together at most 128, and it finds the pool
exhausted exactly when an idle worker asks while 128 buffers are out. -/
theorem pool_accounting (hardwareConcurrency : Nat) (ops : List PoolOp) (p : BufferPipeline)
    (hrun : BufferPipeline.run ops (BufferPipeline.start hardwareConcurrency) = some p) :
    FastReleasePool.size = 128 ∧
    p.workers = workerCount hardwareConcurrency ∧
    p.leased = p.compressing + p.queued ∧
    p.leased ≤ FastReleasePool.size ∧
    p.compressing ≤ p.workers ∧
    (p.workers + p.queued ≤ FastReleasePool.size → ∃ q, p.step PoolOp.acquire = some q) ∧
    (p.step PoolOp.acquire = none ↔
      p.compressing < p.workers ∧ p.compressing + p.queued = FastReleasePool.size) := by
  obtain ⟨h0, h1, h2, h3⟩ := BufferPipeline.run_inv ops _ p hrun
    ⟨rfl, Nat.zero_le _, Nat.zero_le _⟩
  refine ⟨rfl, h0, h1, h2, h3, ?_, ?_⟩
  · intro hsum
    simp only [BufferPipeline.step]
    split
    · rw [if_pos (by omega)]
      exact ⟨_, rfl⟩
    · exact ⟨_, rfl⟩
  · simp only [BufferPipeline.step]
    constructor
    · intro h
      split at h
      · split at h
        · exact Option.noConfusion h
        · refine ⟨by assumption, ?_⟩
          omega
      · exact Option.noConfusion h
    · rintro ⟨ha, hb⟩
      rw [if_pos ha, if_neg (by omega)]

/-- Four workers after three pages have been compressed and none written. -/
theorem pool_accounting_witness :
    BufferPipeline.run (compressPages 3) (BufferPipeline.start 4)
      = some { workers := 4, compressing := 0, queued := 3, leased := 3 } ∧
    ∃ q, ({ workers := 4, compressing := 0, queued := 3, leased := 3 } : BufferPipeline).step
      PoolOp.acquire = some q :=
  ⟨rfl, (pool_accounting 4 (compressPages 3)
    { workers := 4, compressing := 0, queued := 3, leased := 3 } rfl).2.2.2.2.2.1 (by decide)⟩

end Snapshot

namespace QemuThread

/-! ## The state machine of `QemuEvent` (C14 to C17) -/

theorem toUnsigned_SET : toUnsigned EV_SET = 0 := by decide

theorem toUnsigned_FREE : toUnsigned EV_FREE = 1 := by decide

theorem toUnsigned_BUSY : toUnsigned EV_BUSY = 4294967295 := by decide

theorem or_FREE_values : (0 ||| 1 = 1) ∧ (1 ||| 1 = 1) ∧ (4294967295 ||| 1 = 4294967295) := by
  decide

theorem valid_iff (v : Nat) : Valid v ↔ v = 0 ∨ v = 1 ∨ v = 4294967295 := by
  unfold Valid
  rw [toUnsigned_SET, toUnsigned_FREE, toUnsigned_BUSY]

theorem transition_iff (v w : Nat) :
    Transition v w ↔ (v = 1 ∧ w = 0) ∨ (v = 4294967295 ∧ w = 0) ∨ (v = 0 ∧ w = 1)
      ∨ (v = 1 ∧ w = 4294967295) := by
  unfold Transition
  rw [toUnsigned_SET, toUnsigned_FREE, toUnsigned_BUSY]

/-- A step of a thread keeps `initialized`, keeps the value among the three,
and changes it along a valid transition if at all. -/
theorem Pc.step_value (tid : Nat) (ev : QemuEvent) (pc : Pc) (hv : Valid ev.value) :
    (pc.step tid ev).1.initialized = ev.initialized ∧
    Valid (pc.step tid ev).1.value ∧
    ((pc.step tid ev).1.value = ev.value ∨ Transition ev.value (pc.step tid ev).1.value) := by
  rw [valid_iff] at hv
  rw [valid_iff, transition_iff]
  obtain ⟨h1, h2, h3⟩ := or_FREE_values
  rcases hv with h | h | h <;> cases pc <;>
    simp [Pc.step, qemu_event_set, qemu_event_reset, qemu_event_wait, h, toUnsigned_SET, toUnsigned_FREE, toUnsigned_BUSY, h1, h2, h3]

/-- An action on an initialised event with a valid value succeeds and keeps
both; the value changes along a valid transition if at all. -/
theorem System.exec_valid (s : System) (a : Action) (hi : s.ev.initialized = true)
    (hv : Valid s.ev.value) :
    ∃ t, s.exec a = some t ∧ t.ev.initialized = true ∧ Valid t.ev.value ∧
      (t.ev.value = s.ev.value ∨ Transition s.ev.value t.ev.value) := by
  cases a with
  | call f =>
    refine ⟨{ s with threads := s.threads ++ [f.entry] }, ?_, hi, hv, Or.inl rfl⟩
    simp [System.exec, hi]
  | step tid =>
    cases hpc : s.threads[tid]? with
    | none =>
      refine ⟨s, ?_, hi, hv, Or.inl rfl⟩
      simp [System.exec, hi, hpc]
    | some pc =>
      obtain ⟨g1, g2, g3⟩ := Pc.step_value tid s.ev pc hv
      refine ⟨{ ev := (pc.step tid s.ev).1
                threads := (if pc = Pc.setWake then qemu_futex_wake INT_MAX s.threads
                  else s.threads).set tid (pc.step tid s.ev).2.1
                log := s.log ++ (pc.step tid s.ev).2.2.toList }, ?_, ?_, g2, g3⟩
      · simp only [System.exec, hi, hpc, if_true]
      · show (pc.step tid s.ev).1.initialized = true
        rw [g1, hi]

theorem System.run_valid (sched : List Action) (s : System) (hi : s.ev.initialized = true)
    (hv : Valid s.ev.value) :
    ∃ t, System.run sched s = some t ∧ t.ev.initialized = true ∧ Valid t.ev.value := by
  induction sched generalizing s with
  | nil => exact ⟨s, rfl, hi, hv⟩
  | cons a rest ih =>
    obtain ⟨u, hu, hui, huv, _⟩ := System.exec_valid s a hi hv
    obtain ⟨t, ht, hti, htv⟩ := ih u hui huv
    exact ⟨t, by simp only [System.run, hu, ht], hti, htv⟩

theorem start_valid (init : Bool) :
    (System.start init).ev.initialized = true ∧ Valid (System.start init).ev.value := by
  refine ⟨rfl, ?_⟩
  cases init
  · exact Or.inr (Or.inl rfl)
  · exact Or.inl rfl

/-- C14: `qemu_event_init` starts the value at `EV_SET` when `init` is true and
at `EV_FREE` otherwise.  With every atomic access of `qemu_event_set`,
`qemu_event_reset` and `qemu_event_wait` as one step and the steps of any number
of callers interleaved in any order, every schedule runs, the value it reaches
is one of `EV_SET`, `EV_FREE`, `EV_BUSY`, and every step from there leaves the
value unchanged or performs one of free->set, busy->set, set->free,
free->busy. -/
theorem event_transitions (init : Bool) (sched : List Action) :
    (System.start init).ev.value = toUnsigned (if init then EV_SET else EV_FREE) ∧
    ∃ s, System.run sched (System.start init) = some s ∧ Valid s.ev.value ∧
      ∀ a, ∃ t, s.exec a = some t ∧ Valid t.ev.value ∧
        (t.ev.value = s.ev.value ∨ Transition s.ev.value t.ev.value) := by
  refine ⟨rfl, ?_⟩
  obtain ⟨h1, h2⟩ := start_valid init
  obtain ⟨s, hs, hsi, hsv⟩ := System.run_valid sched _ h1 h2
  refine ⟨s, hs, hsv, ?_⟩
  intro a
  obtain ⟨t, ht, _, htv, htr⟩ := System.exec_valid s a hsi hsv
  exact ⟨t, ht, htv, htr⟩

end QemuThread

namespace QemuThread

theorem System.exec_step_some (s : System) (tid : Nat) (pc : Pc)
    (hi : s.ev.initialized = true) (hpc : s.threads[tid]? = some pc) :
    s.exec (Action.step tid) = some
      { ev := (pc.step tid s.ev).1
        threads := (if pc = Pc.setWake then qemu_futex_wake INT_MAX s.threads
          else s.threads).set tid (pc.step tid s.ev).2.1
        log := s.log ++ (pc.step tid s.ev).2.2.toList } := by
  simp only [System.exec, hi, hpc, if_true]

/-- A step never takes the value from `EV_BUSY` to `EV_FREE`. -/
theorem Pc.step_not_busy_free (tid : Nat) (ev : QemuEvent) (pc : Pc)
    (hb : ev.value = toUnsigned EV_BUSY) : (pc.step tid ev).1.value ≠ toUnsigned EV_FREE := by
  rw [toUnsigned_BUSY] at hb
  obtain ⟨_, _, h3⟩ := or_FREE_values
  cases pc <;> simp [Pc.step, qemu_event_set, qemu_event_reset, qemu_event_wait, hb, toUnsigned_SET, toUnsigned_FREE, toUnsigned_BUSY, h3]

/-- C15: busy->free never happens.  `qemu_event_reset` reads the value and, if it
read `EV_SET`, does an atomic OR with `EV_FREE`, its only write; the OR maps
`EV_SET` to `EV_FREE` and leaves `EV_FREE` and `EV_BUSY` (the word 0xFFFFFFFF) as
they are.  So whatever the value has become between the read and the OR, and
for every function, no step takes the event from `EV_BUSY` to `EV_FREE`. -/
theorem busy_never_free :
    (toUnsigned EV_SET ||| toUnsigned EV_FREE = toUnsigned EV_FREE ∧
      toUnsigned EV_FREE ||| toUnsigned EV_FREE = toUnsigned EV_FREE ∧
      toUnsigned EV_BUSY ||| toUnsigned EV_FREE = toUnsigned EV_BUSY) ∧
    (Fn.reset.entry = Pc.resetRead ∧
      ∀ (tid : Nat) (ev : QemuEvent),
        (qemu_event_reset tid ev Pc.resetRead).1 = ev ∧
        ((qemu_event_reset tid ev Pc.resetRead).2.1 = Pc.resetOr ∨
          (qemu_event_reset tid ev Pc.resetRead).2.1 = Pc.returned) ∧
        (qemu_event_reset tid ev Pc.resetOr).1.value = ev.value ||| toUnsigned EV_FREE ∧
        (qemu_event_reset tid ev Pc.resetOr).2.1 = Pc.returned) ∧
    (∀ (s t : System) (a : Action), s.exec a = some t →
      s.ev.value = toUnsigned EV_BUSY → t.ev.value ≠ toUnsigned EV_FREE) := by
  refine ⟨by decide, ⟨rfl, ?_⟩, ?_⟩
  · intro tid ev
    refine ⟨rfl, ?_, rfl, rfl⟩
    simp only [Pc.step, qemu_event_set, qemu_event_reset, qemu_event_wait]
    split
    · exact Or.inl rfl
    · exact Or.inr rfl
  · intro s t a hexec hb
    have hne : toUnsigned EV_BUSY ≠ toUnsigned EV_FREE := by decide
    cases a with
    | call f =>
      simp only [System.exec] at hexec
      split at hexec
      · injection hexec with hexec
        subst hexec
        show s.ev.value ≠ _
        rw [hb]
        exact hne
      · exact Option.noConfusion hexec
    | step tid =>
      simp only [System.exec] at hexec
      split at hexec
      · cases hpc : s.threads[tid]? with
        | none =>
          rw [hpc] at hexec
          injection hexec with hexec
          subst hexec
          rw [hb]
          exact hne
        | some pc =>
          rw [hpc] at hexec
          injection hexec with hexec
          subst hexec
          exact Pc.step_not_busy_free tid s.ev pc hb
      · exact Option.noConfusion hexec

/-- A reset reads `EV_SET`; before its OR another reset frees the event and a
waiter makes it busy; the OR then leaves the value at `EV_BUSY`. -/
theorem busy_never_free_witness :
    System.run [Action.call Fn.reset, Action.step 0, Action.call Fn.reset, Action.step 1,
        Action.step 1, Action.call Fn.wait, Action.step 2, Action.step 2] (System.start true)
      = some { ev := { value := toUnsigned EV_BUSY, initialized := true }
               threads := [Pc.resetOr, Pc.returned, Pc.waitFutex]
               log := [Effect.read 0 0, Effect.read 1 0, Effect.or 1 0 1, Effect.read 2 1,
                 Effect.cmpxchg 2 1 1 4294967295] } ∧
    (qemu_event_reset 0 { value := toUnsigned EV_BUSY, initialized := true } Pc.resetOr).1.value
      = toUnsigned EV_BUSY ∧
    (qemu_event_reset 0 { value := toUnsigned EV_BUSY, initialized := true } Pc.resetOr).1.value
      ≠ toUnsigned EV_FREE :=
  ⟨by decide, by decide,
    busy_never_free.2.2
      { ev := { value := toUnsigned EV_BUSY, initialized := true }
        threads := [Pc.resetOr, Pc.returned, Pc.waitFutex], log := [] }
      _ (Action.step 0) (System.exec_step_some _ 0 Pc.resetOr rfl rfl) rfl⟩

end QemuThread

namespace QemuThread

theorem qemu_futex_wake_length (n : Int) (l : List Pc) :
    (qemu_futex_wake n l).length = l.length := by
  induction l with
  | nil => rfl
  | cons pc rest ih =>
    simp only [qemu_futex_wake]
    split
    · split
      · rfl
      · simp [ih]
    · simp [ih]

theorem qemu_futex_wake_append (l : List Pc) (pc : Pc) (hpc : pc ≠ Pc.sleeping) :
    qemu_futex_wake INT_MAX (l ++ [pc]) = qemu_futex_wake INT_MAX l ++ [pc] := by
  have hn : ¬ (INT_MAX = 1) := by decide
  induction l with
  | nil => simp [qemu_futex_wake, hpc]
  | cons q rest ih =>
    have e1 : qemu_futex_wake INT_MAX (q :: (rest ++ [pc]))
        = if q = Pc.sleeping then
            Pc.returned :: (if INT_MAX = 1 then rest ++ [pc]
              else qemu_futex_wake INT_MAX (rest ++ [pc]))
          else q :: qemu_futex_wake INT_MAX (rest ++ [pc]) := rfl
    have e2 : qemu_futex_wake INT_MAX (q :: rest)
        = if q = Pc.sleeping then
            Pc.returned :: (if INT_MAX = 1 then rest else qemu_futex_wake INT_MAX rest)
          else q :: qemu_futex_wake INT_MAX rest := rfl
    rw [List.cons_append, e1, e2, if_neg hn, if_neg hn, ih]
    by_cases hq : q = Pc.sleeping
    · rw [if_pos hq, if_pos hq, List.cons_append]
    · rw [if_neg hq, if_neg hq, List.cons_append]

theorem set_append_last (l : List Pc) (x y : Pc) : (l ++ [x]).set l.length y = l ++ [y] := by
  induction l with
  | nil => rfl
  | cons q rest ih => simp [List.set, ih]

/-- A step of the newest thread. -/
theorem System.exec_step_last (ev : QemuEvent) (l : List Pc) (pc : Pc) (log : List Effect)
    (hi : ev.initialized = true) (hpc : pc ≠ Pc.sleeping) :
    ({ ev := ev, threads := l ++ [pc], log := log } : System).exec (Action.step l.length)
      = some
        { ev := (pc.step l.length ev).1
          threads := (if pc = Pc.setWake then qemu_futex_wake INT_MAX l else l)
            ++ [(pc.step l.length ev).2.1]
          log := log ++ (pc.step l.length ev).2.2.toList } := by
  have hget : (l ++ [pc])[l.length]? = some pc := by simp
  have ht : (if pc = Pc.setWake then qemu_futex_wake INT_MAX (l ++ [pc]) else l ++ [pc]).set
      l.length (pc.step l.length ev).2.1
      = (if pc = Pc.setWake then qemu_futex_wake INT_MAX l else l)
        ++ [(pc.step l.length ev).2.1] := by
    by_cases hw : pc = Pc.setWake
    · rw [if_pos hw, if_pos hw, qemu_futex_wake_append l pc hpc]
      have h := set_append_last (qemu_futex_wake INT_MAX l) pc (pc.step l.length ev).2.1
      rw [qemu_futex_wake_length] at h
      exact h
    · rw [if_neg hw, if_neg hw]
      exact set_append_last l pc _
  rw [System.exec_step_some _ l.length pc hi hget]
  show some ({ ev := (pc.step l.length ev).1
               threads := (if pc = Pc.setWake then qemu_futex_wake INT_MAX (l ++ [pc])
                 else l ++ [pc]).set l.length (pc.step l.length ev).2.1
               log := log ++ (pc.step l.length ev).2.2.toList } : System) = _
  rw [ht]

/-- A step of the newest thread that is not the wake. -/
theorem System.exec_step_plain (ev : QemuEvent) (l : List Pc) (pc : Pc) (log : List Effect)
    (hi : ev.initialized = true) (hpc : pc ≠ Pc.sleeping) (hw : pc ≠ Pc.setWake) :
    ({ ev := ev, threads := l ++ [pc], log := log } : System).exec (Action.step l.length)
      = some
        { ev := (pc.step l.length ev).1
          threads := l ++ [(pc.step l.length ev).2.1]
          log := log ++ (pc.step l.length ev).2.2.toList } := by
  rw [System.exec_step_last ev l pc log hi hpc, if_neg hw]

/-- The wake as a step of the newest thread. -/
theorem System.exec_step_wake (ev : QemuEvent) (l : List Pc) (log : List Effect)
    (hi : ev.initialized = true) :
    ({ ev := ev, threads := l ++ [Pc.setWake], log := log } : System).exec
        (Action.step l.length)
      = some
        { ev := ev
          threads := qemu_futex_wake INT_MAX l ++ [Pc.returned]
          log := log ++ [Effect.futexWake l.length INT_MAX] } := by
  rw [System.exec_step_last ev l Pc.setWake log hi (by decide), if_pos rfl]
  rfl

theorem System.exec_call (ev : QemuEvent) (l : List Pc) (log : List Effect) (f : Fn)
    (hi : ev.initialized = true) :
    ({ ev := ev, threads := l, log := log } : System).exec (Action.call f)
      = some { ev := ev, threads := l ++ [f.entry], log := log } := by
  simp [System.exec, hi]

/-- C16: `qemu_event_set`.  Called on an event whose value is `EV_SET`, `EV_FREE`
or `EV_BUSY` and run to its end, it leaves the value `EV_SET`; if it read
`EV_SET` its only access is that read (no write, no wake); otherwise it
exchanges the value for `EV_SET`, and `qemu_futex_wake(ev, INT_MAX)` follows,
waking every sleeper, exactly if the exchange replaced `EV_BUSY`.  The same
holds step by step with other threads in between: the read writes nothing and
ends the call exactly if it sees `EV_SET`; the exchange leaves `EV_SET` whatever
the value has become, and goes on to the wake exactly if it replaced
`EV_BUSY`. -/
theorem qemu_event_set_spec (s : System) (hi : s.ev.initialized = true) (hv : Valid s.ev.value) :
    (∃ t, s.callAlone Fn.set = some t ∧ t.ev.value = toUnsigned EV_SET ∧
      t.ev.initialized = true ∧
      t.log = s.log ++
        (if s.ev.value = toUnsigned EV_SET then [Effect.read s.threads.length s.ev.value]
         else [Effect.read s.threads.length s.ev.value,
               Effect.xchg s.threads.length s.ev.value (toUnsigned EV_SET)]
           ++ (if s.ev.value = toUnsigned EV_BUSY
               then [Effect.futexWake s.threads.length INT_MAX] else [])) ∧
      t.threads = (if s.ev.value = toUnsigned EV_BUSY
        then qemu_futex_wake INT_MAX s.threads else s.threads) ++ [Pc.returned]) ∧
    (∀ (tid : Nat) (ev : QemuEvent),
      (qemu_event_set tid ev Pc.setRead).1 = ev ∧
      ((qemu_event_set tid ev Pc.setRead).2.1 = Pc.returned ↔ ev.value = toUnsigned EV_SET) ∧
      ((qemu_event_set tid ev Pc.setRead).2.1 = Pc.setXchg ↔ ev.value ≠ toUnsigned EV_SET)) ∧
    (∀ (tid : Nat) (ev : QemuEvent),
      (qemu_event_set tid ev Pc.setXchg).1.value = toUnsigned EV_SET ∧
      ((qemu_event_set tid ev Pc.setXchg).2.1 = Pc.setWake ↔ ev.value = toUnsigned EV_BUSY) ∧
      ((qemu_event_set tid ev Pc.setXchg).2.1 = Pc.returned ↔ ev.value ≠ toUnsigned EV_BUSY)) ∧
    (∀ (tid : Nat) (ev : QemuEvent),
      qemu_event_set tid ev Pc.setWake = (ev, Pc.returned, some (Effect.futexWake tid INT_MAX))) := by
  refine ⟨?_, ?_, ?_, fun _ _ => rfl⟩
  · obtain ⟨ev, l, log⟩ := s
    obtain ⟨v, ini⟩ := ev
    simp only at hi hv
    subst hi
    rw [valid_iff] at hv
    simp only [System.callAlone, System.run]
    rw [System.exec_call _ _ _ _ rfl]
    simp only [Fn.entry]
    have hself : ∀ (e : QemuEvent) (l2 : List Pc) (lg : List Effect), e.initialized = true →
        ({ ev := e, threads := l2 ++ [Pc.returned], log := lg } : System).exec
          (Action.step l2.length)
          = some { ev := e, threads := l2 ++ [Pc.returned], log := lg } := by
      intro e l2 lg he
      rw [System.exec_step_plain e l2 Pc.returned lg he (by decide) (by decide)]
      simp [Pc.step, qemu_event_set, qemu_event_reset, qemu_event_wait]
    rcases hv with h | h | h <;> subst h
    · rw [System.exec_step_plain _ _ _ _ rfl (by decide) (by decide)]
      simp only [Pc.step, qemu_event_set, qemu_event_reset, qemu_event_wait, toUnsigned_SET, ne_eq, not_true_eq_false, if_false, Option.toList]
      rw [hself _ _ _ rfl]
      simp only []
      rw [hself _ _ _ rfl]
      simp [toUnsigned_BUSY]
    · rw [System.exec_step_plain _ _ _ _ rfl (by decide) (by decide)]
      simp only [Pc.step, qemu_event_set, qemu_event_reset, qemu_event_wait, toUnsigned_SET, ne_eq, one_ne_zero, not_false_eq_true, if_true,
        Option.toList]
      rw [System.exec_step_plain _ _ _ _ rfl (by decide) (by decide)]
      simp only [Pc.step, qemu_event_set, qemu_event_reset, qemu_event_wait, toUnsigned_BUSY, toUnsigned_SET, Option.toList]
      rw [if_neg (by decide)]
      rw [hself _ _ _ rfl]
      simp
    · rw [System.exec_step_plain _ _ _ _ rfl (by decide) (by decide)]
      simp only [Pc.step, qemu_event_set, qemu_event_reset, qemu_event_wait, toUnsigned_SET, ne_eq, Option.toList]
      rw [if_pos (by decide)]
      rw [System.exec_step_plain _ _ _ _ rfl (by decide) (by decide)]
      simp only [Pc.step, qemu_event_set, qemu_event_reset, qemu_event_wait, toUnsigned_BUSY, toUnsigned_SET, if_true, Option.toList]
      rw [System.exec_step_wake _ _ _ rfl]
      simp
  · intro tid ev
    refine ⟨rfl, ?_, ?_⟩ <;> simp only [Pc.step, qemu_event_set, qemu_event_reset, qemu_event_wait] <;> split <;> simp_all
  · intro tid ev
    refine ⟨rfl, ?_, ?_⟩ <;> simp only [Pc.step, qemu_event_set, qemu_event_reset, qemu_event_wait] <;> split <;> simp_all

/-- A waiter sleeps on a busy event; `qemu_event_set` sets the event and wakes
it. -/
theorem qemu_event_set_spec_witness :
    ∃ t, ({ ev := { value := toUnsigned EV_BUSY, initialized := true }
            threads := [Pc.sleeping], log := [] } : System).callAlone Fn.set = some t ∧
      t.ev.value = toUnsigned EV_SET ∧
      t.threads = [Pc.returned, Pc.returned] ∧
      t.log = [Effect.read 1 4294967295, Effect.xchg 1 4294967295 0,
        Effect.futexWake 1 INT_MAX] := by
  obtain ⟨t, h1, h2, _, h4, h5⟩ := (qemu_event_set_spec
    { ev := { value := toUnsigned EV_BUSY, initialized := true }
      threads := [Pc.sleeping], log := [] } rfl (Or.inr (Or.inr rfl))).1
  refine ⟨t, h1, h2, ?_, ?_⟩
  · rw [h5]
    decide
  · rw [h4]
    decide

end QemuThread

namespace QemuThread

/-- A waiter reads `EV_FREE` and its compare-and-swap, which sees `EV_FREE`,
makes the event busy; a `qemu_event_set` of another thread then sets the event
and wakes the sleepers, of which there is none yet; the waiter's
`qemu_futex_wait` finds the value `EV_SET`, not `EV_BUSY`, and returns at once:
the call has returned without sleeping although the compare-and-swap did not see
`EV_SET`. -/
theorem qemu_event_wait_counterexample :
    System.run [Action.call Fn.wait, Action.step 0, Action.step 0, Action.call Fn.set,
        Action.step 1, Action.step 1, Action.step 1, Action.step 0] (System.start false)
      = some { ev := { value := toUnsigned EV_SET, initialized := true }
               threads := [Pc.returned, Pc.returned]
               log := [Effect.read 0 (toUnsigned EV_FREE),
                 Effect.cmpxchg 0 (toUnsigned EV_FREE) (toUnsigned EV_FREE) (toUnsigned EV_BUSY),
                 Effect.read 1 (toUnsigned EV_BUSY),
                 Effect.xchg 1 (toUnsigned EV_BUSY) (toUnsigned EV_SET),
                 Effect.futexWake 1 INT_MAX,
                 Effect.futexWait 0 (toUnsigned EV_BUSY) false] } := by
  decide

/-- C17 (amended): `qemu_event_wait`.  If the value read is `EV_SET` the call
returns without sleeping and without writing.  If it is `EV_FREE` the call does
compare-and-swap(`EV_FREE` -> `EV_BUSY`); whatever the value has become since
the read, the value after it is `EV_SET` or `EV_BUSY`, never `EV_FREE`, and the
call returns without `qemu_futex_wait` exactly if the compare-and-swap saw
`EV_SET`.  In every other case it calls `qemu_futex_wait(ev, EV_BUSY)`, which
sleeps exactly if the value is `EV_BUSY` when it compares it and returns at once
otherwise.  Run to its end with no other thread in between, the call returns
at once from `EV_SET` and ends asleep with the value `EV_BUSY` from `EV_FREE`
and from `EV_BUSY`. -/
theorem qemu_event_wait_spec (s : System) (hi : s.ev.initialized = true)
    (hv : Valid s.ev.value) :
    (∃ t, s.callAlone Fn.wait = some t ∧
      (s.ev.value = toUnsigned EV_SET →
        t.ev = s.ev ∧ t.threads = s.threads ++ [Pc.returned] ∧
        t.log = s.log ++ [Effect.read s.threads.length s.ev.value]) ∧
      (s.ev.value ≠ toUnsigned EV_SET →
        t.ev.value = toUnsigned EV_BUSY ∧ t.threads = s.threads ++ [Pc.sleeping] ∧
        t.log = s.log ++ [Effect.read s.threads.length s.ev.value]
          ++ (if s.ev.value = toUnsigned EV_FREE
              then [Effect.cmpxchg s.threads.length s.ev.value (toUnsigned EV_FREE)
                (toUnsigned EV_BUSY)] else [])
          ++ [Effect.futexWait s.threads.length (toUnsigned EV_BUSY) true])) ∧
    (∀ (tid : Nat) (ev : QemuEvent),
      (qemu_event_wait tid ev Pc.waitRead).1 = ev ∧
      (ev.value = toUnsigned EV_SET → (qemu_event_wait tid ev Pc.waitRead).2.1 = Pc.returned) ∧
      (ev.value = toUnsigned EV_FREE → (qemu_event_wait tid ev Pc.waitRead).2.1 = Pc.waitCas) ∧
      (ev.value ≠ toUnsigned EV_SET → ev.value ≠ toUnsigned EV_FREE →
        (qemu_event_wait tid ev Pc.waitRead).2.1 = Pc.waitFutex)) ∧
    (∀ (tid : Nat) (ev : QemuEvent), Valid ev.value →
      ((qemu_event_wait tid ev Pc.waitCas).1.value = toUnsigned EV_SET ∨
        (qemu_event_wait tid ev Pc.waitCas).1.value = toUnsigned EV_BUSY) ∧
      (qemu_event_wait tid ev Pc.waitCas).1.value ≠ toUnsigned EV_FREE ∧
      ((qemu_event_wait tid ev Pc.waitCas).2.1 = Pc.returned ↔ ev.value = toUnsigned EV_SET) ∧
      ((qemu_event_wait tid ev Pc.waitCas).2.1 = Pc.waitFutex ↔ ev.value ≠ toUnsigned EV_SET) ∧
      (qemu_event_wait tid ev Pc.waitCas).2.2
        = some (Effect.cmpxchg tid ev.value (toUnsigned EV_FREE) (toUnsigned EV_BUSY))) ∧
    (∀ (tid : Nat) (ev : QemuEvent),
      (qemu_event_wait tid ev Pc.waitFutex).1 = ev ∧
      (qemu_event_wait tid ev Pc.waitFutex).2.2
        = some (Effect.futexWait tid (toUnsigned EV_BUSY)
          (decide (ev.value = toUnsigned EV_BUSY))) ∧
      ((qemu_event_wait tid ev Pc.waitFutex).2.1 = Pc.sleeping ↔ ev.value = toUnsigned EV_BUSY) ∧
      ((qemu_event_wait tid ev Pc.waitFutex).2.1 = Pc.returned ↔ ev.value ≠ toUnsigned EV_BUSY)) := by
  refine ⟨?_, ?_, ?_, ?_⟩
  · obtain ⟨ev, l, log⟩ := s
    obtain ⟨v, ini⟩ := ev
    simp only at hi hv
    subst hi
    rw [valid_iff] at hv
    simp only [System.callAlone, System.run]
    rw [System.exec_call _ _ _ _ rfl]
    simp only [Fn.entry]
    have hself : ∀ (e : QemuEvent) (l2 : List Pc) (lg : List Effect), e.initialized = true →
        ({ ev := e, threads := l2 ++ [Pc.returned], log := lg } : System).exec
          (Action.step l2.length)
          = some { ev := e, threads := l2 ++ [Pc.returned], log := lg } := by
      intro e l2 lg he
      rw [System.exec_step_plain e l2 Pc.returned lg he (by decide) (by decide)]
      simp [Pc.step, qemu_event_set, qemu_event_reset, qemu_event_wait]
    rcases hv with h | h | h <;> subst h
    · rw [System.exec_step_plain _ _ _ _ rfl (by decide) (by decide)]
      simp only [Pc.step, qemu_event_set, qemu_event_reset, qemu_event_wait, toUnsigned_SET, ne_eq, not_true_eq_false, if_false, Option.toList]
      rw [hself _ _ _ rfl]
      simp only []
      rw [hself _ _ _ rfl]
      simp
    · rw [System.exec_step_plain _ _ _ _ rfl (by decide) (by decide)]
      simp only [Pc.step, qemu_event_set, qemu_event_reset, qemu_event_wait, toUnsigned_SET, toUnsigned_FREE, ne_eq, one_ne_zero,
        not_false_eq_true, if_true, Option.toList]
      rw [System.exec_step_plain _ _ _ _ rfl (by decide) (by decide)]
      simp only [Pc.step, qemu_event_set, qemu_event_reset, qemu_event_wait, toUnsigned_BUSY, toUnsigned_SET, toUnsigned_FREE, one_ne_zero,
        if_false, if_true, Option.toList]
      rw [System.exec_step_plain _ _ _ _ rfl (by decide) (by decide)]
      simp [Pc.step, qemu_event_set, qemu_event_reset, qemu_event_wait, qemu_futex_wait, toUnsigned_BUSY]
    · rw [System.exec_step_plain _ _ _ _ rfl (by decide) (by decide)]
      simp only [Pc.step, qemu_event_set, qemu_event_reset, qemu_event_wait, toUnsigned_SET, toUnsigned_FREE, ne_eq, Option.toList]
      rw [if_pos (by decide), if_neg (by decide)]
      rw [System.exec_step_plain _ _ _ _ rfl (by decide) (by decide)]
      simp only [Pc.step, qemu_event_set, qemu_event_reset, qemu_event_wait, qemu_futex_wait, toUnsigned_BUSY, if_true, Option.toList]
      have hsleep : ∀ (e : QemuEvent) (l2 : List Pc) (lg : List Effect), e.initialized = true →
          ({ ev := e, threads := l2 ++ [Pc.sleeping], log := lg } : System).exec
            (Action.step l2.length)
            = some { ev := e, threads := l2 ++ [Pc.sleeping], log := lg } := by
        intro e l2 lg he
        have hget : (l2 ++ [Pc.sleeping])[l2.length]? = some Pc.sleeping := by simp
        rw [System.exec_step_some _ l2.length Pc.sleeping he hget]
        simp [Pc.step, qemu_event_set, qemu_event_reset, qemu_event_wait, set_append_last]
      rw [hsleep _ _ _ rfl]
      simp
  · intro tid ev
    refine ⟨rfl, ?_, ?_, ?_⟩
    · intro h
      simp [Pc.step, qemu_event_set, qemu_event_reset, qemu_event_wait, h]
    · intro h
      simp [Pc.step, qemu_event_set, qemu_event_reset, qemu_event_wait, h, toUnsigned_FREE, toUnsigned_SET]
    · intro h1 h2
      simp [Pc.step, qemu_event_set, qemu_event_reset, qemu_event_wait, h1, h2]
  · intro tid ev hv
    rw [valid_iff] at hv
    rcases hv with h | h | h <;>
      simp [Pc.step, qemu_event_set, qemu_event_reset, qemu_event_wait, h, toUnsigned_SET, toUnsigned_FREE, toUnsigned_BUSY]
  · intro tid ev
    refine ⟨rfl, rfl, ?_, ?_⟩ <;> simp only [Pc.step, qemu_event_set, qemu_event_reset, qemu_event_wait, qemu_futex_wait] <;> split <;> simp_all

/-- A waiter on a free event, alone: it makes the event busy and sleeps. -/
theorem qemu_event_wait_spec_witness :
    ∃ t, (System.start false).callAlone Fn.wait = some t ∧
      t.ev.value = toUnsigned EV_BUSY ∧ t.threads = [Pc.sleeping] := by
  obtain ⟨t, h1, _, h3⟩ := (qemu_event_wait_spec (System.start false) rfl
    (Or.inr (Or.inl rfl))).1
  obtain ⟨h4, h5, _⟩ := h3 (by decide)
  exact ⟨t, h1, h4, h5⟩

end QemuThread

namespace MediaH264

/-! ## `checkWhetherConfigChanged` (C19) and `decodeFrame` (C18) -/

theorem checkWhetherConfigChanged_state {σ : Type} (P : NaluParser) (d : Decoder σ)
    (frame : List Nat) (szBytes : Nat) : (checkWhetherConfigChanged P d frame szBytes).2 = d := by
  unfold checkWhetherConfigChanged
  split
  · rfl
  · dsimp only
    split
    · rfl
    · split
      · rfl
      · split <;> rfl

/-- C19: `checkWhetherConfigChanged(frame, szBytes)` returns true exactly if
`getNextStartCodeHeader` finds a start code in the frame, the NAL unit at that
first start code is an SPS, `getNextStartCodeHeader` finds a further start code
after it (from three bytes past the first one), and `mNumDecodedFrame != 0`.  So
it returns false for every frame whose first NAL unit is not an SPS and for
every frame while no frame has been decoded; and it leaves the decoder as it
was. -/
theorem checkWhetherConfigChanged_spec {σ : Type} (P : NaluParser) (d : Decoder σ)
    (frame : List Nat) (szBytes : Nat) :
    ((checkWhetherConfigChanged P d frame szBytes).1 = true ↔
      ∃ currNalu, P.getNextStartCodeHeader frame szBytes = some currNalu ∧
        P.getFrameNaluType (frame.drop currNalu) (wrapSize ((szBytes : Int) - (currNalu : Int)))
          = H264NaluType.SPS ∧
        (∃ nextNalu, P.getNextStartCodeHeader (frame.drop (currNalu + 3))
          (wrapSize ((wrapSize ((szBytes : Int) - (currNalu : Int)) : Int) - 3))
            = some nextNalu) ∧
        d.mNumDecodedFrame ≠ 0) ∧
    (P.getNextStartCodeHeader frame szBytes = none →
      (checkWhetherConfigChanged P d frame szBytes).1 = false) ∧
    (∀ currNalu, P.getNextStartCodeHeader frame szBytes = some currNalu →
      P.getFrameNaluType (frame.drop currNalu) (wrapSize ((szBytes : Int) - (currNalu : Int)))
        ≠ H264NaluType.SPS →
      (checkWhetherConfigChanged P d frame szBytes).1 = false) ∧
    (d.mNumDecodedFrame = 0 → (checkWhetherConfigChanged P d frame szBytes).1 = false) ∧
    (checkWhetherConfigChanged P d frame szBytes).2 = d := by
  have key : (checkWhetherConfigChanged P d frame szBytes).1 = true ↔
      ∃ currNalu, P.getNextStartCodeHeader frame szBytes = some currNalu ∧
        P.getFrameNaluType (frame.drop currNalu) (wrapSize ((szBytes : Int) - (currNalu : Int)))
          = H264NaluType.SPS ∧
        (∃ nextNalu, P.getNextStartCodeHeader (frame.drop (currNalu + 3))
          (wrapSize ((wrapSize ((szBytes : Int) - (currNalu : Int)) : Int) - 3))
            = some nextNalu) ∧
        d.mNumDecodedFrame ≠ 0 := by
    unfold checkWhetherConfigChanged
    cases h1 : P.getNextStartCodeHeader frame szBytes with
    | none => simp
    | some currNalu =>
      dsimp only
      by_cases h2 : P.getFrameNaluType (frame.drop currNalu)
          (wrapSize ((szBytes : Int) - (currNalu : Int))) = H264NaluType.SPS
      · rw [if_neg (not_not.mpr h2)]
        cases h3 : P.getNextStartCodeHeader (frame.drop (currNalu + 3))
            (wrapSize ((wrapSize ((szBytes : Int) - (currNalu : Int)) : Int) - 3)) with
        | none => simp [h3]
        | some nextNalu =>
          dsimp only
          by_cases h4 : d.mNumDecodedFrame = 0
          · rw [if_pos h4]
            simp [h4]
          · rw [if_neg h4]
            simp [h2, h3, h4]
      · rw [if_pos h2]
        simp [h2]
  refine ⟨key, ?_, ?_, ?_, checkWhetherConfigChanged_state P d frame szBytes⟩
  · intro h
    rw [Bool.eq_false_iff]
    intro ht
    obtain ⟨c, hc, _⟩ := key.mp ht
    rw [h] at hc
    exact Option.noConfusion hc
  · intro c hc hne
    rw [Bool.eq_false_iff]
    intro ht
    obtain ⟨c2, hc2, hsps, _⟩ := key.mp ht
    rw [hc] at hc2
    injection hc2 with hc2
    subst hc2
    exact hne hsps
  · intro h0
    rw [Bool.eq_false_iff]
    intro ht
    obtain ⟨_, _, _, _, hn⟩ := key.mp ht
    exact hn h0

/-- A frame with an SPS and a PPS after one decoded frame is a configuration
change; before the first decoded frame it is not. -/
theorem checkWhetherConfigChanged_spec_witness :
    (checkWhetherConfigChanged refParser (demoDecoder 1)
      [0, 0, 1, 103, 66, 0, 0, 1, 104, 206] 10).1 = true ∧
    (checkWhetherConfigChanged refParser (demoDecoder 0)
      [0, 0, 1, 103, 66, 0, 0, 1, 104, 206] 10).1 = false :=
  ⟨(checkWhetherConfigChanged_spec refParser (demoDecoder 1)
      [0, 0, 1, 103, 66, 0, 0, 1, 104, 206] 10).1.mpr
      ⟨0, by decide, by decide, ⟨2, by decide⟩, by decide⟩,
    (checkWhetherConfigChanged_spec refParser (demoDecoder 0)
      [0, 0, 1, 103, 66, 0, 0, 1, 104, 206] 10).2.2.2.1 rfl⟩

end MediaH264

namespace MediaH264

theorem storeLE_outside (mem : Mem) (addr n value a : Nat) (h : a < addr ∨ addr + n ≤ a) :
    storeLE mem addr n value a = mem a := by
  unfold storeLE
  rw [if_neg (by omega)]

theorem storeLE_inside (mem : Mem) (addr n value i : Nat) (h : i < n) :
    storeLE mem addr n value (addr + i) = value / 256 ^ i % 256 := by
  unfold storeLE
  rw [if_pos (by omega), Nat.add_sub_cancel_left]

theorem loadLE_congr (m1 m2 : Mem) (addr n : Nat)
    (h : ∀ a, addr ≤ a → a < addr + n → m1 a = m2 a) : loadLE m1 addr n = loadLE m2 addr n := by
  induction n generalizing addr with
  | zero => rfl
  | succ n ih =>
    simp only [loadLE]
    rw [h addr (Nat.le_refl _) (by omega), ih (addr + 1) (fun a h1 h2 => h a (by omega) (by omega))]

theorem loadLE_storeLE_part (mem : Mem) (addr n value : Nat) (k i : Nat) (h : i + k ≤ n) :
    loadLE (storeLE mem addr n value) (addr + i) k = value / 256 ^ i % 256 ^ k := by
  induction k generalizing i with
  | zero => simp [loadLE, Nat.mod_one]
  | succ k ih =>
    simp only [loadLE]
    rw [storeLE_inside mem addr n value i (by omega), Nat.add_assoc, ih (i + 1) (by omega)]
    rw [Nat.mod_mod, pow_succ 256 i, ← Nat.div_div_eq_div_mul, pow_succ 256 k,
      Nat.mul_comm (256 ^ k) 256, Nat.mod_mul]

/-- A load reads back what a store of the same width wrote. -/
theorem loadLE_storeLE (mem : Mem) (addr n value : Nat) (h : value < 256 ^ n) :
    loadLE (storeLE mem addr n value) addr n = value := by
  have := loadLE_storeLE_part mem addr n value n 0 (by omega)
  rw [Nat.add_zero, pow_zero, Nat.div_one, Nat.mod_eq_of_lt h] at this
  exact this

theorem toUnsigned_lt (x : Int) : toUnsigned x < 256 ^ 4 := by
  unfold toUnsigned
  have h1 : 0 ≤ x % 2 ^ 32 := Int.emod_nonneg _ (by norm_num)
  have h2 : x % 2 ^ 32 < 2 ^ 32 := Int.emod_lt_of_pos _ (by norm_num)
  have h3 : ((x % 2 ^ 32).toNat : Int) = x % 2 ^ 32 := Int.toNat_of_nonneg h1
  have h4 : ((256 ^ 4 : Nat) : Int) = 2 ^ 32 := by norm_num
  omega

theorem prepared_software {σ : Type} (lib : Ffmpeg σ) (P : NaluParser) (d : Decoder σ)
    (frame : List Nat) (szBytes : Nat) (hs : d.mIsSoftwareDecoder = true) :
    decodeFrame.prepared lib P d frame szBytes = d := by
  unfold decodeFrame.prepared
  rw [if_neg (by rw [hs]; decide)]

theorem prepared_mIsSoftwareDecoder {σ : Type} (lib : Ffmpeg σ) (P : NaluParser) (d : Decoder σ)
    (frame : List Nat) (szBytes : Nat) :
    (decodeFrame.prepared lib P d frame szBytes).mIsSoftwareDecoder = d.mIsSoftwareDecoder := by
  unfold decodeFrame.prepared
  rw [checkWhetherConfigChanged_state]
  split
  · split <;> rfl
  · rfl

end MediaH264

namespace MediaH264

/-- The guest memory after `decodeFrame` when the decoder restarts: the two
stores of the common path and the store of `DecoderRestarted`; and the decoder:
only the packet, the context, the frame, `mIsInFlush`, `mFrameFormatChanged` and
the output size have changed. -/
theorem decodeFrame_restarted {σ : Type} (lib : Ffmpeg σ) (P : NaluParser)
    (pixels : AVFrame → List Nat) (code : Err → Int) (d : Decoder σ) (mem : Mem) (ptr : Nat)
    (frame : List Nat) (szBytes inputPts : Nat)
    (h : decodeFrame.restarted lib P d frame szBytes inputPts) :
    decodeFrame lib P pixels code d mem ptr frame szBytes inputPts =
      ({ d with
          mPacket := { data := frame, size := toInt32 szBytes, pts := inputPts }
          mCodecCtx := (decodeFrame.received lib P d frame szBytes inputPts).1
          mFrame := (decodeFrame.received lib P d frame szBytes inputPts).2.2
          mIsInFlush := false
          mFrameFormatChanged := true
          mOutputHeight :=
            toUnsigned (decodeFrame.received lib P d frame szBytes inputPts).2.2.height
          mOutputWidth :=
            toUnsigned (decodeFrame.received lib P d frame szBytes inputPts).2.2.width },
        storeLE
          (storeLE (storeLE mem (ptr + 256) 8 (szBytes % 2 ^ 64)) (ptr + 256 + 8) 4
            (toUnsigned (code Err.NoErr)))
          (ptr + 256 + 8) 4 (toUnsigned (code Err.DecoderRestarted))) := by
  obtain ⟨hs, hr, hdim⟩ := h
  unfold decodeFrame
  simp only [getReturnAddress, prepared_software lib P d frame szBytes hs]
  rw [if_neg (not_not.mpr hr), if_pos ⟨hs, hdim⟩]

/-- The guest memory after `decodeFrame` when the decoder does not restart: the
two stores of the common path. -/
theorem decodeFrame_mem_plain {σ : Type} (lib : Ffmpeg σ) (P : NaluParser)
    (pixels : AVFrame → List Nat) (code : Err → Int) (d : Decoder σ) (mem : Mem) (ptr : Nat)
    (frame : List Nat) (szBytes inputPts : Nat)
    (h : ¬ decodeFrame.restarted lib P d frame szBytes inputPts) :
    (decodeFrame lib P pixels code d mem ptr frame szBytes inputPts).2 =
      storeLE (storeLE mem (ptr + 256) 8 (szBytes % 2 ^ 64)) (ptr + 256 + 8) 4
        (toUnsigned (code Err.NoErr)) := by
  unfold decodeFrame
  simp only [getReturnAddress]
  by_cases hr : (decodeFrame.received lib P d frame szBytes inputPts).2.1 = 0
  · rw [if_neg (not_not.mpr hr)]
    by_cases hs : d.mIsSoftwareDecoder = true
    · have hdim : ¬ (toUnsigned (decodeFrame.received lib P d frame szBytes inputPts).2.2.width
          ≠ d.mOutputWidth
          ∨ toUnsigned (decodeFrame.received lib P d frame szBytes inputPts).2.2.height
            ≠ d.mOutputHeight) := fun hd => h ⟨hs, hr, hd⟩
      simp only [prepared_software lib P d frame szBytes hs]
      rw [if_neg (fun hc => hdim hc.2)]
    · have hs2 := prepared_mIsSoftwareDecoder lib P d frame szBytes
      rw [if_neg (fun hc => hs (hs2 ▸ hc.1))]
  · rw [if_pos hr]
    split <;> rfl

/-- The decoder after `decodeFrame` when a frame is produced and the decoder
does not restart: the frame is copied and `mImageReady` is set. -/
theorem decodeFrame_copied {σ : Type} (lib : Ffmpeg σ) (P : NaluParser)
    (pixels : AVFrame → List Nat) (code : Err → Int) (d : Decoder σ) (mem : Mem) (ptr : Nat)
    (frame : List Nat) (szBytes inputPts : Nat)
    (hr : (decodeFrame.received lib P d frame szBytes inputPts).2.1 = 0)
    (h : ¬ decodeFrame.restarted lib P d frame szBytes inputPts) :
    (decodeFrame lib P pixels code d mem ptr frame szBytes inputPts).1.mImageReady = true ∧
    (decodeFrame lib P pixels code d mem ptr frame szBytes inputPts).1.mDecodedFrame
      = pixels (decodeFrame.received lib P d frame szBytes inputPts).2.2 ∧
    (decodeFrame lib P pixels code d mem ptr frame szBytes inputPts).1.mNumDecodedFrame
      = (decodeFrame.prepared lib P d frame szBytes).mNumDecodedFrame + 1 := by
  unfold decodeFrame
  simp only [getReturnAddress]
  rw [if_neg (not_not.mpr hr)]
  by_cases hs : d.mIsSoftwareDecoder = true
  · have hdim : ¬ (toUnsigned (decodeFrame.received lib P d frame szBytes inputPts).2.2.width
        ≠ d.mOutputWidth
        ∨ toUnsigned (decodeFrame.received lib P d frame szBytes inputPts).2.2.height
          ≠ d.mOutputHeight) := fun hd => h ⟨hs, hr, hd⟩
    simp only [prepared_software lib P d frame szBytes hs]
    rw [if_neg (fun hc => hdim hc.2)]
    exact ⟨rfl, rfl, rfl⟩
  · have hs2 := prepared_mIsSoftwareDecoder lib P d frame szBytes
    rw [if_neg (fun hc => hs (hs2 ▸ hc.1))]
    exact ⟨rfl, rfl, rfl⟩

/-- C18: `decodeFrame` on a frame of `szBytes` bytes, whatever the library
answers (a frame, EAGAIN, EOF, another error): the 64-bit slot at `ptr + 256`
holds `szBytes` and the 32-bit slot at `ptr + 264` holds an error code, and no
other byte of the guest memory changes.  The code is `Err::NoErr`, except when
the software decoder has produced a frame whose width or height (as `unsigned`)
is not the current output width or height: then it is `Err::DecoderRestarted`,
no frame is copied (the decoded picture, the colour description, the frame
count and the presentation time stay as they were) and `mImageReady` is not
written.  When a frame is produced otherwise, it is copied and `mImageReady`
is set. -/
theorem decodeFrame_reports {σ : Type} (lib : Ffmpeg σ) (P : NaluParser)
    (pixels : AVFrame → List Nat) (code : Err → Int) (d : Decoder σ) (mem : Mem) (ptr : Nat)
    (frame : List Nat) (szBytes inputPts : Nat) (hsz : szBytes < 2 ^ 64)
    (out : Decoder σ × Mem)
    (hout : out = decodeFrame lib P pixels code d mem ptr frame szBytes inputPts) :
    loadLE out.2 (ptr + 256) 8 = szBytes ∧
    (∀ a, a < ptr + 256 ∨ ptr + 268 ≤ a → out.2 a = mem a) ∧
    (decodeFrame.restarted lib P d frame szBytes inputPts →
      loadLE out.2 (ptr + 264) 4 = toUnsigned (code Err.DecoderRestarted) ∧
      out.1.mImageReady = d.mImageReady ∧
      out.1.mDecodedFrame = d.mDecodedFrame ∧
      out.1.mNumDecodedFrame = d.mNumDecodedFrame ∧
      out.1.mOutputPts = d.mOutputPts ∧
      out.1.mColorPrimaries = d.mColorPrimaries ∧ out.1.mColorRange = d.mColorRange ∧
      out.1.mColorTransfer = d.mColorTransfer ∧ out.1.mColorSpace = d.mColorSpace ∧
      out.1.mOutBufferSize = d.mOutBufferSize ∧
      out.1.mFrameFormatChanged = true) ∧
    (¬ decodeFrame.restarted lib P d frame szBytes inputPts →
      loadLE out.2 (ptr + 264) 4 = toUnsigned (code Err.NoErr)) ∧
    ((decodeFrame.received lib P d frame szBytes inputPts).2.1 = 0 →
      ¬ decodeFrame.restarted lib P d frame szBytes inputPts →
      out.1.mImageReady = true ∧
      out.1.mDecodedFrame = pixels (decodeFrame.received lib P d frame szBytes inputPts).2.2) := by
  subst hout
  have hsz2 : szBytes % 2 ^ 64 < 256 ^ 8 := by
    rw [Nat.mod_eq_of_lt hsz]
    exact Nat.lt_of_lt_of_le hsz (by norm_num)
  have hslot1 : ∀ m : Mem,
      (∀ a, ptr + 256 ≤ a → a < ptr + 256 + 8 →
        m a = storeLE mem (ptr + 256) 8 (szBytes % 2 ^ 64) a) →
      loadLE m (ptr + 256) 8 = szBytes := by
    intro m hm
    rw [loadLE_congr m _ (ptr + 256) 8 hm, loadLE_storeLE _ _ _ _ hsz2, Nat.mod_eq_of_lt hsz]
  by_cases h : decodeFrame.restarted lib P d frame szBytes inputPts
  · have e := decodeFrame_restarted lib P pixels code d mem ptr frame szBytes inputPts h
    rw [e]
    refine ⟨?_, ?_, fun _ => ⟨?_, rfl, rfl, rfl, rfl, rfl, rfl, rfl, rfl, rfl, rfl⟩,
      fun hn => absurd h hn, fun _ hn => absurd h hn⟩
    · apply hslot1
      intro a h1 h2
      show storeLE _ _ _ _ a = _
      rw [storeLE_outside _ _ _ _ _ (by omega), storeLE_outside _ _ _ _ _ (by omega)]
    · intro a ha
      show storeLE _ _ _ _ a = _
      rw [storeLE_outside _ _ _ _ _ (by omega), storeLE_outside _ _ _ _ _ (by omega),
        storeLE_outside _ _ _ _ _ (by omega)]
    · show loadLE (storeLE _ (ptr + 256 + 8) 4 _) (ptr + 264) 4 = _
      exact loadLE_storeLE _ _ _ _ (toUnsigned_lt _)
  · have e := decodeFrame_mem_plain lib P pixels code d mem ptr frame szBytes inputPts h
    rw [e]
    refine ⟨?_, ?_, fun hy => absurd hy h, fun _ => ?_, fun hr _ =>
      ⟨(decodeFrame_copied lib P pixels code d mem ptr frame szBytes inputPts hr h).1,
        (decodeFrame_copied lib P pixels code d mem ptr frame szBytes inputPts hr h).2.1⟩⟩
    · apply hslot1
      intro a h1 h2
      rw [storeLE_outside _ _ _ _ _ (by omega)]
    · intro a ha
      rw [storeLE_outside _ _ _ _ _ (by omega), storeLE_outside _ _ _ _ _ (by omega)]
    · show loadLE (storeLE _ (ptr + 256 + 8) 4 _) (ptr + 264) 4 = _
      exact loadLE_storeLE _ _ _ _ (toUnsigned_lt _)

/-- A software decoder with output size 640 x 480 receives a frame of size
320 x 240: the slots hold 4 and `DecoderRestarted`, and the image is not
ready. -/
theorem decodeFrame_reports_witness :
    loadLE (decodeFrame (constLib 0 (blankFrame 320 240)) refParser (fun _ => []) demoCode
      (demoDecoder 1) (fun _ => 0) 1000 [0, 0, 1, 101] 4 0).2 1256 8 = 4 ∧
    loadLE (decodeFrame (constLib 0 (blankFrame 320 240)) refParser (fun _ => []) demoCode
      (demoDecoder 1) (fun _ => 0) 1000 [0, 0, 1, 101] 4 0).2 1264 4
      = toUnsigned (demoCode Err.DecoderRestarted) ∧
    (decodeFrame (constLib 0 (blankFrame 320 240)) refParser (fun _ => []) demoCode
      (demoDecoder 1) (fun _ => 0) 1000 [0, 0, 1, 101] 4 0).1.mImageReady = false := by
  have h := decodeFrame_reports (constLib 0 (blankFrame 320 240)) refParser (fun _ => [])
    demoCode (demoDecoder 1) (fun _ => 0) 1000 [0, 0, 1, 101] 4 0 (by norm_num) _ rfl
  have hres : decodeFrame.restarted (constLib 0 (blankFrame 320 240)) refParser (demoDecoder 1)
      [0, 0, 1, 101] 4 0 := ⟨rfl, rfl, Or.inl (by decide)⟩
  exact ⟨h.1, (h.2.2.1 hres).1, (h.2.2.1 hres).2.1⟩

end MediaH264

namespace Icebox

/-! ## The event loop of `track` (C20) -/

theorem sendsOnly_refl (s : Track) : SendsOnly s s :=
  ⟨[], by simp, by simp⟩

theorem sendsOnly_of_trace (s t : Track) (h : t.trace = s.trace) : SendsOnly s t :=
  ⟨[], by simp [h], by simp⟩

theorem sendsOnly_trans {s t u : Track} (h1 : SendsOnly s t) (h2 : SendsOnly t u) :
    SendsOnly s u := by
  obtain ⟨a, ha, ha2⟩ := h1
  obtain ⟨b, hb, hb2⟩ := h2
  refine ⟨a ++ b, by rw [hb, ha, List.append_assoc], ?_⟩
  intro e he
  rcases List.mem_append.mp he with h | h
  · exact ha2 e h
  · exact hb2 e h

theorem sendsOnly_send (s : Track) (p : apacket) : SendsOnly s (sendPacket s p).1 :=
  ⟨[Effect.send p (s.sendOk s.nSent)], rfl, fun e he => by
    rw [List.mem_singleton] at he
    exact ⟨p, s.sendOk s.nSent, he⟩⟩

/-- The rest of the iteration after the snapshot returns; the closures posted
and `snapshot_done` stay as they are. -/
theorem afterSnapshot_frame (w : JdwpCommandHeader → List Nat → List Nat) (s : Track) :
    (track.afterSnapshot w s).posted = s.posted ∧
    (track.afterSnapshot w s).snapshot_done = s.snapshot_done ∧
    ∃ b, (track.afterSnapshot w s).pc = Pc.returned b := by
  unfold track.afterSnapshot
  dsimp only
  repeat' split
  all_goals exact ⟨rfl, rfl, _, rfl⟩

/-- After the snapshot the trace grows by sends only. -/
theorem afterSnapshot_sends (w : JdwpCommandHeader → List Nat → List Nat) (s : Track) :
    SendsOnly s (track.afterSnapshot w s) := by
  have a1 := sendsOnly_send s s.ok_out
  have a2 : SendsOnly s
      (sendPacket { (sendPacket s s.ok_out).1 with
          jdwp_id := ((sendPacket s s.ok_out).1.jdwp_id + 1) % 2 ^ 32
          packet_out := resumePacket w (sendPacket s s.ok_out).1 }
        (resumePacket w (sendPacket s s.ok_out).1)).1 :=
    sendsOnly_trans a1 (sendsOnly_send _ _)
  unfold track.afterSnapshot
  dsimp only
  split
  · exact a1
  · split
    · exact a2
    · split
      · exact a2
      · split
        · exact a2
        · split
          · exact a2
          · split
            · exact sendsOnly_trans a2 (sendsOnly_send _ _)
            · split
              · exact sendsOnly_trans (sendsOnly_trans a2 (sendsOnly_send _ _)) (sendsOnly_send _ _)
              · exact sendsOnly_trans (sendsOnly_trans a2 (sendsOnly_send _ _)) (sendsOnly_send _ _)

end Icebox

namespace Icebox

/-- After the snapshot `track` returns true exactly if the four sends succeed,
the Resume command is answered with OKAY and the reply to it arrives. -/
theorem afterSnapshot_result (w : JdwpCommandHeader → List Nat → List Nat) (s : Track) :
    (track.afterSnapshot w s).pc = Pc.returned true ↔
      s.sendOk s.nSent = true ∧ s.sendOk (s.nSent + 1) = true ∧
      (∃ okay rest reply rest2,
        recvPacketWithId s.incoming s.local_id = (some okay, rest) ∧
        okay.command = ADB_OKAY ∧
        recvPacketWithId rest s.local_id = (some reply, rest2)) ∧
      s.sendOk (s.nSent + 2) = true ∧ s.sendOk (s.nSent + 3) = true := by
  unfold track.afterSnapshot
  simp only [sendPacket]
  by_cases h1 : s.sendOk s.nSent = true
  · rw [if_neg (by rw [h1]; decide)]
    by_cases h2 : s.sendOk (s.nSent + 1) = true
    · rw [if_neg (by rw [h2]; decide)]
      cases h3 : recvPacketWithId s.incoming s.local_id with
      | mk r1 rest =>
        cases r1 with
        | none => simp [Track.ret]
        | some okay =>
          dsimp only
          by_cases h4 : okay.command = ADB_OKAY
          · rw [if_neg (not_not.mpr h4)]
            cases h5 : recvPacketWithId rest s.local_id with
            | mk r2 rest2 =>
              cases r2 with
              | none => simp [Track.ret, h5]
              | some reply =>
                dsimp only
                by_cases h6 : s.sendOk (s.nSent + 1 + 1) = true
                · rw [if_neg (by rw [h6]; decide)]
                  by_cases h7 : s.sendOk (s.nSent + 1 + 1 + 1) = true
                  · rw [if_neg (by rw [h7]; decide)]
                    constructor
                    · intro _
                      exact ⟨h1, h2, ⟨okay, rest, reply, rest2, rfl, h4, h5⟩, h6, h7⟩
                    · intro _
                      rfl
                  · rw [if_pos (by simpa using h7)]
                    simp [Track.ret, h7]
                · rw [if_pos (by simpa using h6)]
                  simp [Track.ret, h6]
          · rw [if_pos h4]
            simp [Track.ret, h4]
    · rw [if_pos (by simpa using h2)]
      simp [Track.ret, h2]
  · rw [if_pos (by simpa using h1)]
    simp [Track.ret, h1]

/-- When every send and receive succeeds, the sends after the snapshot are
OKAY, the Resume command, OKAY (for the reply to it) and the close, in this
order. -/
theorem afterSnapshot_success (w : JdwpCommandHeader → List Nat → List Nat) (s : Track)
    (okay reply : apacket) (rest rest2 : List (Option apacket))
    (h1 : s.sendOk s.nSent = true) (h2 : s.sendOk (s.nSent + 1) = true)
    (h3 : recvPacketWithId s.incoming s.local_id = (some okay, rest))
    (h4 : okay.command = ADB_OKAY)
    (h5 : recvPacketWithId rest s.local_id = (some reply, rest2))
    (h6 : s.sendOk (s.nSent + 2) = true) (h7 : s.sendOk (s.nSent + 3) = true) :
    (track.afterSnapshot w s).trace = s.trace ++
      [Effect.send s.ok_out true, Effect.send (resumePacket w s) true,
        Effect.send s.ok_out true, Effect.send (closePacket (resumePacket w s)) true] := by
  unfold track.afterSnapshot
  simp only [sendPacket]
  rw [if_neg (by rw [h1]; decide), if_neg (by rw [h2]; decide)]
  simp only [h3]
  rw [if_neg (not_not.mpr h4)]
  simp only [h5]
  rw [if_neg (by rw [h6]; decide), if_neg (by rw [h7]; decide)]
  simp [Track.ret, h1, h2, h6, h7, resumePacket, resumeHeader]

theorem recvPacketWithId_demo :
    recvPacketWithId [some demoAck, some demoReply] 7 = (some demoAck, [some demoReply]) ∧
    recvPacketWithId [some demoReply] 7 = (some demoReply, []) := by
  decide

/-- The event with `SuspendPolicy::All` arrives, the snapshot is saved, and the
socket then refuses the OKAY: `track` returns false, and neither the Resume
command nor the close is sent. -/
theorem track_counterexample :
    suspendsAll demoEvent ∧
    (Track.run demoWriteToBuffer [Action.track, Action.mainLooper, Action.track]
      (demoTrack (fun _ => false))).pc = Pc.returned false ∧
    (Track.run demoWriteToBuffer [Action.track, Action.mainLooper, Action.track]
      (demoTrack (fun _ => false))).trace
      = [Effect.snapshotSave "test_failure_snapshot", Effect.send demoOkOut false] := by
  refine ⟨⟨by decide, by decide⟩, by decide, by decide⟩

end Icebox

namespace Icebox

theorem loopIteration_suspend (st : Track) (reply : apacket) (rest : List (Option apacket))
    (hposted : st.posted = 0)
    (hrecv : recvPacketWithId st.incoming st.local_id = (some reply, rest))
    (hcl : reply.command ≠ ADB_CLSE) (hall : suspendsAll reply) :
    track.loopIteration st = st.posted1 rest := by
  have hall2 : reply.data_length > 11 ∧ reply.data[11]? = some SuspendPolicy.All := hall
  unfold track.loopIteration
  simp only [hrecv]
  rw [if_neg hcl, if_pos hall2, hposted]
  rfl

theorem exec_returned (w : JdwpCommandHeader → List Nat → List Nat) (t : Track) (b : Bool)
    (hpc : t.pc = Pc.returned b) (hposted : t.posted = 0) (a : Action) : t.exec w a = t := by
  cases a with
  | track => simp only [Track.exec, hpc]
  | mainLooper =>
    simp only [Track.exec, runPosted]
    rw [if_neg (by omega)]

theorem run_returned (w : JdwpCommandHeader → List Nat → List Nat) (sched : List Action)
    (t : Track) (b : Bool) (hpc : t.pc = Pc.returned b) (hposted : t.posted = 0) :
    Track.run w sched t = t := by
  induction sched with
  | nil => rfl
  | cons a sched ih =>
    simp only [Track.run]
    rw [exec_returned w t b hpc hposted a]
    exact ih

/-- From the top of the loop with a `SuspendPolicy::All` event next, every
schedule leads to one of four states: nothing has happened, `track` waits for
the snapshot, the snapshot is saved and `track` still waits, `track` has run the
rest of the iteration. -/
theorem run_suspend (w : JdwpCommandHeader → List Nat → List Nat) (st : Track) (reply : apacket)
    (rest : List (Option apacket)) (hpc : st.pc = Pc.loop) (hposted : st.posted = 0)
    (hrecv : recvPacketWithId st.incoming st.local_id = (some reply, rest))
    (hcl : reply.command ≠ ADB_CLSE) (hall : suspendsAll reply) (sched : List Action) (t : Track)
    (ht : t = st ∨ t = st.posted1 rest ∨ t = st.saved rest
      ∨ t = track.afterSnapshot w (st.saved rest)) :
    Track.run w sched t = st ∨ Track.run w sched t = st.posted1 rest
      ∨ Track.run w sched t = st.saved rest
      ∨ Track.run w sched t = track.afterSnapshot w (st.saved rest) := by
  induction sched generalizing t with
  | nil => exact ht
  | cons a sched ih =>
    apply ih
    rcases ht with h | h | h | h <;> subst h
    · cases a with
      | track =>
        right; left
        simp only [Track.exec, hpc]
        exact loopIteration_suspend t reply rest hposted hrecv hcl hall
      | mainLooper =>
        left
        simp only [Track.exec, runPosted]
        rw [if_neg (by omega)]
    · cases a with
      | track => right; left; rfl
      | mainLooper => right; right; left; rfl
    · cases a with
      | track => right; right; right; rfl
      | mainLooper => right; right; left; rfl
    · right; right; right
      obtain ⟨h1, _, b, h3⟩ := afterSnapshot_frame w (st.saved rest)
      exact exec_returned w _ b h3 h1 a

/-- C20 (amended): the loop of `track`, from its top with a packet `reply` for
this session next.  On `ADB_CLSE`, `track` returns true and sends nothing.  For
a packet with `data_length > 11` and `data[11] == SuspendPolicy::All` the
snapshot save is posted to the main looper and `track` waits: under every
schedule the state is one of the four of `run_suspend`, so nothing is sent
before the snapshot is saved; after it `track` sends only, returns, and returns
true exactly if its four sends succeed, the Resume command is answered with
OKAY and the reply to it arrives, the effects then being: snapshot save, OKAY,
the Resume command, OKAY for the reply, `ADB_CLSE`; if a send or receive fails
`track` returns false at that point.  For any other packet no snapshot is
posted or taken, OKAY is the only packet sent, and `track` goes on with the loop
if the send succeeds and returns false if not. -/
theorem track_loop_spec (w : JdwpCommandHeader → List Nat → List Nat) (st : Track)
    (reply : apacket) (rest : List (Option apacket)) (hpc : st.pc = Pc.loop)
    (hposted : st.posted = 0)
    (hrecv : recvPacketWithId st.incoming st.local_id = (some reply, rest)) :
    (reply.command = ADB_CLSE →
      (st.exec w Action.track).pc = Pc.returned true ∧
      (st.exec w Action.track).trace = st.trace ∧
      ∀ sched, Track.run w sched (st.exec w Action.track) = st.exec w Action.track) ∧
    (reply.command ≠ ADB_CLSE → ¬ suspendsAll reply →
      (st.exec w Action.track).trace
        = st.trace ++ [Effect.send st.ok_out (st.sendOk st.nSent)] ∧
      (st.exec w Action.track).posted = 0 ∧
      (st.exec w Action.track).pc
        = (if st.sendOk st.nSent = true then Pc.loop else Pc.returned false)) ∧
    (reply.command ≠ ADB_CLSE → suspendsAll reply →
      (∀ sched,
        Track.run w sched st = st ∨ Track.run w sched st = st.posted1 rest
          ∨ Track.run w sched st = st.saved rest
          ∨ Track.run w sched st = track.afterSnapshot w (st.saved rest)) ∧
      (st.posted1 rest).trace = st.trace ∧
      (st.saved rest).trace = st.trace ++ [Effect.snapshotSave "test_failure_snapshot"] ∧
      SendsOnly (st.saved rest) (track.afterSnapshot w (st.saved rest)) ∧
      (∃ b, (track.afterSnapshot w (st.saved rest)).pc = Pc.returned b) ∧
      ((track.afterSnapshot w (st.saved rest)).pc = Pc.returned true ↔
        st.sendOk st.nSent = true ∧ st.sendOk (st.nSent + 1) = true ∧
        (∃ okay rest1 reply2 rest2,
          recvPacketWithId rest st.local_id = (some okay, rest1) ∧
          okay.command = ADB_OKAY ∧
          recvPacketWithId rest1 st.local_id = (some reply2, rest2)) ∧
        st.sendOk (st.nSent + 2) = true ∧ st.sendOk (st.nSent + 3) = true) ∧
      ((track.afterSnapshot w (st.saved rest)).pc = Pc.returned true →
        (track.afterSnapshot w (st.saved rest)).trace = st.trace ++
          [Effect.snapshotSave "test_failure_snapshot",
            Effect.send st.ok_out true, Effect.send (resumePacket w st) true,
            Effect.send st.ok_out true,
            Effect.send (closePacket (resumePacket w st)) true])) := by
  refine ⟨?_, ?_, ?_⟩
  · intro hcl
    have e : st.exec w Action.track = ({ st with incoming := rest }).ret true := by
      simp only [Track.exec, hpc, track.loopIteration, hrecv]
      rw [if_pos hcl]
    rw [e]
    exact ⟨rfl, rfl, fun sched => run_returned w sched _ true rfl hposted⟩
  · intro hcl hno
    have hno2 : ¬ (reply.data_length > 11 ∧ reply.data[11]? = some SuspendPolicy.All) := hno
    have e : st.exec w Action.track
        = if (sendPacket { st with incoming := rest } st.ok_out).2 = true then
            (sendPacket { st with incoming := rest } st.ok_out).1
          else (sendPacket { st with incoming := rest } st.ok_out).1.ret false := by
      simp only [Track.exec, hpc, track.loopIteration, hrecv]
      rw [if_neg hcl, if_neg hno2]
    rw [e]
    by_cases hs : st.sendOk st.nSent = true
    · rw [if_pos hs, if_pos (by simpa [sendPacket] using hs)]
      exact ⟨rfl, hposted, hpc⟩
    · rw [if_neg hs, if_neg (by simpa [sendPacket] using hs)]
      exact ⟨rfl, hposted, rfl⟩
  · intro hcl hall
    refine ⟨fun sched => run_suspend w st reply rest hpc hposted hrecv hcl hall sched st
      (Or.inl rfl), rfl, rfl, afterSnapshot_sends w _, (afterSnapshot_frame w _).2.2,
      afterSnapshot_result w (st.saved rest), ?_⟩
    intro hres
    obtain ⟨h1, h2, ⟨okay, rest1, reply2, rest2, h3, h4, h5⟩, h6, h7⟩ :=
      (afterSnapshot_result w (st.saved rest)).mp hres
    have := afterSnapshot_success w (st.saved rest) okay reply2 rest1 rest2 h1 h2 h3 h4 h5 h6 h7
    rw [this]
    simp [Track.saved, resumePacket, resumeHeader]

/-- The event with `SuspendPolicy::All` arrives and every send and receive
succeeds: `track` returns true after snapshot save, OKAY, Resume, OKAY and the
close. -/
theorem track_loop_spec_witness :
    (Track.run demoWriteToBuffer [Action.track, Action.mainLooper, Action.track]
      (demoTrack (fun _ => true))).pc = Pc.returned true ∧
    (track.afterSnapshot demoWriteToBuffer
      ((demoTrack (fun _ => true)).saved [some demoAck, some demoReply])).trace
      = [Effect.snapshotSave "test_failure_snapshot",
          Effect.send demoOkOut true,
          Effect.send (resumePacket demoWriteToBuffer (demoTrack (fun _ => true))) true,
          Effect.send demoOkOut true,
          Effect.send (closePacket (resumePacket demoWriteToBuffer (demoTrack (fun _ => true))))
            true] := by
  have h := (track_loop_spec demoWriteToBuffer (demoTrack (fun _ => true)) demoEvent
    [some demoAck, some demoReply] rfl rfl (by decide)).2.2 (by decide)
    ⟨by decide, by decide⟩
  have hres : (track.afterSnapshot demoWriteToBuffer
      ((demoTrack (fun _ => true)).saved [some demoAck, some demoReply])).pc
      = Pc.returned true := by decide
  exact ⟨by decide, h.2.2.2.2.2.2 hres⟩

end Icebox
